import Mathlib

/-!
# host-arm-net: shared-memory ring and mailbox packet transport

A shallow embedding of `meta-nile/recipes-kernel/host-arm-net/files/host-arm-net.c`.

* Machine integers are naturals; every place where the C code computes in a fixed
  width carries an explicit `% 2 ^ 32` (or `% 2 ^ 16`).
* The mapped shared-memory region is a function from byte offset to byte. The
  control area lives inside it at `CONTROL_OFFSET`, as in the driver
  (`control_base = shared_mem + CONTROL_OFFSET`), and is accessed with 32-bit
  little-endian `readl` / `writel`.
* The mailbox register block is hardware; its behaviour is modelled in `Mbox`.
* Kernel services the driver calls (`dev_kfree_skb`, `netif_rx`,
  `netif_stop_queue`, ...) are recorded in fields of the state: the list of
  released packet handles, the list of delivered frames, the queue flag.
* Every device write (`memcpy_toio`, `writel`) is appended to `io_log` in program order.
* Loops whose termination depends on device contents take a bound on the number
  of iterations and return `none` when the bound is exhausted.
-/

namespace HostArmNet

/-! ## Constants (lines 23-102 of the source) -/

def XMB_WRITE_REG_OFFSET : Nat := 0x00
def XMB_READ_REG_OFFSET : Nat := 0x08
def XMB_STATUS_REG_OFFSET : Nat := 0x10
def XMB_ERROR_REG_OFFSET : Nat := 0x14
def XMB_SIT_REG_OFFSET : Nat := 0x18
def XMB_RIT_REG_OFFSET : Nat := 0x1C
def XMB_IS_REG_OFFSET : Nat := 0x20
def XMB_IE_REG_OFFSET : Nat := 0x24
def XMB_IP_REG_OFFSET : Nat := 0x28
def XMB_CTRL_REG_OFFSET : Nat := 0x2C

def XMB_STATUS_FIFO_EMPTY : Nat := 0x00000001
def XMB_STATUS_FIFO_FULL : Nat := 0x00000002
def XMB_STATUS_STA : Nat := 0x00000004
def XMB_STATUS_RTA : Nat := 0x00000008

def XMB_IX_STA : Nat := 0x01
def XMB_IX_RTA : Nat := 0x02
def XMB_IX_ERR : Nat := 0x04

def XMB_ERROR_FIFO_EMPTY : Nat := 0x00000001
def XMB_ERROR_FIFO_FULL : Nat := 0x00000002

def XMB_CTRL_RESET_SEND_FIFO : Nat := 0x00000001
def XMB_CTRL_RESET_RECV_FIFO : Nat := 0x00000002

def TX_RING_OFFSET : Nat := 0x00000
def RX_RING_OFFSET : Nat := 0x20000
def CONTROL_OFFSET : Nat := 0x40000

def TX_RING_SIZE : Nat := 64
def RX_RING_SIZE : Nat := 64
def MAX_PACKET_SIZE : Nat := 1518
def RING_SPACING : Nat := 0x600

def MBOX_MSG_LENGTH_SHIFT : Nat := 16
def MBOX_MSG_LENGTH_MASK : Nat := 0xFFFF0000
def MBOX_MSG_INDEX_MASK : Nat := 0x0000FFFF

def CTRL_TX_HEAD : Nat := 0x00
def CTRL_TX_TAIL : Nat := 0x04
def CTRL_RX_HEAD : Nat := 0x08
def CTRL_RX_TAIL : Nat := 0x0C

/-- Length of a link-layer address (`ETH_ALEN` of the kernel headers). -/
def ETH_ALEN : Nat := 6

/-- IPv4 ethertype (`ETH_P_IP` of the kernel headers). -/
def ETH_P_IP : Nat := 0x0800

/-- Size of the packed `struct mac_header`: two addresses and a 16-bit type. -/
def MAC_HEADER_SIZE : Nat := ETH_ALEN + ETH_ALEN + 2

/-- Width of `u32`. -/
def U32 : Nat := 2 ^ 32

/-- Width of `u16`. -/
def U16 : Nat := 2 ^ 16

/-! ## Mailbox message codec (lines 73-86) -/

/-- The macro `MBOX_MSG_PACK(len, index)`, evaluated on `u32` operands. -/
def MBOX_MSG_PACK (len index : Nat) : Nat :=
  ((((len % U32) &&& 0xFFFF) <<< MBOX_MSG_LENGTH_SHIFT) % U32) ||| ((index % U32) &&& 0xFFFF)

/-- The macro `MBOX_MSG_GET_LENGTH(msg)`, evaluated on a `u32` operand. -/
def MBOX_MSG_GET_LENGTH (msg : Nat) : Nat :=
  ((msg % U32) &&& MBOX_MSG_LENGTH_MASK) >>> MBOX_MSG_LENGTH_SHIFT

/-- The macro `MBOX_MSG_GET_INDEX(msg)`, evaluated on a `u32` operand. -/
def MBOX_MSG_GET_INDEX (msg : Nat) : Nat :=
  (msg % U32) &&& MBOX_MSG_INDEX_MASK

/-! ## Bytes and mapped memory -/

/-- One octet. -/
abbrev Byte : Type := Fin 256

/-- The low octet of a number. -/
def toByte (v : Nat) : Byte := ⟨v % 256, Nat.mod_lt v (by decide)⟩

/-- A mapped I/O region, addressed by byte offset from its base. -/
abbrev IoMem : Type := Nat → Byte

/-- Kernel `memcpy_toio`: store the bytes `src` at offsets `dst, dst + 1, ...`. -/
def memcpy_toio (m : IoMem) (dst : Nat) (src : List Byte) : IoMem :=
  fun a => if dst ≤ a then (src[a - dst]?).getD (m a) else m a

/-- Kernel `memcpy_fromio`: the `len` bytes found at offsets `src, src + 1, ...`. -/
def memcpy_fromio (m : IoMem) (src len : Nat) : List Byte :=
  (List.range len).map (fun i => m (src + i))

/-- The four bytes of a 32-bit value in little-endian order. -/
def le32 (v : Nat) : List Byte :=
  [toByte v, toByte (v / 256), toByte (v / 65536), toByte (v / 16777216)]

/-- Kernel `writel`: a 32-bit little-endian store. -/
def writel (m : IoMem) (addr value : Nat) : IoMem :=
  memcpy_toio m addr (le32 value)

/-- Kernel `readl`: a 32-bit little-endian load. -/
def readl (m : IoMem) (addr : Nat) : Nat :=
  (m addr).val + 256 * (m (addr + 1)).val + 65536 * (m (addr + 2)).val
    + 16777216 * (m (addr + 3)).val

/-! ## The mailbox register block (hardware) -/

/-- Modelled from the spec: the mailbox hardware behind `mbox_base` (spec sections 4.1
and 6), which the driver only reaches through register reads and writes. Two
FIFOs of the same finite depth, oldest message first, and the interrupt, error
and threshold registers. -/
structure Mbox where
  send_fifo : List Nat
  recv_fifo : List Nat
  depth : Nat
  is_reg : Nat
  ie_reg : Nat
  error_reg : Nat
  sit_reg : Nat
  rit_reg : Nat

/-- Modelled from the spec: the value of the mailbox status register
(FIFO-empty=0x1, FIFO-full=0x2, send-threshold-active=0x4,
receive-threshold-active=0x8). -/
def Mbox.status (mb : Mbox) : Nat :=
  (if mb.recv_fifo.isEmpty then XMB_STATUS_FIFO_EMPTY else 0)
  + (if mb.depth ≤ mb.send_fifo.length then XMB_STATUS_FIFO_FULL else 0)
  + (if mb.send_fifo.length ≤ mb.sit_reg then XMB_STATUS_STA else 0)
  + (if mb.rit_reg < mb.recv_fifo.length then XMB_STATUS_RTA else 0)

/-- Modelled from the spec: a 32-bit read of a mailbox register. Reading the
data register pops the receive FIFO (a read of an empty FIFO returns 0 and
flags the error); reading the error register clears it; all other reads have
no effect on the device. -/
def Mbox.read (mb : Mbox) (reg_offset : Nat) : Nat × Mbox :=
  if reg_offset = XMB_READ_REG_OFFSET then
    match mb.recv_fifo with
    | [] => (0, { mb with error_reg := mb.error_reg ||| XMB_ERROR_FIFO_EMPTY,
                          is_reg := mb.is_reg ||| XMB_IX_ERR })
    | msg :: rest => (msg % U32, { mb with recv_fifo := rest })
  else if reg_offset = XMB_STATUS_REG_OFFSET then (mb.status, mb)
  else if reg_offset = XMB_ERROR_REG_OFFSET then (mb.error_reg % U32, { mb with error_reg := 0 })
  else if reg_offset = XMB_SIT_REG_OFFSET then (mb.sit_reg % U32, mb)
  else if reg_offset = XMB_RIT_REG_OFFSET then (mb.rit_reg % U32, mb)
  else if reg_offset = XMB_IS_REG_OFFSET then (mb.is_reg % U32, mb)
  else if reg_offset = XMB_IE_REG_OFFSET then (mb.ie_reg % U32, mb)
  else if reg_offset = XMB_IP_REG_OFFSET then ((mb.is_reg &&& mb.ie_reg) % U32, mb)
  else (0, mb)

/-- Modelled from the spec: a 32-bit write of a mailbox register. Writing the
data register appends to the send FIFO unless it is full (then the write is
lost and the error is flagged); writing the interrupt-status register clears
the bits that are set in the written mask; writing the control register
resets the selected FIFOs. -/
def Mbox.write (mb : Mbox) (reg_offset value : Nat) : Mbox :=
  if reg_offset = XMB_WRITE_REG_OFFSET then
    if mb.depth ≤ mb.send_fifo.length then
      { mb with error_reg := mb.error_reg ||| XMB_ERROR_FIFO_FULL,
                is_reg := mb.is_reg ||| XMB_IX_ERR }
    else { mb with send_fifo := mb.send_fifo ++ [value % U32] }
  else if reg_offset = XMB_SIT_REG_OFFSET then { mb with sit_reg := value % U32 }
  else if reg_offset = XMB_RIT_REG_OFFSET then { mb with rit_reg := value % U32 }
  else if reg_offset = XMB_IS_REG_OFFSET then
    { mb with is_reg := (mb.is_reg % U32) &&& ((U32 - 1) ^^^ (value % U32)) }
  else if reg_offset = XMB_IE_REG_OFFSET then { mb with ie_reg := value % U32 }
  else if reg_offset = XMB_CTRL_REG_OFFSET then
    { mb with
      send_fifo := if value &&& XMB_CTRL_RESET_SEND_FIFO ≠ 0 then [] else mb.send_fifo,
      recv_fifo := if value &&& XMB_CTRL_RESET_RECV_FIFO ≠ 0 then [] else mb.recv_fifo }
  else mb

/-! ## Driver state -/

/-- A packet buffer of the network stack (`struct sk_buff`): `handle` stands
for the pointer identity, `data` for the `len` bytes at `skb->data`. -/
structure sk_buff where
  handle : Nat
  data : List Byte
deriving DecidableEq

/-- The field `skb->len`, an `unsigned int`. -/
def sk_buff.len (skb : sk_buff) : Nat := skb.data.length

/-- The counters of `struct net_device_stats` the driver updates. They are
`unsigned long`; their wrap at the word size is not modelled. -/
structure net_device_stats where
  rx_packets : Nat
  rx_bytes : Nat
  rx_dropped : Nat
  tx_packets : Nat
  tx_bytes : Nat
  tx_dropped : Nat

/-- The packed `struct mac_header` (lines 96-101); `ethertype` holds the
16-bit value of the `__be16` field as the little-endian CPU sees it. -/
structure mac_header where
  dest_mac : List Byte
  src_mac : List Byte
  ethertype : Nat

/-- Kernel `htons` on the little-endian CPU: swap the two bytes. -/
def htons (x : Nat) : Nat := ((x % 256) * 256 + (x / 256) % 256) % U16

/-- The in-memory image of a `struct mac_header`, `MAC_HEADER_SIZE` bytes. -/
def mac_header.bytes (h : mac_header) : List Byte :=
  h.dest_mac ++ h.src_mac ++ [toByte h.ethertype, toByte (h.ethertype / 256)]

/-- One device write, as it appears on the bus. -/
inductive IoWrite where
  | shared (offset : Nat) (bytes : List Byte)
  | control (offset value : Nat)
  | mailbox (reg_offset value : Nat)

/-- The value `netdev_tx_t` returned by the transmit hook. -/
inductive netdev_tx_t where
  | NETDEV_TX_OK
  | NETDEV_TX_BUSY
deriving DecidableEq, Repr

/-- The value `irqreturn_t` returned by the interrupt handler. -/
inductive irqreturn_t where
  | IRQ_NONE
  | IRQ_HANDLED
deriving DecidableEq, Repr

/-- The private device structure (lines 104-126) together with the devices it
points to and the record of kernel services called.

* `shared_mem`: the region behind `priv->shared_mem` (control area included);
* `mbox`: the register block behind `priv->mbox_base`;
* `tx_skb`: the array of `TX_RING_SIZE` packet pointers, `none` for `NULL`;
* `dev_addr`: the bytes at `ndev->dev_addr`;
* `queue_stopped`: the transmit-queue flag of the net device;
* `freed`: packets passed to `dev_kfree_skb` / `dev_kfree_skb_irq`, in order;
* `delivered`: frames passed to `netif_rx`, in order;
* `io_log`: the device writes performed, in order. -/
structure host_arm_net_priv where
  shared_mem : IoMem
  mbox : Mbox
  tx_head : Nat
  tx_tail : Nat
  rx_head : Nat
  rx_tail : Nat
  tx_skb : Nat → Option sk_buff
  stats : net_device_stats
  dev_addr : Nat → Byte
  queue_stopped : Bool
  freed : List sk_buff
  delivered : List (List Byte)
  io_log : List IoWrite

/-! ## Register access (lines 128-221) -/

def host_arm_net_write_reg (priv : host_arm_net_priv) (offset value : Nat) : host_arm_net_priv :=
  { priv with
    shared_mem := writel priv.shared_mem (CONTROL_OFFSET + offset) value,
    io_log := priv.io_log ++ [IoWrite.control offset (value % U32)] }

def host_arm_net_read_reg (priv : host_arm_net_priv) (offset : Nat) : Nat :=
  readl priv.shared_mem (CONTROL_OFFSET + offset)

def mbox_read_reg (priv : host_arm_net_priv) (reg_offset : Nat) : Nat × host_arm_net_priv :=
  ((priv.mbox.read reg_offset).1, { priv with mbox := (priv.mbox.read reg_offset).2 })

def mbox_write_reg (priv : host_arm_net_priv) (reg_offset value : Nat) : host_arm_net_priv :=
  { priv with
    mbox := priv.mbox.write reg_offset value,
    io_log := priv.io_log ++ [IoWrite.mailbox reg_offset (value % U32)] }

def mbox_write_data (priv : host_arm_net_priv) (value : Nat) : host_arm_net_priv :=
  mbox_write_reg priv XMB_WRITE_REG_OFFSET value

def mbox_read_data (priv : host_arm_net_priv) : Nat × host_arm_net_priv :=
  mbox_read_reg priv XMB_READ_REG_OFFSET

def mbox_is_empty (priv : host_arm_net_priv) : Bool × host_arm_net_priv :=
  (((mbox_read_reg priv XMB_STATUS_REG_OFFSET).1 &&& XMB_STATUS_FIFO_EMPTY) != 0,
   (mbox_read_reg priv XMB_STATUS_REG_OFFSET).2)

def mbox_is_full (priv : host_arm_net_priv) : Bool × host_arm_net_priv :=
  (((mbox_read_reg priv XMB_STATUS_REG_OFFSET).1 &&& XMB_STATUS_FIFO_FULL) != 0,
   (mbox_read_reg priv XMB_STATUS_REG_OFFSET).2)

def mbox_reset_fifos (priv : host_arm_net_priv) : host_arm_net_priv :=
  mbox_write_reg priv XMB_CTRL_REG_OFFSET (XMB_CTRL_RESET_SEND_FIFO ||| XMB_CTRL_RESET_RECV_FIFO)

def mbox_enable_interrupts (priv : host_arm_net_priv) : host_arm_net_priv :=
  mbox_write_reg priv XMB_IE_REG_OFFSET (XMB_IX_STA ||| XMB_IX_RTA ||| XMB_IX_ERR)

def mbox_disable_interrupts (priv : host_arm_net_priv) : host_arm_net_priv :=
  mbox_write_reg priv XMB_IE_REG_OFFSET 0

def mbox_get_interrupt_status (priv : host_arm_net_priv) : Nat × host_arm_net_priv :=
  mbox_read_reg priv XMB_IS_REG_OFFSET

def mbox_clear_interrupt_status (priv : host_arm_net_priv) (mask : Nat) : host_arm_net_priv :=
  mbox_write_reg priv XMB_IS_REG_OFFSET mask

def mbox_set_receive_interrupt_threshold (priv : host_arm_net_priv) (mask : Nat) :
    host_arm_net_priv :=
  mbox_write_reg priv XMB_RIT_REG_OFFSET mask

def host_arm_net_update_tx_tail (priv : host_arm_net_priv) : host_arm_net_priv :=
  host_arm_net_write_reg priv CTRL_TX_TAIL priv.tx_tail

/-! ## Receive path (lines 223-283) -/

/-- The three early returns of `host_arm_net_receive_packet`: count the drop. -/
def rx_drop (priv : host_arm_net_priv) : host_arm_net_priv :=
  { priv with stats := { priv.stats with rx_dropped := priv.stats.rx_dropped + 1 } }

/-- The function `host_arm_net_receive_packet(priv, pkt_len, pkt_index)`, both
arguments `u16`. `alloc_ok` is the outcome of `netdev_alloc_skb`. The frame
handed to `netif_rx` is the buffer filled by `memcpy_fromio`. -/
def host_arm_net_receive_packet (priv : host_arm_net_priv) (pkt_len pkt_index : Nat)
    (alloc_ok : Bool) : host_arm_net_priv :=
  let max_rx_size := CONTROL_OFFSET - RX_RING_OFFSET
  if pkt_len = 0 ∨ pkt_len > MAX_PACKET_SIZE then rx_drop priv
  else
    let pkt_offset := (pkt_index * RING_SPACING) % U32
    if (pkt_offset + pkt_len) % U32 > max_rx_size then rx_drop priv
    else if alloc_ok = false then rx_drop priv
    else
      let pkt_data := RX_RING_OFFSET + pkt_offset
      let skb_data := memcpy_fromio priv.shared_mem pkt_data pkt_len
      let priv1 := { priv with
        delivered := priv.delivered ++ [skb_data],
        stats := { priv.stats with
          rx_packets := priv.stats.rx_packets + 1,
          rx_bytes := priv.stats.rx_bytes + pkt_len },
        rx_head := ((priv.rx_head + 1) % U32) % RX_RING_SIZE }
      host_arm_net_write_reg priv1 CTRL_RX_HEAD priv1.rx_head

/-! ## Open (lines 285-311) -/

def host_arm_net_open (priv : host_arm_net_priv) : host_arm_net_priv :=
  let priv0 := { priv with tx_head := 0, tx_tail := 0, rx_head := 0, rx_tail := 0 }
  let priv1 := host_arm_net_write_reg priv0 CTRL_TX_HEAD priv0.tx_head
  let priv2 := host_arm_net_write_reg priv1 CTRL_TX_TAIL priv1.tx_tail
  let priv3 := host_arm_net_write_reg priv2 CTRL_RX_HEAD priv2.rx_head
  let priv4 := host_arm_net_write_reg priv3 CTRL_RX_TAIL priv3.rx_tail
  let priv5 := mbox_reset_fifos priv4
  let priv6 := mbox_set_receive_interrupt_threshold priv5 0
  let priv7 := mbox_enable_interrupts priv6
  { priv7 with queue_stopped := false }

/-! ## Transmit path (lines 326-393) -/

/-- The function `host_arm_net_start_xmit(skb, ndev)`. -/
def host_arm_net_start_xmit (priv : host_arm_net_priv) (skb : sk_buff) :
    netdev_tx_t × host_arm_net_priv :=
  let total_len := (MAC_HEADER_SIZE + skb.len) % U32
  if total_len > MAX_PACKET_SIZE then
    (netdev_tx_t.NETDEV_TX_OK,
     { priv with
       stats := { priv.stats with tx_dropped := priv.stats.tx_dropped + 1 },
       freed := priv.freed ++ [skb] })
  else
    let next_tail := ((priv.tx_tail + 1) % U32) % TX_RING_SIZE
    if next_tail = priv.tx_head then
      (netdev_tx_t.NETDEV_TX_BUSY, { priv with queue_stopped := true })
    else
      let mac_hdr : mac_header :=
        { dest_mac := List.replicate ETH_ALEN (toByte 0xFF),
          src_mac := (List.range ETH_ALEN).map priv.dev_addr,
          ethertype := htons ETH_P_IP }
      let buffer_offset := (TX_RING_OFFSET + priv.tx_tail * RING_SPACING) % U32
      let priv1 := { priv with
        shared_mem := memcpy_toio priv.shared_mem buffer_offset mac_hdr.bytes,
        io_log := priv.io_log ++ [IoWrite.shared buffer_offset mac_hdr.bytes] }
      let priv2 := { priv1 with
        shared_mem := memcpy_toio priv1.shared_mem (buffer_offset + MAC_HEADER_SIZE) skb.data,
        io_log := priv1.io_log ++ [IoWrite.shared (buffer_offset + MAC_HEADER_SIZE) skb.data] }
      let priv3 := { priv2 with
        tx_skb := fun i => if i = priv2.tx_tail then some skb else priv2.tx_skb i }
      let tx_index := priv3.tx_tail
      let priv4 := { priv3 with tx_tail := next_tail }
      let priv5 := host_arm_net_update_tx_tail priv4
      let priv6 := (mbox_is_full priv5).2
      let priv7 :=
        if (mbox_is_full priv5).1 = false then
          mbox_write_data priv6 (MBOX_MSG_PACK total_len tx_index)
        else priv6
      (netdev_tx_t.NETDEV_TX_OK,
       { priv7 with
         stats := { priv7.stats with
           tx_packets := priv7.stats.tx_packets + 1,
           tx_bytes := priv7.stats.tx_bytes + total_len } })

/-! ## Interrupt handler (lines 395-457) -/

/-- The loop of lines 420-426: drain the mailbox, at most `fuel` messages.
`alloc i` is the outcome of the allocation for the `i`-th message read. -/
def rx_drain_loop : Nat → (Nat → Bool) → host_arm_net_priv → Option host_arm_net_priv
  | fuel, alloc, priv =>
    if (mbox_is_empty priv).1 = false then
      match fuel with
      | 0 => none
      | fuel + 1 =>
        let priv0 := (mbox_is_empty priv).2
        let msg := (mbox_read_data priv0).1
        let priv1 := (mbox_read_data priv0).2
        let pkt_len := MBOX_MSG_GET_LENGTH msg % U16
        let pkt_index := MBOX_MSG_GET_INDEX msg % U16
        rx_drain_loop fuel (fun i => alloc (i + 1))
          (host_arm_net_receive_packet priv1 pkt_len pkt_index (alloc 0))
    else some (mbox_is_empty priv).2

/-- The body of the loop of lines 434-440: release the packet recorded at
`tx_tail`, if any, and advance `tx_tail`. -/
def tx_free_body (priv : host_arm_net_priv) : host_arm_net_priv :=
  let priv1 :=
    match priv.tx_skb priv.tx_tail with
    | some skb =>
      { priv with
        freed := priv.freed ++ [skb],
        tx_skb := fun i => if i = priv.tx_tail then none else priv.tx_skb i }
    | none => priv
  { priv1 with tx_tail := ((priv1.tx_tail + 1) % U32) % TX_RING_SIZE }

/-- The loop of lines 434-440: walk `tx_tail` up to `tx_head`, at most `fuel` iterations. -/
def tx_free_loop : Nat → host_arm_net_priv → Option host_arm_net_priv
  | fuel, priv =>
    if priv.tx_tail ≠ priv.tx_head then
      match fuel with
      | 0 => none
      | fuel + 1 => tx_free_loop fuel (tx_free_body priv)
    else some priv

/-- The send-threshold branch of `host_arm_net_interrupt` (lines 429-443). -/
def irq_send_threshold (fuel : Nat) (priv : host_arm_net_priv) : Option host_arm_net_priv :=
  let priv1 := { priv with tx_head := host_arm_net_read_reg priv CTRL_TX_HEAD }
  (tx_free_loop fuel priv1).map (fun priv2 => { priv2 with queue_stopped := false })

/-- The receive-threshold branch of `host_arm_net_interrupt` (lines 418-427). -/
def irq_receive_threshold (fuel : Nat) (alloc : Nat → Bool) (priv : host_arm_net_priv) :
    Option host_arm_net_priv :=
  rx_drain_loop fuel alloc priv

/-- The function `host_arm_net_interrupt(irq, dev_id)`. Each loop may run at
most `fuel` iterations; `none` means a loop did not finish within the bound. -/
def host_arm_net_interrupt (fuel : Nat) (alloc : Nat → Bool) (priv : host_arm_net_priv) :
    Option (irqreturn_t × host_arm_net_priv) :=
  let mbox_status := (mbox_get_interrupt_status priv).1
  let priv0 := (mbox_get_interrupt_status priv).2
  if mbox_status = 0 then some (irqreturn_t.IRQ_NONE, priv0)
  else
    (if mbox_status &&& XMB_IX_RTA ≠ 0 then irq_receive_threshold fuel alloc priv0
     else some priv0).bind fun priv1 =>
    (if mbox_status &&& XMB_IX_STA ≠ 0 then irq_send_threshold fuel priv1
     else some priv1).bind fun priv2 =>
    let priv3 :=
      if mbox_status &&& XMB_IX_ERR ≠ 0 then (mbox_read_reg priv2 XMB_ERROR_REG_OFFSET).2
      else priv2
    some (irqreturn_t.IRQ_HANDLED, mbox_clear_interrupt_status priv3 mbox_status)

/-! ## Probe, environment and runs -/

/-- The private data after a successful `host_arm_net_probe` (lines 474-590), before open:
`alloc_etherdev` zeroes the structure, `kcalloc` zeroes the packet table, and
the devices and the link address are what the platform provides. -/
def probed_priv (shared_mem : IoMem) (mbox : Mbox) (dev_addr : Nat → Byte) :
    host_arm_net_priv :=
  { shared_mem := shared_mem
    mbox := mbox
    tx_head := 0
    tx_tail := 0
    rx_head := 0
    rx_tail := 0
    tx_skb := fun _ => none
    stats := { rx_packets := 0, rx_bytes := 0, rx_dropped := 0,
               tx_packets := 0, tx_bytes := 0, tx_dropped := 0 }
    dev_addr := dev_addr
    queue_stopped := false
    freed := []
    delivered := []
    io_log := [] }

/-- The peer processor stores `value` in a control-area field. -/
def peer_write_reg (priv : host_arm_net_priv) (offset value : Nat) : host_arm_net_priv :=
  { priv with shared_mem := writel priv.shared_mem (CONTROL_OFFSET + offset) value }

/-- The mailbox hardware sets bits of its interrupt-status register. -/
def mbox_raise (priv : host_arm_net_priv) (bits : Nat) : host_arm_net_priv :=
  { priv with mbox := { priv.mbox with is_reg := priv.mbox.is_reg ||| bits } }

/-- What can happen to an opened transport on the transmit side. -/
inductive TxEvent where
  | xmit (skb : sk_buff)
  | tx_irq (head : Nat)

/-- One transmit-side event: a call of `host_arm_net_start_xmit`, or the peer
reporting `head` in the control-area `tx_head` field followed by a
send-threshold interrupt. The result is the returned code (for a submission)
and the next state. -/
def tx_step (priv : host_arm_net_priv) : TxEvent → Option (Option netdev_tx_t × host_arm_net_priv)
  | TxEvent.xmit skb =>
    some (some (host_arm_net_start_xmit priv skb).1, (host_arm_net_start_xmit priv skb).2)
  | TxEvent.tx_irq head =>
    (host_arm_net_interrupt TX_RING_SIZE (fun _ => true)
      (mbox_raise (peer_write_reg priv CTRL_TX_HEAD head) XMB_IX_STA)).map
      (fun r => (none, r.2))

/-- Run a sequence of transmit-side events; the codes returned by the submissions are
collected in order. -/
def tx_run : host_arm_net_priv → List TxEvent → Option (List netdev_tx_t × host_arm_net_priv)
  | priv, [] => some ([], priv)
  | priv, e :: es =>
    match tx_step priv e with
    | none => none
    | some (ret, priv1) =>
      match tx_run priv1 es with
      | none => none
      | some (rets, priv2) => some (ret.toList ++ rets, priv2)

/-- Number of non-empty entries of the pending-transmit table `tx_skb`. -/
def tx_pending (priv : host_arm_net_priv) : Nat :=
  ((List.range TX_RING_SIZE).filter (fun i => (priv.tx_skb i).isSome)).length

/-- A mailbox with empty FIFOs of depth 16 and cleared registers. -/
def Mbox.idle : Mbox :=
  { send_fifo := [], recv_fifo := [], depth := 16, is_reg := 0, ie_reg := 0,
    error_reg := 0, sit_reg := 0, rit_reg := 0 }

/-- A freshly probed and opened transport on zeroed memory with link address 02:00:00:00:00:01. -/
def fresh_priv : host_arm_net_priv :=
  host_arm_net_open
    (probed_priv (fun _ => 0) Mbox.idle
      (fun i => if i = 0 then 2 else if i = 5 then 1 else 0))

/-- A packet of `n` zero bytes. -/
def zero_skb (handle n : Nat) : sk_buff := { handle := handle, data := List.replicate n 0 }

/-- Sixty-three submissions of 100-byte packets with handles 0 .. 62: they fill a
freshly opened ring. -/
def fill_events : List TxEvent :=
  (List.range 63).map (fun i => TxEvent.xmit (zero_skb i 100))

/-- What can happen to an opened transport: a submission, an interrupt (with the
iteration bound and the allocation outcomes it runs under), or the peer processor
and the mailbox hardware leaving arbitrary contents in shared memory (control area
included) and in the mailbox. -/
inductive Event where
  | xmit (skb : sk_buff)
  | irq (fuel : Nat) (alloc : Nat → Bool)
  | device (shared_mem : IoMem) (mbox : Mbox)

/-- One event. An interrupt whose handler does not return gives `none`. -/
def step (priv : host_arm_net_priv) : Event → Option host_arm_net_priv
  | Event.xmit skb => some (host_arm_net_start_xmit priv skb).2
  | Event.irq fuel alloc => (host_arm_net_interrupt fuel alloc priv).map (fun r => r.2)
  | Event.device shared_mem mbox => some { priv with shared_mem := shared_mem, mbox := mbox }

/-- Run a sequence of events. -/
def run : host_arm_net_priv → List Event → Option host_arm_net_priv
  | priv, [] => some priv
  | priv, e :: es =>
    match step priv e with
    | none => none
    | some priv1 => run priv1 es

/-- The length the handler decodes from a mailbox message (line 422, a `u16`). -/
def msg_len (msg : Nat) : Nat := MBOX_MSG_GET_LENGTH msg % U16

/-- The slot index the handler decodes from a mailbox message (line 423, a `u16`). -/
def msg_index (msg : Nat) : Nat := MBOX_MSG_GET_INDEX msg % U16

/-- Reference definition for the receive drain (spec 4.2, `rx_dequeue` steps 1 and 2):
a notification is valid when its length is in `1 .. 1518` and
`index * spacing + length` does not exceed the size of the RX ring area. -/
def spec_rx_valid (msg : Nat) : Bool :=
  decide (msg_len msg ≠ 0 ∧ msg_len msg ≤ 1518 ∧ msg_index msg * 1536 + msg_len msg ≤ 0x20000)

/-- Reference definition for the receive drain: the notifications of a queue that are
accepted, in queue order; `alloc i` tells whether a buffer is available for the
`i`-th notification of the queue. -/
def spec_rx_accepted : (Nat → Bool) → List Nat → List Nat
  | _, [] => []
  | alloc, msg :: rest =>
    if spec_rx_valid msg && alloc 0 then msg :: spec_rx_accepted (fun i => alloc (i + 1)) rest
    else spec_rx_accepted (fun i => alloc (i + 1)) rest

/-- Reference definition for the receive drain (spec 4.2, `rx_dequeue` step 3): the
`length` bytes at `index * spacing` of the RX ring area. -/
def spec_rx_frame (mem : IoMem) (msg : Nat) : List Byte :=
  memcpy_fromio mem (0x20000 + msg_index msg * 1536) (msg_len msg)

/-- The mailbox register writes of a log, in order, as (register offset, value). -/
def mailbox_writes (log : List IoWrite) : List (Nat × Nat) :=
  log.filterMap fun w =>
    match w with
    | IoWrite.mailbox reg_offset value => some (reg_offset, value)
    | _ => none

/-- The control-area writes of a log, in order, as (field offset, value). -/
def control_writes (log : List IoWrite) : List (Nat × Nat) :=
  log.filterMap fun w =>
    match w with
    | IoWrite.control offset value => some (offset, value)
    | _ => none

/-- The bulk writes to the shared rings of a log, in order, as (byte offset, bytes). -/
def shared_writes (log : List IoWrite) : List (Nat × List Byte) :=
  log.filterMap fun w =>
    match w with
    | IoWrite.shared offset bytes => some (offset, bytes)
    | _ => none

/-! ## Arithmetic of the message codec -/

theorem and_ffff_eq_mod (x : Nat) : x &&& 0xFFFF = x % 65536 :=
  Nat.and_pow_two_sub_one_eq_mod x 16

theorem and_length_mask_shift (x : Nat) (h : x < 2 ^ 32) :
    (x &&& 0xFFFF0000) >>> 16 = x / 65536 := by
  apply Nat.eq_of_testBit_eq
  intro i
  rw [← Nat.shiftRight_eq_div_pow x 16]
  simp only [Nat.testBit_shiftRight, Nat.testBit_and]
  have h1 : (0xFFFF0000 : Nat) = (2 ^ 16 - 1) <<< 16 := by decide
  rw [h1, Nat.testBit_shiftLeft, Nat.testBit_two_pow_sub_one]
  by_cases hi : i < 16
  · simp [hi]
  · have hx : x.testBit (16 + i) = false := by
      apply Nat.testBit_lt_two_pow
      calc x < 2 ^ 32 := h
        _ ≤ 2 ^ (16 + i) := Nat.pow_le_pow_right (by decide) (by omega)
    simp [hx]

theorem shift_or_eq_add (a b : Nat) (hb : b < 65536) : (a <<< 16) ||| b = a * 65536 + b := by
  have h := @Nat.mul_add_lt_is_or 16 b (by simpa using hb) a
  rw [Nat.shiftLeft_eq, Nat.mul_comm a, ← h]

theorem pack_eq (len index : Nat) :
    MBOX_MSG_PACK len index = (len % 65536) * 65536 + index % 65536 := by
  unfold MBOX_MSG_PACK MBOX_MSG_LENGTH_SHIFT U32
  rw [and_ffff_eq_mod, and_ffff_eq_mod]
  have h1 : len % 2 ^ 32 % 65536 = len % 65536 := by omega
  have h2 : index % 2 ^ 32 % 65536 = index % 65536 := by omega
  rw [h1, h2]
  have h3 : (len % 65536) <<< 16 = (len % 65536) * 65536 := by rw [Nat.shiftLeft_eq]
  have h4 : ((len % 65536) <<< 16) % 2 ^ 32 = (len % 65536) <<< 16 := by
    rw [h3]; omega
  rw [h4]
  exact shift_or_eq_add _ _ (Nat.mod_lt _ (by decide))

theorem get_length_eq (msg : Nat) : MBOX_MSG_GET_LENGTH msg = (msg % 2 ^ 32) / 65536 := by
  unfold MBOX_MSG_GET_LENGTH MBOX_MSG_LENGTH_SHIFT MBOX_MSG_LENGTH_MASK U32
  exact and_length_mask_shift _ (Nat.mod_lt _ (by decide))

theorem get_index_eq (msg : Nat) : MBOX_MSG_GET_INDEX msg = msg % 65536 := by
  unfold MBOX_MSG_GET_INDEX MBOX_MSG_INDEX_MASK U32
  rw [and_ffff_eq_mod]
  omega

/-! ## Mapped memory -/

theorem memcpy_fromio_length (m : IoMem) (src len : Nat) :
    (memcpy_fromio m src len).length = len := by
  simp [memcpy_fromio]

theorem memcpy_fromio_congr (m1 m2 : IoMem) (src len : Nat)
    (h : ∀ a, src ≤ a → a < src + len → m1 a = m2 a) :
    memcpy_fromio m1 src len = memcpy_fromio m2 src len := by
  unfold memcpy_fromio
  apply List.map_congr_left
  intro i hi
  have hi2 : i < len := List.mem_range.mp hi
  exact h (src + i) (by omega) (by omega)

theorem memcpy_toio_of_lt (m : IoMem) (dst : Nat) (src : List Byte) (a : Nat) (h : a < dst) :
    memcpy_toio m dst src a = m a := by
  simp [memcpy_toio, Nat.not_le.mpr h]

theorem memcpy_toio_of_ge (m : IoMem) (dst : Nat) (src : List Byte) (a : Nat)
    (h : dst + src.length ≤ a) : memcpy_toio m dst src a = m a := by
  unfold memcpy_toio
  have h1 : dst ≤ a := by omega
  have h2 : src[a - dst]? = none := List.getElem?_eq_none (by omega)
  simp [h1, h2]

theorem memcpy_toio_at (m : IoMem) (dst : Nat) (src : List Byte) (i : Nat)
    (h : i < src.length) : memcpy_toio m dst src (dst + i) = src.get ⟨i, h⟩ := by
  unfold memcpy_toio
  have h2 : src[dst + i - dst]? = some (src.get ⟨i, h⟩) := by
    rw [Nat.add_sub_cancel_left]
    exact List.getElem?_eq_getElem h
  rw [h2]
  simp

theorem memcpy_fromio_toio (m : IoMem) (dst : Nat) (src : List Byte) :
    memcpy_fromio (memcpy_toio m dst src) dst src.length = src := by
  apply List.ext_get
  · simp [memcpy_fromio]
  · intro i h1 h2
    simp only [memcpy_fromio, List.get_eq_getElem, List.getElem_map, List.getElem_range]
    rw [memcpy_toio_at m dst src i h2]
    rfl

theorem memcpy_fromio_add (m : IoMem) (src n1 n2 : Nat) :
    memcpy_fromio m src (n1 + n2) = memcpy_fromio m src n1 ++ memcpy_fromio m (src + n1) n2 := by
  unfold memcpy_fromio
  rw [List.range_add, List.map_append, List.map_map]
  congr 1
  apply List.map_congr_left
  intro i _
  simp [Nat.add_assoc]

theorem readl_congr (m1 m2 : IoMem) (addr : Nat)
    (h : ∀ a, addr ≤ a → a < addr + 4 → m1 a = m2 a) : readl m1 addr = readl m2 addr := by
  unfold readl
  rw [h addr (by omega) (by omega), h (addr + 1) (by omega) (by omega),
    h (addr + 2) (by omega) (by omega), h (addr + 3) (by omega) (by omega)]

theorem writel_of_lt (m : IoMem) (addr value a : Nat) (h : a < addr) :
    writel m addr value a = m a :=
  memcpy_toio_of_lt m addr _ a h

theorem writel_of_ge (m : IoMem) (addr value a : Nat) (h : addr + 4 ≤ a) :
    writel m addr value a = m a :=
  memcpy_toio_of_ge m addr _ a (by simpa [le32] using h)

theorem readl_writel (m : IoMem) (addr value : Nat) :
    readl (writel m addr value) addr = value % 2 ^ 32 := by
  have h0 := memcpy_toio_at m addr (le32 value) 0 (by simp [le32])
  have h1 := memcpy_toio_at m addr (le32 value) 1 (by simp [le32])
  have h2 := memcpy_toio_at m addr (le32 value) 2 (by simp [le32])
  have h3 := memcpy_toio_at m addr (le32 value) 3 (by simp [le32])
  simp only [Nat.add_zero] at h0
  unfold readl writel
  rw [h0, h1, h2, h3]
  simp only [le32, List.get_eq_getElem, List.getElem_cons_zero, List.getElem_cons_succ, toByte]
  omega

/-! ## The paths of the transmit hook -/

theorem zero_skb_len (handle n : Nat) : (zero_skb handle n).len = n := by
  simp [sk_buff.len, zero_skb]

/-- The synthetic header the transmit hook builds for a device. -/
theorem mac_header_bytes_eq (dev_addr : Nat → Byte) :
    mac_header.bytes
      { dest_mac := List.replicate ETH_ALEN (toByte 0xFF),
        src_mac := (List.range ETH_ALEN).map dev_addr,
        ethertype := htons ETH_P_IP }
    = List.replicate 6 (0xFF : Byte) ++ (List.range 6).map dev_addr ++ [(0x08 : Byte), 0x00] := by
  have h1 : toByte (htons ETH_P_IP) = (0x08 : Byte) := by decide
  have h2 : toByte (htons ETH_P_IP / 256) = (0x00 : Byte) := by decide
  have h3 : toByte 0xFF = (0xFF : Byte) := by decide
  simp only [mac_header.bytes, h1, h2, h3, ETH_ALEN]

theorem start_xmit_accept_shared_mem (priv : host_arm_net_priv) (skb : sk_buff)
    (h1 : ¬ ((MAC_HEADER_SIZE + skb.len) % U32 > MAX_PACKET_SIZE))
    (h2 : ¬ (((priv.tx_tail + 1) % U32) % TX_RING_SIZE = priv.tx_head)) :
    (host_arm_net_start_xmit priv skb).2.shared_mem
      = writel
          (memcpy_toio
            (memcpy_toio priv.shared_mem ((TX_RING_OFFSET + priv.tx_tail * RING_SPACING) % U32)
              (List.replicate 6 (0xFF : Byte) ++ (List.range 6).map priv.dev_addr
                ++ [(0x08 : Byte), 0x00]))
            ((TX_RING_OFFSET + priv.tx_tail * RING_SPACING) % U32 + MAC_HEADER_SIZE) skb.data)
          (CONTROL_OFFSET + CTRL_TX_TAIL) (((priv.tx_tail + 1) % U32) % TX_RING_SIZE) := by
  simp only [host_arm_net_start_xmit, h1, h2, if_false, mac_header_bytes_eq,
    host_arm_net_update_tx_tail, host_arm_net_write_reg, mbox_is_full, mbox_read_reg,
    mbox_write_data, mbox_write_reg]
  split <;> rfl

theorem start_xmit_accept_mbox (priv : host_arm_net_priv) (skb : sk_buff)
    (h1 : ¬ ((MAC_HEADER_SIZE + skb.len) % U32 > MAX_PACKET_SIZE))
    (h2 : ¬ (((priv.tx_tail + 1) % U32) % TX_RING_SIZE = priv.tx_head))
    (h3 : (mbox_is_full priv).1 = false) :
    (host_arm_net_start_xmit priv skb).2.mbox
      = priv.mbox.write XMB_WRITE_REG_OFFSET
          (MBOX_MSG_PACK ((MAC_HEADER_SIZE + skb.len) % U32) priv.tx_tail) := by
  have h4 : (priv.mbox.read XMB_STATUS_REG_OFFSET).2 = priv.mbox := by
    simp [Mbox.read, XMB_STATUS_REG_OFFSET, XMB_READ_REG_OFFSET]
  simp only [mbox_is_full, mbox_read_reg] at h3
  simp only [host_arm_net_start_xmit, h1, h2, if_false,
    host_arm_net_update_tx_tail, host_arm_net_write_reg, mbox_is_full, mbox_read_reg,
    mbox_write_data, mbox_write_reg, h3, if_true, h4]

theorem start_xmit_accept_ret (priv : host_arm_net_priv) (skb : sk_buff)
    (h1 : ¬ ((MAC_HEADER_SIZE + skb.len) % U32 > MAX_PACKET_SIZE))
    (h2 : ¬ (((priv.tx_tail + 1) % U32) % TX_RING_SIZE = priv.tx_head)) :
    (host_arm_net_start_xmit priv skb).1 = netdev_tx_t.NETDEV_TX_OK := by
  simp only [host_arm_net_start_xmit, h1, h2, ↓reduceIte]

theorem mbox_is_full_false_iff (priv : host_arm_net_priv) :
    (mbox_is_full priv).1 = false ↔ priv.mbox.send_fifo.length < priv.mbox.depth := by
  have hr : (priv.mbox.read XMB_STATUS_REG_OFFSET).1 = priv.mbox.status := by
    simp [Mbox.read, XMB_STATUS_REG_OFFSET, XMB_READ_REG_OFFSET]
  simp only [mbox_is_full, mbox_read_reg, hr, Mbox.status, XMB_STATUS_FIFO_EMPTY,
    XMB_STATUS_FIFO_FULL, XMB_STATUS_STA, XMB_STATUS_RTA]
  by_cases hf : priv.mbox.depth ≤ priv.mbox.send_fifo.length
  · have hn : ¬ priv.mbox.send_fifo.length < priv.mbox.depth := by omega
    simp only [hf, if_true, hn, iff_false]
    split <;> split <;> split <;> decide
  · have hn : priv.mbox.send_fifo.length < priv.mbox.depth := by omega
    simp only [hf, if_false, hn, iff_true]
    split <;> split <;> split <;> decide

theorem start_xmit_accept_slot (priv : host_arm_net_priv) (skb : sk_buff)
    (htail : priv.tx_tail < 64) (hfull : (priv.tx_tail + 1) % 64 ≠ priv.tx_head)
    (hlen : 14 + skb.len ≤ 1518) :
    memcpy_fromio (host_arm_net_start_xmit priv skb).2.shared_mem
        (priv.tx_tail * 1536) (14 + skb.len)
      = List.replicate 6 (0xFF : Byte) ++ (List.range 6).map priv.dev_addr
          ++ [(0x08 : Byte), 0x00] ++ skb.data := by
  have h1 : ¬ ((MAC_HEADER_SIZE + skb.len) % U32 > MAX_PACKET_SIZE) := by
    simp only [MAC_HEADER_SIZE, ETH_ALEN, U32, MAX_PACKET_SIZE]; omega
  have h2 : ¬ (((priv.tx_tail + 1) % U32) % TX_RING_SIZE = priv.tx_head) := by
    have : ((priv.tx_tail + 1) % U32) % TX_RING_SIZE = (priv.tx_tail + 1) % 64 := by
      simp only [U32, TX_RING_SIZE]; omega
    rw [this]; exact hfull
  have hoff : (TX_RING_OFFSET + priv.tx_tail * RING_SPACING) % U32 = priv.tx_tail * 1536 := by
    simp only [TX_RING_OFFSET, RING_SPACING, U32]; omega
  have hlen2 : skb.data.length = skb.len := rfl
  rw [start_xmit_accept_shared_mem priv skb h1 h2, hoff]
  generalize hhdr : List.replicate 6 (0xFF : Byte) ++ (List.range 6).map priv.dev_addr
      ++ [(0x08 : Byte), 0x00] = hdr
  have hhl : hdr.length = 14 := by rw [← hhdr]; simp
  have hms : priv.tx_tail * 1536 + MAC_HEADER_SIZE = priv.tx_tail * 1536 + 14 := rfl
  rw [hms]
  rw [memcpy_fromio_congr _
      (memcpy_toio (memcpy_toio priv.shared_mem (priv.tx_tail * 1536) hdr)
        (priv.tx_tail * 1536 + 14) skb.data) _ _
      (fun a _ hb => writel_of_lt _ _ _ a (by
        simp only [CONTROL_OFFSET, CTRL_TX_TAIL]; omega))]
  rw [memcpy_fromio_add]
  congr 1
  · rw [memcpy_fromio_congr _ (memcpy_toio priv.shared_mem (priv.tx_tail * 1536) hdr) _ _
      (fun a _ hb => memcpy_toio_of_lt _ _ _ a hb)]
    have := memcpy_fromio_toio priv.shared_mem (priv.tx_tail * 1536) hdr
    rw [hhl] at this
    exact this
  · have := memcpy_fromio_toio (memcpy_toio priv.shared_mem (priv.tx_tail * 1536) hdr)
      (priv.tx_tail * 1536 + 14) skb.data
    rw [hlen2] at this
    exact this

/-! ## The paths of the receive function -/

theorem receive_packet_of_bad_len (priv : host_arm_net_priv) (L I : Nat) (alloc_ok : Bool)
    (h : L = 0 ∨ L > MAX_PACKET_SIZE) :
    host_arm_net_receive_packet priv L I alloc_ok = rx_drop priv := by
  simp only [host_arm_net_receive_packet, h, ↓reduceIte]

theorem receive_packet_of_overflow (priv : host_arm_net_priv) (L I : Nat) (alloc_ok : Bool)
    (h1 : ¬ (L = 0 ∨ L > MAX_PACKET_SIZE))
    (h2 : ((I * RING_SPACING) % U32 + L) % U32 > CONTROL_OFFSET - RX_RING_OFFSET) :
    host_arm_net_receive_packet priv L I alloc_ok = rx_drop priv := by
  simp only [host_arm_net_receive_packet, h1, h2, ↓reduceIte]

theorem receive_packet_of_alloc_fail (priv : host_arm_net_priv) (L I : Nat) :
    host_arm_net_receive_packet priv L I false = rx_drop priv := by
  simp only [host_arm_net_receive_packet]
  split
  · rfl
  · split <;> rfl

theorem receive_packet_accept (priv : host_arm_net_priv) (L I : Nat)
    (h1 : ¬ (L = 0 ∨ L > MAX_PACKET_SIZE))
    (h2 : ¬ (((I * RING_SPACING) % U32 + L) % U32 > CONTROL_OFFSET - RX_RING_OFFSET)) :
    host_arm_net_receive_packet priv L I true
      = host_arm_net_write_reg
          { priv with
            delivered := priv.delivered ++
              [memcpy_fromio priv.shared_mem (RX_RING_OFFSET + (I * RING_SPACING) % U32) L],
            stats := { priv.stats with
              rx_packets := priv.stats.rx_packets + 1,
              rx_bytes := priv.stats.rx_bytes + L },
            rx_head := ((priv.rx_head + 1) % U32) % RX_RING_SIZE }
          CTRL_RX_HEAD (((priv.rx_head + 1) % U32) % RX_RING_SIZE) := by
  simp only [host_arm_net_receive_packet, h1, h2, ↓reduceIte]
  rfl

/-- No 32-bit wrap in the offset computation for 16-bit operands. -/
theorem rx_offset_no_wrap (L I : Nat) (hL : L < 65536) (hI : I < 65536) :
    (I * RING_SPACING) % U32 = I * 1536
    ∧ ((I * RING_SPACING) % U32 + L) % U32 = I * 1536 + L := by
  simp only [RING_SPACING, U32]; omega

theorem receive_packet_accept_delivered (priv : host_arm_net_priv) (L I : Nat)
    (h0 : L ≠ 0) (h1 : L ≤ 1518) (h2 : I * 1536 + L ≤ 0x20000) :
    (host_arm_net_receive_packet priv L I true).delivered
      = priv.delivered ++ [memcpy_fromio priv.shared_mem (0x20000 + I * 1536) L] := by
  have hw := rx_offset_no_wrap L I (by omega) (by omega)
  have ha : ¬ (L = 0 ∨ L > MAX_PACKET_SIZE) := by
    simp only [MAX_PACKET_SIZE]; omega
  have hb : ¬ (((I * RING_SPACING) % U32 + L) % U32 > CONTROL_OFFSET - RX_RING_OFFSET) := by
    rw [hw.2]; simp only [CONTROL_OFFSET, RX_RING_OFFSET]; omega
  rw [receive_packet_accept priv L I ha hb, hw.1]
  rfl

/-! ## The retirement walk -/

theorem tx_free_loop_done (fuel : Nat) (priv : host_arm_net_priv)
    (h : priv.tx_tail = priv.tx_head) : tx_free_loop fuel priv = some priv := by
  unfold tx_free_loop
  simp [h]

theorem tx_free_loop_step (fuel : Nat) (priv : host_arm_net_priv)
    (h : priv.tx_tail ≠ priv.tx_head) :
    tx_free_loop (fuel + 1) priv = tx_free_loop fuel (tx_free_body priv) := by
  rw [tx_free_loop]
  simp [h]

theorem tx_free_body_tx_tail (priv : host_arm_net_priv) :
    (tx_free_body priv).tx_tail = (priv.tx_tail + 1) % 64 := by
  unfold tx_free_body
  cases priv.tx_skb priv.tx_tail <;> simp only [U32, TX_RING_SIZE] <;> omega

theorem tx_free_body_frame (priv : host_arm_net_priv) :
    (tx_free_body priv).tx_head = priv.tx_head
    ∧ (tx_free_body priv).shared_mem = priv.shared_mem
    ∧ (tx_free_body priv).mbox = priv.mbox
    ∧ (tx_free_body priv).rx_head = priv.rx_head
    ∧ (tx_free_body priv).rx_tail = priv.rx_tail
    ∧ (tx_free_body priv).stats = priv.stats
    ∧ (tx_free_body priv).dev_addr = priv.dev_addr
    ∧ (tx_free_body priv).queue_stopped = priv.queue_stopped
    ∧ (tx_free_body priv).delivered = priv.delivered
    ∧ (tx_free_body priv).io_log = priv.io_log := by
  unfold tx_free_body
  cases priv.tx_skb priv.tx_tail <;> simp

/-- With both indices in range the walk finishes within the cyclic distance from
`tx_tail` to `tx_head`, ends with `tx_tail = tx_head`, and touches nothing but
`tx_tail`, the packet table and the list of released packets. -/
theorem tx_free_loop_terminates (d : Nat) :
    ∀ (fuel : Nat) (priv : host_arm_net_priv), priv.tx_tail < 64 → priv.tx_head < 64 →
      (priv.tx_head + 64 - priv.tx_tail) % 64 = d → d ≤ fuel →
      ∃ priv1, tx_free_loop fuel priv = some priv1
        ∧ priv1.tx_tail = priv.tx_head
        ∧ priv1.tx_head = priv.tx_head
        ∧ priv1.shared_mem = priv.shared_mem
        ∧ priv1.mbox = priv.mbox
        ∧ priv1.rx_head = priv.rx_head
        ∧ priv1.rx_tail = priv.rx_tail
        ∧ priv1.stats = priv.stats
        ∧ priv1.dev_addr = priv.dev_addr
        ∧ priv1.queue_stopped = priv.queue_stopped
        ∧ priv1.delivered = priv.delivered
        ∧ priv1.io_log = priv.io_log := by
  induction d with
  | zero =>
    intro fuel priv ht hh hd _
    have heq : priv.tx_tail = priv.tx_head := by omega
    exact ⟨priv, tx_free_loop_done fuel priv heq, heq, rfl, rfl, rfl, rfl, rfl, rfl, rfl, rfl,
      rfl, rfl⟩
  | succ d ih =>
    intro fuel priv ht hh hd hf
    have hne : priv.tx_tail ≠ priv.tx_head := by omega
    obtain ⟨fuel1, rfl⟩ : ∃ k, fuel = k + 1 := ⟨fuel - 1, by omega⟩
    have hb := tx_free_body_frame priv
    have hbt := tx_free_body_tx_tail priv
    obtain ⟨priv1, hrun, h1, h2, h3, h4, h5, h6, h7, h8, h9, h10, h11⟩ :=
      ih fuel1 (tx_free_body priv) (by rw [hbt]; omega) (by rw [hb.1]; exact hh)
        (by rw [hbt, hb.1]; omega) (by omega)
    refine ⟨priv1, ?_, ?_, ?_, ?_, ?_, ?_, ?_, ?_, ?_, ?_, ?_, ?_⟩
    · rw [tx_free_loop_step fuel1 priv hne]; exact hrun
    · rw [h1, hb.1]
    · rw [h2, hb.1]
    · rw [h3, hb.2.1]
    · rw [h4, hb.2.2.1]
    · rw [h5, hb.2.2.2.1]
    · rw [h6, hb.2.2.2.2.1]
    · rw [h7, hb.2.2.2.2.2.1]
    · rw [h8, hb.2.2.2.2.2.2.1]
    · rw [h9, hb.2.2.2.2.2.2.2.1]
    · rw [h10, hb.2.2.2.2.2.2.2.2.1]
    · rw [h11, hb.2.2.2.2.2.2.2.2.2]

theorem irq_send_threshold_eq (fuel : Nat) (priv : host_arm_net_priv) :
    irq_send_threshold fuel priv
      = (tx_free_loop fuel
          { priv with tx_head := host_arm_net_read_reg priv CTRL_TX_HEAD }).map
          (fun priv2 => { priv2 with queue_stopped := false }) := rfl

/-- A state whose indices already equal the reported head, with the queue awake,
is a fixed point of the send-threshold branch. -/
theorem irq_send_threshold_fixed (fuel : Nat) (q : host_arm_net_priv)
    (h1 : q.tx_tail = host_arm_net_read_reg q CTRL_TX_HEAD)
    (h2 : q.tx_head = host_arm_net_read_reg q CTRL_TX_HEAD)
    (h3 : q.queue_stopped = false) : irq_send_threshold fuel q = some q := by
  have e1 : ({ q with tx_head := host_arm_net_read_reg q CTRL_TX_HEAD } : host_arm_net_priv)
      = q := by
    rw [← h2]
  have e2 : ({ q with queue_stopped := false } : host_arm_net_priv) = q := by
    rw [← h3]
  rw [irq_send_threshold_eq, e1, tx_free_loop_done fuel q (by rw [h1, h2])]
  show some ({ q with queue_stopped := false } : host_arm_net_priv) = some q
  rw [e2]

/-- A frame that passes the size test is neither counted as dropped nor released. -/
theorem start_xmit_not_dropped (priv : host_arm_net_priv) (skb : sk_buff)
    (h1 : ¬ ((MAC_HEADER_SIZE + skb.len) % U32 > MAX_PACKET_SIZE)) :
    (host_arm_net_start_xmit priv skb).2.stats.tx_dropped = priv.stats.tx_dropped
    ∧ (host_arm_net_start_xmit priv skb).2.freed = priv.freed := by
  by_cases hfull : ((priv.tx_tail + 1) % U32) % TX_RING_SIZE = priv.tx_head
  · simp only [host_arm_net_start_xmit, h1, hfull, ↓reduceIte, and_self]
  · simp only [host_arm_net_start_xmit, h1, hfull, ↓reduceIte, host_arm_net_update_tx_tail,
      host_arm_net_write_reg, mbox_is_full, mbox_read_reg, mbox_write_data, mbox_write_reg]
    split <;> exact ⟨rfl, rfl⟩

/-- Fill then retire, advances short of the whole ring: after 63 accepted
submissions (handles 0 .. 62) and a refused one, when the peer reports
`tx_head = k` with `1 ≤ k ≤ 62` the send-threshold interrupt releases the handles
of slots `0 .. k - 1`, in that order, and the next submission is accepted. -/
theorem fill_then_retire_below_capacity :
    ∀ k ∈ List.range' 1 62,
      (tx_run fresh_priv
          (fill_events ++ [TxEvent.xmit (zero_skb 63 100), TxEvent.tx_irq k,
            TxEvent.xmit (zero_skb 64 100)])).map
        (fun r => (r.1, r.2.freed.map (fun s => s.handle)))
      = some (List.replicate 63 netdev_tx_t.NETDEV_TX_OK
          ++ [netdev_tx_t.NETDEV_TX_BUSY, netdev_tx_t.NETDEV_TX_OK], List.range k) := by
  decide!

/-! ## More on the paths of the transmit hook -/

theorem mbox_status_read (mb : Mbox) :
    mb.read XMB_STATUS_REG_OFFSET = (mb.status, mb) := by
  simp [Mbox.read, XMB_STATUS_REG_OFFSET, XMB_READ_REG_OFFSET]

theorem start_xmit_accept_io_log (priv : host_arm_net_priv) (skb : sk_buff)
    (h1 : ¬ ((MAC_HEADER_SIZE + skb.len) % U32 > MAX_PACKET_SIZE))
    (h2 : ¬ (((priv.tx_tail + 1) % U32) % TX_RING_SIZE = priv.tx_head)) :
    (host_arm_net_start_xmit priv skb).2.io_log
      = priv.io_log ++
          ([IoWrite.shared ((TX_RING_OFFSET + priv.tx_tail * RING_SPACING) % U32)
              (List.replicate 6 (0xFF : Byte) ++ (List.range 6).map priv.dev_addr
                ++ [(0x08 : Byte), 0x00]),
            IoWrite.shared ((TX_RING_OFFSET + priv.tx_tail * RING_SPACING) % U32 + MAC_HEADER_SIZE)
              skb.data,
            IoWrite.control CTRL_TX_TAIL ((((priv.tx_tail + 1) % U32) % TX_RING_SIZE) % U32)]
          ++ (if (mbox_is_full priv).1 = false then
                [IoWrite.mailbox XMB_WRITE_REG_OFFSET
                  (MBOX_MSG_PACK ((MAC_HEADER_SIZE + skb.len) % U32) priv.tx_tail % U32)]
              else [])) := by
  simp only [host_arm_net_start_xmit, h1, h2, ↓reduceIte, mac_header_bytes_eq,
    host_arm_net_update_tx_tail, host_arm_net_write_reg, mbox_is_full, mbox_read_reg,
    mbox_write_data, mbox_write_reg]
  split <;> simp

theorem start_xmit_accept_tx_skb (priv : host_arm_net_priv) (skb : sk_buff)
    (h1 : ¬ ((MAC_HEADER_SIZE + skb.len) % U32 > MAX_PACKET_SIZE))
    (h2 : ¬ (((priv.tx_tail + 1) % U32) % TX_RING_SIZE = priv.tx_head)) :
    (host_arm_net_start_xmit priv skb).2.tx_skb
      = fun i => if i = priv.tx_tail then some skb else priv.tx_skb i := by
  simp only [host_arm_net_start_xmit, h1, h2, ↓reduceIte,
    host_arm_net_update_tx_tail, host_arm_net_write_reg, mbox_is_full, mbox_read_reg,
    mbox_write_data, mbox_write_reg]
  split <;> rfl

theorem start_xmit_accept_indices (priv : host_arm_net_priv) (skb : sk_buff)
    (h1 : ¬ ((MAC_HEADER_SIZE + skb.len) % U32 > MAX_PACKET_SIZE))
    (h2 : ¬ (((priv.tx_tail + 1) % U32) % TX_RING_SIZE = priv.tx_head)) :
    (host_arm_net_start_xmit priv skb).2.tx_tail = ((priv.tx_tail + 1) % U32) % TX_RING_SIZE
    ∧ (host_arm_net_start_xmit priv skb).2.tx_head = priv.tx_head
    ∧ (host_arm_net_start_xmit priv skb).2.rx_head = priv.rx_head
    ∧ (host_arm_net_start_xmit priv skb).2.rx_tail = priv.rx_tail := by
  simp only [host_arm_net_start_xmit, h1, h2, ↓reduceIte,
    host_arm_net_update_tx_tail, host_arm_net_write_reg, mbox_is_full, mbox_read_reg,
    mbox_write_data, mbox_write_reg]
  split <;> exact ⟨rfl, rfl, rfl, rfl⟩

theorem start_xmit_accept_mbox_of_full (priv : host_arm_net_priv) (skb : sk_buff)
    (h1 : ¬ ((MAC_HEADER_SIZE + skb.len) % U32 > MAX_PACKET_SIZE))
    (h2 : ¬ (((priv.tx_tail + 1) % U32) % TX_RING_SIZE = priv.tx_head))
    (h3 : (mbox_is_full priv).1 = true) :
    (host_arm_net_start_xmit priv skb).2.mbox = priv.mbox := by
  simp only [mbox_is_full, mbox_read_reg, mbox_status_read] at h3
  have hne : ¬ (priv.mbox.status &&& XMB_STATUS_FIFO_FULL = 0) := by simpa using h3
  simp only [host_arm_net_start_xmit, h1, h2, ↓reduceIte,
    host_arm_net_update_tx_tail, host_arm_net_write_reg, mbox_is_full, mbox_read_reg,
    mbox_write_data, mbox_write_reg, mbox_status_read]
  simp [hne]

/-- The two tests of the transmit hook, for a frame of valid size on a ring that is
not full. -/
theorem start_xmit_tests (priv : host_arm_net_priv) (skb : sk_buff)
    (hfull : (priv.tx_tail + 1) % 64 ≠ priv.tx_head) (hlen : 14 + skb.len ≤ 1518) :
    ¬ ((MAC_HEADER_SIZE + skb.len) % U32 > MAX_PACKET_SIZE)
    ∧ ¬ (((priv.tx_tail + 1) % U32) % TX_RING_SIZE = priv.tx_head)
    ∧ (MAC_HEADER_SIZE + skb.len) % U32 = 14 + skb.len
    ∧ ((priv.tx_tail + 1) % U32) % TX_RING_SIZE = (priv.tx_tail + 1) % 64 := by
  have e1 : (MAC_HEADER_SIZE + skb.len) % U32 = 14 + skb.len := by
    simp only [MAC_HEADER_SIZE, ETH_ALEN, U32]; omega
  have e2 : ((priv.tx_tail + 1) % U32) % TX_RING_SIZE = (priv.tx_tail + 1) % 64 := by
    simp only [U32, TX_RING_SIZE]; omega
  refine ⟨?_, ?_, e1, e2⟩
  · rw [e1]; simp only [MAX_PACKET_SIZE]; omega
  · rw [e2]; exact hfull

theorem pack_lt (len index : Nat) : MBOX_MSG_PACK len index < 2 ^ 32 := by
  rw [pack_eq]; omega

theorem pack_mod (len index : Nat) : MBOX_MSG_PACK len index % U32 = MBOX_MSG_PACK len index :=
  Nat.mod_eq_of_lt (pack_lt len index)

/-- A walk towards a head that is not a slot index never ends. -/
theorem tx_free_loop_diverges (fuel : Nat) :
    ∀ priv : host_arm_net_priv, priv.tx_tail < 64 → 64 ≤ priv.tx_head →
      tx_free_loop fuel priv = none := by
  induction fuel with
  | zero =>
    intro priv ht hh
    have hne : priv.tx_tail ≠ priv.tx_head := by omega
    rw [tx_free_loop]
    simp [hne]
  | succ fuel ih =>
    intro priv ht hh
    have hne : priv.tx_tail ≠ priv.tx_head := by omega
    rw [tx_free_loop_step fuel priv hne]
    apply ih
    · rw [tx_free_body_tx_tail]; omega
    · rw [(tx_free_body_frame priv).1]; exact hh

/-- When the control-area `tx_head` field holds a value that is not a slot index,
the send-threshold branch does not finish, whatever the bound on its iterations. -/
theorem irq_send_threshold_diverges (fuel : Nat) (priv : host_arm_net_priv)
    (ht : priv.tx_tail < 64) (hh : 64 ≤ host_arm_net_read_reg priv CTRL_TX_HEAD) :
    irq_send_threshold fuel priv = none := by
  rw [irq_send_threshold_eq,
    tx_free_loop_diverges fuel
      { priv with tx_head := host_arm_net_read_reg priv CTRL_TX_HEAD } ht hh]
  rfl

theorem memcpy_toio_outside (m : IoMem) (dst : Nat) (src : List Byte) (a : Nat)
    (h : a < dst ∨ dst + src.length ≤ a) : memcpy_toio m dst src a = m a := by
  cases h with
  | inl h => exact memcpy_toio_of_lt m dst src a h
  | inr h => exact memcpy_toio_of_ge m dst src a h

theorem writel_outside (m : IoMem) (addr value a : Nat) (h : a < addr ∨ addr + 4 ≤ a) :
    writel m addr value a = m a := by
  cases h with
  | inl h => exact writel_of_lt m addr value a h
  | inr h => exact writel_of_ge m addr value a h

theorem mailbox_writes_append (l1 l2 : List IoWrite) :
    mailbox_writes (l1 ++ l2) = mailbox_writes l1 ++ mailbox_writes l2 := by
  simp [mailbox_writes, List.filterMap_append]

theorem control_writes_append (l1 l2 : List IoWrite) :
    control_writes (l1 ++ l2) = control_writes l1 ++ control_writes l2 := by
  simp [control_writes, List.filterMap_append]

theorem shared_writes_append (l1 l2 : List IoWrite) :
    shared_writes (l1 ++ l2) = shared_writes l1 ++ shared_writes l2 := by
  simp [shared_writes, List.filterMap_append]

/-- Shared memory after an accepted submission, away from the slot and from the
control-area `tx_tail` field. -/
theorem start_xmit_accept_mem_outside (priv : host_arm_net_priv) (skb : sk_buff)
    (htail : priv.tx_tail < 64) (hfull : (priv.tx_tail + 1) % 64 ≠ priv.tx_head)
    (hlen : 14 + skb.len ≤ 1518) (a : Nat)
    (hslot : ¬ (priv.tx_tail * 1536 ≤ a ∧ a < priv.tx_tail * 1536 + (14 + skb.len)))
    (hctl : ¬ (CONTROL_OFFSET + CTRL_TX_TAIL ≤ a ∧ a < CONTROL_OFFSET + CTRL_TX_TAIL + 4)) :
    (host_arm_net_start_xmit priv skb).2.shared_mem a = priv.shared_mem a := by
  obtain ⟨h1, h2, -, -⟩ := start_xmit_tests priv skb hfull hlen
  have hoff : (TX_RING_OFFSET + priv.tx_tail * RING_SPACING) % U32 = priv.tx_tail * 1536 := by
    simp only [TX_RING_OFFSET, RING_SPACING, U32]; omega
  have hms : priv.tx_tail * 1536 + MAC_HEADER_SIZE = priv.tx_tail * 1536 + 14 := rfl
  have hlen2 : skb.data.length = skb.len := rfl
  rw [start_xmit_accept_shared_mem priv skb h1 h2, hoff, hms]
  rw [writel_outside _ _ _ a (by omega)]
  rw [memcpy_toio_outside _ _ _ a (by rw [hlen2]; omega)]
  rw [memcpy_toio_outside _ _ _ a (by simp; omega)]

/-! ## More on the receive function -/

/-- A notification for which a frame is delivered passed every test. -/
theorem receive_packet_tests_of_delivered (priv : host_arm_net_priv) (L I : Nat)
    (alloc_ok : Bool) (hL : L < 65536) (hI : I < 65536)
    (hacc : (host_arm_net_receive_packet priv L I alloc_ok).delivered ≠ priv.delivered) :
    alloc_ok = true ∧ L ≠ 0 ∧ L ≤ 1518 ∧ I * 1536 + L ≤ 0x20000 := by
  have hw := rx_offset_no_wrap L I hL hI
  have hdrop : (rx_drop priv).delivered = priv.delivered := rfl
  by_cases h1 : L = 0 ∨ L > MAX_PACKET_SIZE
  · rw [receive_packet_of_bad_len priv L I alloc_ok h1] at hacc
    exact absurd hdrop hacc
  · by_cases h2 : ((I * RING_SPACING) % U32 + L) % U32 > CONTROL_OFFSET - RX_RING_OFFSET
    · rw [receive_packet_of_overflow priv L I alloc_ok h1 h2] at hacc
      exact absurd hdrop hacc
    · cases alloc_ok with
      | false =>
        rw [receive_packet_of_alloc_fail priv L I] at hacc
        exact absurd hdrop hacc
      | true =>
        rw [hw.2] at h2
        simp only [CONTROL_OFFSET, RX_RING_OFFSET] at h2
        simp only [MAX_PACKET_SIZE] at h1
        exact ⟨rfl, by omega, by omega, by omega⟩

/-- The state after an accepted notification, in closed form. -/
theorem receive_packet_accept_eq (priv : host_arm_net_priv) (L I : Nat)
    (h0 : L ≠ 0) (h1 : L ≤ 1518) (h2 : I * 1536 + L ≤ 0x20000) :
    host_arm_net_receive_packet priv L I true
      = { priv with
          shared_mem := writel priv.shared_mem (CONTROL_OFFSET + CTRL_RX_HEAD)
            ((priv.rx_head + 1) % 64),
          delivered := priv.delivered ++ [memcpy_fromio priv.shared_mem (0x20000 + I * 1536) L],
          stats := { priv.stats with
            rx_packets := priv.stats.rx_packets + 1,
            rx_bytes := priv.stats.rx_bytes + L },
          rx_head := (priv.rx_head + 1) % 64,
          io_log := priv.io_log ++ [IoWrite.control CTRL_RX_HEAD ((priv.rx_head + 1) % 64)] } := by
  have hw := rx_offset_no_wrap L I (by omega) (by omega)
  have ha : ¬ (L = 0 ∨ L > MAX_PACKET_SIZE) := by
    simp only [MAX_PACKET_SIZE]; omega
  have hb : ¬ (((I * RING_SPACING) % U32 + L) % U32 > CONTROL_OFFSET - RX_RING_OFFSET) := by
    rw [hw.2]; simp only [CONTROL_OFFSET, RX_RING_OFFSET]; omega
  have e1 : ((priv.rx_head + 1) % U32) % RX_RING_SIZE = (priv.rx_head + 1) % 64 := by
    simp only [U32, RX_RING_SIZE]; omega
  have e2 : (priv.rx_head + 1) % 64 % U32 = (priv.rx_head + 1) % 64 := by
    simp only [U32]; omega
  rw [receive_packet_accept priv L I ha hb, hw.1, e1]
  simp only [host_arm_net_write_reg, e2, RX_RING_OFFSET]

/-! ## The effect of the retirement walk -/

theorem tx_free_body_tx_skb (priv : host_arm_net_priv) (i : Nat) :
    (tx_free_body priv).tx_skb i = if i = priv.tx_tail then none else priv.tx_skb i := by
  unfold tx_free_body
  cases h : priv.tx_skb priv.tx_tail with
  | none =>
    simp only
    by_cases hi : i = priv.tx_tail
    · rw [if_pos hi, hi, h]
    · rw [if_neg hi]
  | some skb => rfl

theorem tx_free_body_freed (priv : host_arm_net_priv) :
    (tx_free_body priv).freed = priv.freed ++ (priv.tx_skb priv.tx_tail).toList := by
  unfold tx_free_body
  cases h : priv.tx_skb priv.tx_tail with
  | none => simp
  | some skb => simp

theorem filterMap_congr_mem {α β : Type} (f g : α → Option β) (l : List α)
    (h : ∀ x ∈ l, f x = g x) : l.filterMap f = l.filterMap g := by
  induction l with
  | nil => rfl
  | cons a l ih =>
    rw [List.filterMap_cons, List.filterMap_cons, h a (List.mem_cons_self a l),
      ih (fun x hx => h x (List.mem_cons_of_mem a hx))]

/-- What the walk does to the packet table and to the list of released packets: the
entries at the cyclic distance less than `d` from the old `tx_tail` are cleared,
their packets released in walk order, and nothing else changes. -/
theorem tx_free_loop_effect (d : Nat) :
    ∀ (fuel : Nat) (priv : host_arm_net_priv), priv.tx_tail < 64 → priv.tx_head < 64 →
      (priv.tx_head + 64 - priv.tx_tail) % 64 = d → d ≤ fuel →
      ∃ priv1, tx_free_loop fuel priv = some priv1
        ∧ (∀ i, priv1.tx_skb i
            = if i < 64 ∧ (i + 64 - priv.tx_tail) % 64 < d then none else priv.tx_skb i)
        ∧ priv1.freed
            = priv.freed ++ (List.range d).filterMap
                (fun k => priv.tx_skb ((priv.tx_tail + k) % 64)) := by
  induction d with
  | zero =>
    intro fuel priv ht hh hd _
    have heq : priv.tx_tail = priv.tx_head := by omega
    refine ⟨priv, tx_free_loop_done fuel priv heq, ?_, ?_⟩
    · intro i
      simp
    · simp
  | succ d ih =>
    intro fuel priv ht hh hd hf
    have hne : priv.tx_tail ≠ priv.tx_head := by omega
    obtain ⟨fuel1, rfl⟩ : ∃ k, fuel = k + 1 := ⟨fuel - 1, by omega⟩
    have hb := tx_free_body_frame priv
    have hbt := tx_free_body_tx_tail priv
    obtain ⟨priv1, hrun, hskb, hfreed⟩ :=
      ih fuel1 (tx_free_body priv) (by rw [hbt]; omega) (by rw [hb.1]; exact hh)
        (by rw [hbt, hb.1]; omega) (by omega)
    refine ⟨priv1, ?_, ?_, ?_⟩
    · rw [tx_free_loop_step fuel1 priv hne]; exact hrun
    · intro i
      rw [hskb i, hbt, tx_free_body_tx_skb]
      by_cases hi : i = priv.tx_tail
      · have hc : i < 64 ∧ (i + 64 - priv.tx_tail) % 64 < d + 1 := by omega
        rw [if_pos hi, if_pos hc]
        split <;> rfl
      · rw [if_neg hi]
        by_cases hc : i < 64 ∧ (i + 64 - priv.tx_tail) % 64 < d + 1
        · have hc2 : i < 64 ∧ (i + 64 - (priv.tx_tail + 1) % 64) % 64 < d := by omega
          rw [if_pos hc, if_pos hc2]
        · have hc2 : ¬ (i < 64 ∧ (i + 64 - (priv.tx_tail + 1) % 64) % 64 < d) := by omega
          rw [if_neg hc, if_neg hc2]
    · rw [hfreed, tx_free_body_freed, hbt, List.range_succ_eq_map, List.filterMap_cons,
        List.filterMap_map]
      have h0 : (priv.tx_tail + 0) % 64 = priv.tx_tail := by omega
      have hrest : (List.range d).filterMap
            (fun k => (tx_free_body priv).tx_skb (((priv.tx_tail + 1) % 64 + k) % 64))
          = (List.range d).filterMap
            ((fun k => priv.tx_skb ((priv.tx_tail + k) % 64)) ∘ Nat.succ) := by
        apply filterMap_congr_mem
        intro k hk
        have hk2 : k < d := List.mem_range.mp hk
        have hne2 : ((priv.tx_tail + 1) % 64 + k) % 64 ≠ priv.tx_tail := by omega
        have heq2 : ((priv.tx_tail + 1) % 64 + k) % 64 = (priv.tx_tail + Nat.succ k) % 64 := by
          omega
        show (tx_free_body priv).tx_skb (((priv.tx_tail + 1) % 64 + k) % 64)
          = priv.tx_skb ((priv.tx_tail + Nat.succ k) % 64)
        rw [tx_free_body_tx_skb, if_neg hne2, heq2]
      rw [hrest, h0]
      cases hs : priv.tx_skb priv.tx_tail with
      | none => simp
      | some skb => simp

/-! ## The receive drain -/

theorem mbox_is_read (mb : Mbox) : mb.read XMB_IS_REG_OFFSET = (mb.is_reg % U32, mb) := by
  simp [Mbox.read, XMB_IS_REG_OFFSET, XMB_READ_REG_OFFSET, XMB_STATUS_REG_OFFSET,
    XMB_ERROR_REG_OFFSET, XMB_SIT_REG_OFFSET, XMB_RIT_REG_OFFSET]

theorem mbox_is_empty_eq (priv : host_arm_net_priv) :
    mbox_is_empty priv = (priv.mbox.recv_fifo.isEmpty, priv) := by
  have hb : ((priv.mbox.status &&& XMB_STATUS_FIFO_EMPTY) != 0) = priv.mbox.recv_fifo.isEmpty := by
    simp only [Mbox.status, XMB_STATUS_FIFO_EMPTY, XMB_STATUS_FIFO_FULL, XMB_STATUS_STA,
      XMB_STATUS_RTA]
    cases priv.mbox.recv_fifo.isEmpty
    · simp only [Bool.false_eq_true, if_false]
      split <;> split <;> split <;> decide
    · simp only [if_true]
      split <;> split <;> split <;> decide
  simp only [mbox_is_empty, mbox_read_reg, mbox_status_read, hb]

theorem mbox_read_data_cons (priv : host_arm_net_priv) (msg : Nat) (rest : List Nat)
    (h : priv.mbox.recv_fifo = msg :: rest) :
    mbox_read_data priv
      = (msg % U32, { priv with mbox := { priv.mbox with recv_fifo := rest } }) := by
  simp [mbox_read_data, mbox_read_reg, Mbox.read, h]

theorem msg_len_mod (msg : Nat) : MBOX_MSG_GET_LENGTH (msg % U32) % U16 = msg_len msg := by
  simp [msg_len, MBOX_MSG_GET_LENGTH, Nat.mod_mod]

theorem msg_index_mod (msg : Nat) : MBOX_MSG_GET_INDEX (msg % U32) % U16 = msg_index msg := by
  simp [msg_index, MBOX_MSG_GET_INDEX, Nat.mod_mod]

theorem msg_len_lt (msg : Nat) : msg_len msg < 65536 := Nat.mod_lt _ (by decide)

theorem msg_index_lt (msg : Nat) : msg_index msg < 65536 := Nat.mod_lt _ (by decide)

theorem rx_drain_loop_nil (fuel : Nat) (alloc : Nat → Bool) (priv : host_arm_net_priv)
    (h : priv.mbox.recv_fifo = []) : rx_drain_loop fuel alloc priv = some priv := by
  rw [rx_drain_loop.eq_def]
  simp [mbox_is_empty_eq, h]

theorem rx_drain_loop_cons (fuel : Nat) (alloc : Nat → Bool) (priv : host_arm_net_priv)
    (msg : Nat) (rest : List Nat) (h : priv.mbox.recv_fifo = msg :: rest) :
    rx_drain_loop (fuel + 1) alloc priv
      = rx_drain_loop fuel (fun i => alloc (i + 1))
          (host_arm_net_receive_packet
            { priv with mbox := { priv.mbox with recv_fifo := rest } }
            (msg_len msg) (msg_index msg) (alloc 0)) := by
  rw [rx_drain_loop.eq_def]
  simp only [mbox_is_empty_eq, h, List.isEmpty_cons, if_true,
    mbox_read_data_cons priv msg rest h, msg_len_mod, msg_index_mod]

/-- A notification that is not valid, or for which no buffer is available, is dropped. -/
theorem receive_packet_of_not_accepted (priv : host_arm_net_priv) (msg : Nat) (alloc_ok : Bool)
    (h : (spec_rx_valid msg && alloc_ok) = false) :
    host_arm_net_receive_packet priv (msg_len msg) (msg_index msg) alloc_ok = rx_drop priv := by
  have hw := rx_offset_no_wrap (msg_len msg) (msg_index msg) (msg_len_lt msg) (msg_index_lt msg)
  cases alloc_ok with
  | false => exact receive_packet_of_alloc_fail priv _ _
  | true =>
    have hv : ¬ (msg_len msg ≠ 0 ∧ msg_len msg ≤ 1518
        ∧ msg_index msg * 1536 + msg_len msg ≤ 0x20000) := by
      simpa [spec_rx_valid] using h
    by_cases h1 : msg_len msg = 0 ∨ msg_len msg > MAX_PACKET_SIZE
    · exact receive_packet_of_bad_len priv _ _ _ h1
    · apply receive_packet_of_overflow priv _ _ _ h1
      rw [hw.2]
      simp only [MAX_PACKET_SIZE] at h1
      simp only [CONTROL_OFFSET, RX_RING_OFFSET]
      omega

theorem spec_rx_valid_iff (msg : Nat) :
    spec_rx_valid msg = true
      ↔ msg_len msg ≠ 0 ∧ msg_len msg ≤ 1518
        ∧ msg_index msg * 1536 + msg_len msg ≤ 0x20000 := by
  simp [spec_rx_valid]

theorem spec_rx_accepted_cons (alloc : Nat → Bool) (msg : Nat) (rest : List Nat) :
    spec_rx_accepted alloc (msg :: rest)
      = if spec_rx_valid msg && alloc 0 then
          msg :: spec_rx_accepted (fun i => alloc (i + 1)) rest
        else spec_rx_accepted (fun i => alloc (i + 1)) rest := rfl

theorem spec_rx_accepted_valid (msgs : List Nat) :
    ∀ (alloc : Nat → Bool) (m : Nat), m ∈ spec_rx_accepted alloc msgs → spec_rx_valid m = true := by
  induction msgs with
  | nil => intro alloc m hm; simp [spec_rx_accepted] at hm
  | cons msg rest ih =>
    intro alloc m hm
    rw [spec_rx_accepted_cons] at hm
    by_cases hc : (spec_rx_valid msg && alloc 0) = true
    · rw [if_pos hc] at hm
      cases List.mem_cons.mp hm with
      | inl h => rw [h]; exact (Bool.and_eq_true _ _ ▸ hc).1
      | inr h => exact ih _ m h
    · rw [if_neg hc] at hm
      exact ih _ m hm

theorem spec_rx_accepted_length_le (msgs : List Nat) :
    ∀ alloc : Nat → Bool, (spec_rx_accepted alloc msgs).length ≤ msgs.length := by
  induction msgs with
  | nil => intro alloc; simp [spec_rx_accepted]
  | cons msg rest ih =>
    intro alloc
    rw [spec_rx_accepted_cons]
    have := ih (fun i => alloc (i + 1))
    split <;> simp <;> omega

theorem spec_rx_accepted_of_alloc (msgs : List Nat) :
    ∀ alloc : Nat → Bool, (∀ i, alloc i = true) →
      spec_rx_accepted alloc msgs = msgs.filter spec_rx_valid := by
  induction msgs with
  | nil => intro alloc _; rfl
  | cons msg rest ih =>
    intro alloc ha
    rw [spec_rx_accepted_cons, ih (fun i => alloc (i + 1)) (fun i => ha (i + 1)), ha 0,
      List.filter_cons]
    simp

/-- The frame of a valid notification depends on the RX ring area only. -/
theorem spec_rx_frame_congr (m1 m2 : IoMem) (msg : Nat) (hv : spec_rx_valid msg = true)
    (h : ∀ a, 0x20000 ≤ a → a < 0x40000 → m1 a = m2 a) :
    spec_rx_frame m1 msg = spec_rx_frame m2 msg := by
  have hv2 := (spec_rx_valid_iff msg).mp hv
  exact memcpy_fromio_congr _ _ _ _ (fun a ha hb => h a (by omega) (by omega))

/-- One round of the drain: the state after the head of the queue was read and handed
to the receive function. -/
theorem rx_drain_round (priv : host_arm_net_priv) (msg : Nat) (rest : List Nat)
    (alloc_ok : Bool) :
    ∃ r, r = host_arm_net_receive_packet
            { priv with mbox := { priv.mbox with recv_fifo := rest } }
            (msg_len msg) (msg_index msg) alloc_ok
      ∧ r.mbox = { priv.mbox with recv_fifo := rest }
      ∧ r.delivered
          = priv.delivered ++
              (if spec_rx_valid msg && alloc_ok then [spec_rx_frame priv.shared_mem msg] else [])
      ∧ r.rx_head
          = (if spec_rx_valid msg && alloc_ok then (priv.rx_head + 1) % 64 else priv.rx_head)
      ∧ r.stats.rx_dropped
          = priv.stats.rx_dropped + (if spec_rx_valid msg && alloc_ok then 0 else 1)
      ∧ r.stats.rx_packets
          = priv.stats.rx_packets + (if spec_rx_valid msg && alloc_ok then 1 else 0)
      ∧ (∀ a, ¬ (CONTROL_OFFSET + CTRL_RX_HEAD ≤ a ∧ a < CONTROL_OFFSET + CTRL_RX_HEAD + 4) →
          r.shared_mem a = priv.shared_mem a)
      ∧ r.tx_head = priv.tx_head ∧ r.tx_tail = priv.tx_tail ∧ r.tx_skb = priv.tx_skb
      ∧ r.freed = priv.freed ∧ r.queue_stopped = priv.queue_stopped := by
  refine ⟨_, rfl, ?_⟩
  by_cases hc : (spec_rx_valid msg && alloc_ok) = true
  · have hv : spec_rx_valid msg = true := by
      cases hv : spec_rx_valid msg
      · rw [hv] at hc; simp at hc
      · rfl
    have ha : alloc_ok = true := by
      cases alloc_ok
      · simp at hc
      · rfl
    obtain ⟨h0, h1, h2⟩ := (spec_rx_valid_iff msg).mp hv
    subst ha
    rw [receive_packet_accept_eq _ _ _ h0 h1 h2]
    refine ⟨rfl, ?_, ?_, ?_, ?_, ?_, rfl, rfl, rfl, rfl, rfl⟩
    · rw [if_pos hc]; rfl
    · rw [if_pos hc]
    · rw [if_pos hc]; rfl
    · rw [if_pos hc]
    · intro a ha
      exact writel_outside _ _ _ a (by omega)
  · have hc2 : (spec_rx_valid msg && alloc_ok) = false := by
      cases h : (spec_rx_valid msg && alloc_ok)
      · rfl
      · exact absurd h hc
    rw [receive_packet_of_not_accepted _ msg alloc_ok hc2]
    refine ⟨rfl, ?_, ?_, ?_, ?_, ?_, rfl, rfl, rfl, rfl, rfl⟩
    · rw [if_neg hc]
      show priv.delivered = priv.delivered ++ []
      simp
    · rw [if_neg hc]; rfl
    · rw [if_neg hc]; rfl
    · rw [if_neg hc]; rfl
    · intro a _
      rfl

/-- The receive drain, for a queue of any length: it finishes within one round per
queued message and leaves the queue empty; the frames delivered are those of the
accepted messages in queue order, read from the RX ring area as it was; `rx_head`
advances by their number, `rx_dropped` by the number of the others. -/
theorem rx_drain_loop_effect (msgs : List Nat) :
    ∀ (fuel : Nat) (alloc : Nat → Bool) (priv : host_arm_net_priv),
      priv.mbox.recv_fifo = msgs → msgs.length ≤ fuel →
      ∃ priv1, rx_drain_loop fuel alloc priv = some priv1
        ∧ priv1.mbox = { priv.mbox with recv_fifo := [] }
        ∧ priv1.delivered
            = priv.delivered ++ (spec_rx_accepted alloc msgs).map (spec_rx_frame priv.shared_mem)
        ∧ priv1.rx_head
            = (if (spec_rx_accepted alloc msgs).length = 0 then priv.rx_head
               else (priv.rx_head + (spec_rx_accepted alloc msgs).length) % 64)
        ∧ priv1.stats.rx_dropped + (spec_rx_accepted alloc msgs).length
            = priv.stats.rx_dropped + msgs.length
        ∧ priv1.stats.rx_packets = priv.stats.rx_packets + (spec_rx_accepted alloc msgs).length
        ∧ (∀ a, ¬ (CONTROL_OFFSET + CTRL_RX_HEAD ≤ a ∧ a < CONTROL_OFFSET + CTRL_RX_HEAD + 4) →
            priv1.shared_mem a = priv.shared_mem a)
        ∧ priv1.tx_head = priv.tx_head ∧ priv1.tx_tail = priv.tx_tail
        ∧ priv1.tx_skb = priv.tx_skb ∧ priv1.freed = priv.freed
        ∧ priv1.queue_stopped = priv.queue_stopped := by
  induction msgs with
  | nil =>
    intro fuel alloc priv hq _
    refine ⟨priv, rx_drain_loop_nil fuel alloc priv hq, ?_, ?_, ?_, ?_, ?_, ?_, rfl, rfl, rfl,
      rfl, rfl⟩
    · rw [← hq]
    · simp [spec_rx_accepted]
    · simp [spec_rx_accepted]
    · simp [spec_rx_accepted]
    · simp [spec_rx_accepted]
    · intro a _; rfl
  | cons msg rest ih =>
    intro fuel alloc priv hq hfuel
    obtain ⟨fuel1, rfl⟩ : ∃ k, fuel = k + 1 := ⟨fuel - 1, by simp at hfuel; omega⟩
    obtain ⟨r, hr, hmb, hdel, hhead, hdrop, hpk, hmem, h1, h2, h3, h4, h5⟩ :=
      rx_drain_round priv msg rest (alloc 0)
    obtain ⟨p1, hrun, gmb, gdel, ghead, gdrop, gpk, gmem, g1, g2, g3, g4, g5⟩ :=
      ih fuel1 (fun i => alloc (i + 1)) r (by rw [hmb]) (by simp at hfuel; omega)
    have hframes : (spec_rx_accepted (fun i => alloc (i + 1)) rest).map (spec_rx_frame r.shared_mem)
        = (spec_rx_accepted (fun i => alloc (i + 1)) rest).map
            (spec_rx_frame priv.shared_mem) := by
      apply List.map_congr_left
      intro m hm
      apply spec_rx_frame_congr _ _ _ (spec_rx_accepted_valid rest _ m hm)
      intro a ha hb
      apply hmem
      simp only [CONTROL_OFFSET, CTRL_RX_HEAD]
      omega
    have hcons : spec_rx_accepted alloc (msg :: rest)
        = (if spec_rx_valid msg && alloc 0 then [msg] else [])
            ++ spec_rx_accepted (fun i => alloc (i + 1)) rest := by
      rw [spec_rx_accepted_cons]
      split <;> rfl
    refine ⟨p1, ?_, ?_, ?_, ?_, ?_, ?_, ?_, ?_, ?_, ?_, ?_, ?_⟩
    · rw [rx_drain_loop_cons fuel1 alloc priv msg rest hq, ← hr]; exact hrun
    · rw [gmb, hmb]
    · rw [gdel, hdel, hframes, hcons, List.map_append, List.append_assoc]
      congr 1
      congr 1
      split <;> rfl
    · rw [ghead, hhead, hcons, List.length_append]
      by_cases hc : (spec_rx_valid msg && alloc 0) = true
      · rw [if_pos hc, if_pos hc, List.length_singleton]
        split <;> split <;> omega
      · rw [if_neg hc, if_neg hc, List.length_nil]
        split <;> split <;> omega
    · rw [hcons, List.length_append, List.length_cons]
      rw [hdrop] at gdrop
      by_cases hc : (spec_rx_valid msg && alloc 0) = true
      · rw [if_pos hc] at gdrop
        rw [if_pos hc, List.length_singleton]; omega
      · rw [if_neg hc] at gdrop
        rw [if_neg hc, List.length_nil]; omega
    · rw [gpk, hpk, hcons, List.length_append]
      by_cases hc : (spec_rx_valid msg && alloc 0) = true
      · rw [if_pos hc, if_pos hc, List.length_singleton]; omega
      · rw [if_neg hc, if_neg hc, List.length_nil]; omega
    · intro a ha
      rw [gmem a ha, hmem a ha]
    · rw [g1, h1]
    · rw [g2, h2]
    · rw [g3, h3]
    · rw [g4, h4]
    · rw [g5, h5]

/-! ## The interrupt handler -/

theorem mbox_get_interrupt_status_eq (priv : host_arm_net_priv) :
    mbox_get_interrupt_status priv = (priv.mbox.is_reg % U32, priv) := by
  simp only [mbox_get_interrupt_status, mbox_read_reg, mbox_is_read]

theorem host_arm_net_interrupt_eq (fuel : Nat) (alloc : Nat → Bool) (priv : host_arm_net_priv) :
    host_arm_net_interrupt fuel alloc priv
      = if priv.mbox.is_reg % U32 = 0 then some (irqreturn_t.IRQ_NONE, priv)
        else
          (if priv.mbox.is_reg % U32 &&& XMB_IX_RTA ≠ 0 then irq_receive_threshold fuel alloc priv
           else some priv).bind fun priv1 =>
          (if priv.mbox.is_reg % U32 &&& XMB_IX_STA ≠ 0 then irq_send_threshold fuel priv1
           else some priv1).bind fun priv2 =>
          some (irqreturn_t.IRQ_HANDLED,
            mbox_clear_interrupt_status
              (if priv.mbox.is_reg % U32 &&& XMB_IX_ERR ≠ 0 then
                (mbox_read_reg priv2 XMB_ERROR_REG_OFFSET).2
               else priv2)
              (priv.mbox.is_reg % U32)) := by
  simp only [host_arm_net_interrupt, mbox_get_interrupt_status_eq]

theorem mbox_clear_interrupt_status_io_log (priv : host_arm_net_priv) (mask : Nat) :
    (mbox_clear_interrupt_status priv mask).io_log
      = priv.io_log ++ [IoWrite.mailbox XMB_IS_REG_OFFSET (mask % U32)] := rfl

theorem mbox_read_reg_io_log (priv : host_arm_net_priv) (reg_offset : Nat) :
    (mbox_read_reg priv reg_offset).2.io_log = priv.io_log := rfl

/-- The handler returns whenever its two loops finish. -/
theorem host_arm_net_interrupt_returns (fuel : Nat) (alloc : Nat → Bool)
    (priv : host_arm_net_priv)
    (hrx : priv.mbox.is_reg % U32 &&& XMB_IX_RTA ≠ 0 → priv.mbox.recv_fifo.length ≤ fuel)
    (htx : priv.mbox.is_reg % U32 &&& XMB_IX_STA ≠ 0 →
      priv.tx_tail < 64 ∧ host_arm_net_read_reg priv CTRL_TX_HEAD < 64 ∧ 64 ≤ fuel) :
    ∃ r, host_arm_net_interrupt fuel alloc priv = some r := by
  rw [host_arm_net_interrupt_eq]
  by_cases h0 : priv.mbox.is_reg % U32 = 0
  · rw [if_pos h0]; exact ⟨_, rfl⟩
  · rw [if_neg h0]
    have hfirst : ∃ p1,
        (if priv.mbox.is_reg % U32 &&& XMB_IX_RTA ≠ 0 then irq_receive_threshold fuel alloc priv
         else some priv) = some p1
        ∧ p1.tx_tail = priv.tx_tail
        ∧ host_arm_net_read_reg p1 CTRL_TX_HEAD = host_arm_net_read_reg priv CTRL_TX_HEAD := by
      by_cases hr : priv.mbox.is_reg % U32 &&& XMB_IX_RTA ≠ 0
      · obtain ⟨p1, hrun, -, -, -, -, -, hmem, -, htl, -⟩ :=
          rx_drain_loop_effect priv.mbox.recv_fifo fuel alloc priv rfl (hrx hr)
        refine ⟨p1, by rw [if_pos hr]; exact hrun, htl, ?_⟩
        unfold host_arm_net_read_reg
        apply readl_congr
        intro a ha hb
        apply hmem
        simp only [CONTROL_OFFSET, CTRL_TX_HEAD, CTRL_RX_HEAD] at ha hb ⊢
        omega
      · exact ⟨priv, by rw [if_neg hr], rfl, rfl⟩
    obtain ⟨p1, hp1, htl, hreg⟩ := hfirst
    rw [hp1]
    have hsecond : ∃ p2,
        (if priv.mbox.is_reg % U32 &&& XMB_IX_STA ≠ 0 then irq_send_threshold fuel p1
         else some p1) = some p2 := by
      by_cases hs : priv.mbox.is_reg % U32 &&& XMB_IX_STA ≠ 0
      · obtain ⟨ht, hh, hf⟩ := htx hs
        obtain ⟨p2, hrun, -⟩ :=
          tx_free_loop_terminates
            ((host_arm_net_read_reg p1 CTRL_TX_HEAD + 64 - p1.tx_tail) % 64) fuel
            { p1 with tx_head := host_arm_net_read_reg p1 CTRL_TX_HEAD }
            (by rw [← htl] at ht; exact ht) (by rw [← hreg] at hh; exact hh) rfl (by omega)
        exact ⟨_, by rw [if_pos hs, irq_send_threshold_eq, hrun]; rfl⟩
      · exact ⟨p1, by rw [if_neg hs]⟩
    obtain ⟨p2, hp2⟩ := hsecond
    simp only [Option.bind]
    rw [hp2]
    exact ⟨_, rfl⟩

theorem spec_rx_accepted_sublist (msgs : List Nat) :
    ∀ alloc : Nat → Bool, (spec_rx_accepted alloc msgs).Sublist msgs := by
  induction msgs with
  | nil => intro alloc; exact List.Sublist.slnil
  | cons msg rest ih =>
    intro alloc
    rw [spec_rx_accepted_cons]
    split
    · exact List.Sublist.cons₂ msg (ih _)
    · exact List.Sublist.cons msg (ih _)

theorem mbox_write_is_recv_fifo (mb : Mbox) (value : Nat) :
    (mb.write XMB_IS_REG_OFFSET value).recv_fifo = mb.recv_fifo := by
  simp [Mbox.write, XMB_IS_REG_OFFSET, XMB_WRITE_REG_OFFSET, XMB_SIT_REG_OFFSET,
    XMB_RIT_REG_OFFSET]

/-- What a return of the handler on a non-zero status looks like. -/
theorem host_arm_net_interrupt_handled (priv : host_arm_net_priv) (fuel : Nat)
    (alloc : Nat → Bool) (status : Nat) (hst : (mbox_get_interrupt_status priv).1 = status) :
    status ≠ 0 → ∀ ret priv1,
      host_arm_net_interrupt fuel alloc priv = some (ret, priv1) →
      ret = irqreturn_t.IRQ_HANDLED
      ∧ ∃ after_rx after_tx,
          (if status &&& XMB_IX_RTA ≠ 0 then irq_receive_threshold fuel alloc priv
           else some priv) = some after_rx
          ∧ (if status &&& XMB_IX_STA ≠ 0 then irq_send_threshold fuel after_rx
             else some after_rx) = some after_tx
          ∧ priv1
              = mbox_clear_interrupt_status
                  (if status &&& XMB_IX_ERR ≠ 0 then
                    (mbox_read_reg after_tx XMB_ERROR_REG_OFFSET).2
                   else after_tx)
                  status
          ∧ priv1.io_log = after_tx.io_log ++ [IoWrite.mailbox XMB_IS_REG_OFFSET status] := by
  have hs : priv.mbox.is_reg % U32 = status := by
    rw [mbox_get_interrupt_status_eq] at hst; exact hst
  have hlt : status % U32 = status := by
    rw [← hs]; exact Nat.mod_mod _ _
  intro h0 ret priv1 hres
  rw [host_arm_net_interrupt_eq, hs, if_neg h0] at hres
  cases hA : (if status &&& XMB_IX_RTA ≠ 0 then irq_receive_threshold fuel alloc priv
      else some priv) with
  | none => rw [hA] at hres; simp at hres
  | some p1 =>
    rw [hA] at hres
    simp only [Option.bind] at hres
    cases hB : (if status &&& XMB_IX_STA ≠ 0 then irq_send_threshold fuel p1
        else some p1) with
    | none => rw [hB] at hres; simp at hres
    | some p2 =>
      rw [hB] at hres
      simp only [Option.some.injEq, Prod.mk.injEq] at hres
      obtain ⟨hret, hp⟩ := hres
      refine ⟨hret.symm, p1, p2, rfl, hB, hp.symm, ?_⟩
      rw [← hp, mbox_clear_interrupt_status_io_log, hlt]
      split
      · rw [mbox_read_reg_io_log]
      · rfl

/-! ## The index range invariant -/

theorem start_xmit_index_range (priv : host_arm_net_priv) (skb : sk_buff)
    (ht : priv.tx_tail < 64) :
    (host_arm_net_start_xmit priv skb).2.tx_tail < 64
    ∧ (host_arm_net_start_xmit priv skb).2.rx_head = priv.rx_head := by
  by_cases h1 : (MAC_HEADER_SIZE + skb.len) % U32 > MAX_PACKET_SIZE
  · simp only [host_arm_net_start_xmit, h1, ↓reduceIte]
    exact ⟨ht, trivial⟩
  · by_cases h2 : ((priv.tx_tail + 1) % U32) % TX_RING_SIZE = priv.tx_head
    · simp only [host_arm_net_start_xmit, h1, h2, ↓reduceIte]
      exact ⟨ht, trivial⟩
    · obtain ⟨e1, -, e3, -⟩ := start_xmit_accept_indices priv skb h1 h2
      rw [e1, e3]
      refine ⟨?_, rfl⟩
      simp only [TX_RING_SIZE]
      omega

theorem receive_packet_index_range (priv : host_arm_net_priv) (L I : Nat) (alloc_ok : Bool) :
    (host_arm_net_receive_packet priv L I alloc_ok).tx_tail = priv.tx_tail
    ∧ (priv.rx_head < 64 → (host_arm_net_receive_packet priv L I alloc_ok).rx_head < 64) := by
  by_cases h1 : L = 0 ∨ L > MAX_PACKET_SIZE
  · rw [receive_packet_of_bad_len priv L I alloc_ok h1]
    exact ⟨rfl, fun h => h⟩
  · by_cases h2 : ((I * RING_SPACING) % U32 + L) % U32 > CONTROL_OFFSET - RX_RING_OFFSET
    · rw [receive_packet_of_overflow priv L I alloc_ok h1 h2]
      exact ⟨rfl, fun h => h⟩
    · cases alloc_ok with
      | false =>
        rw [receive_packet_of_alloc_fail priv L I]
        exact ⟨rfl, fun h => h⟩
      | true =>
        rw [receive_packet_accept priv L I h1 h2]
        refine ⟨rfl, fun _ => ?_⟩
        show ((priv.rx_head + 1) % U32) % RX_RING_SIZE < 64
        simp only [RX_RING_SIZE]
        omega

theorem rx_drain_loop_zero_cons (alloc : Nat → Bool) (priv : host_arm_net_priv)
    (msg : Nat) (rest : List Nat) (h : priv.mbox.recv_fifo = msg :: rest) :
    rx_drain_loop 0 alloc priv = none := by
  rw [rx_drain_loop.eq_def]
  simp [mbox_is_empty_eq, h]

/-- Whenever the drain finishes, `tx_tail` is what it was and `rx_head` is still a
slot index. -/
theorem rx_drain_loop_index_range (fuel : Nat) :
    ∀ (alloc : Nat → Bool) (priv priv1 : host_arm_net_priv),
      rx_drain_loop fuel alloc priv = some priv1 →
      priv1.tx_tail = priv.tx_tail ∧ (priv.rx_head < 64 → priv1.rx_head < 64) := by
  induction fuel with
  | zero =>
    intro alloc priv priv1 hrun
    cases hq : priv.mbox.recv_fifo with
    | nil =>
      rw [rx_drain_loop_nil 0 alloc priv hq] at hrun
      cases hrun
      exact ⟨rfl, fun h => h⟩
    | cons msg rest =>
      rw [rx_drain_loop_zero_cons alloc priv msg rest hq] at hrun
      cases hrun
  | succ fuel ih =>
    intro alloc priv priv1 hrun
    cases hq : priv.mbox.recv_fifo with
    | nil =>
      rw [rx_drain_loop_nil (fuel + 1) alloc priv hq] at hrun
      cases hrun
      exact ⟨rfl, fun h => h⟩
    | cons msg rest =>
      rw [rx_drain_loop_cons fuel alloc priv msg rest hq] at hrun
      obtain ⟨g1, g2⟩ := ih _ _ _ hrun
      obtain ⟨r1, r2⟩ := receive_packet_index_range
        { priv with mbox := { priv.mbox with recv_fifo := rest } }
        (msg_len msg) (msg_index msg) (alloc 0)
      exact ⟨by rw [g1, r1], fun h => g2 (r2 h)⟩

/-- Whenever the retirement walk finishes, `tx_tail` is still a slot index and
`rx_head` is what it was. -/
theorem tx_free_loop_index_range (fuel : Nat) :
    ∀ (priv priv1 : host_arm_net_priv), tx_free_loop fuel priv = some priv1 →
      priv.tx_tail < 64 → priv1.tx_tail < 64 ∧ priv1.rx_head = priv.rx_head := by
  induction fuel with
  | zero =>
    intro priv priv1 hrun ht
    by_cases heq : priv.tx_tail = priv.tx_head
    · rw [tx_free_loop_done 0 priv heq] at hrun
      cases hrun
      exact ⟨ht, rfl⟩
    · rw [tx_free_loop] at hrun
      simp [heq] at hrun
  | succ fuel ih =>
    intro priv priv1 hrun ht
    by_cases heq : priv.tx_tail = priv.tx_head
    · rw [tx_free_loop_done (fuel + 1) priv heq] at hrun
      cases hrun
      exact ⟨ht, rfl⟩
    · rw [tx_free_loop_step fuel priv heq] at hrun
      obtain ⟨g1, g2⟩ := ih _ _ hrun (by rw [tx_free_body_tx_tail]; omega)
      exact ⟨g1, by rw [g2, (tx_free_body_frame priv).2.2.2.1]⟩

theorem tx_free_body_iterate_index_range (k : Nat) :
    ∀ q : host_arm_net_priv, q.tx_tail < 64 → (tx_free_body^[k] q).tx_tail < 64 := by
  induction k with
  | zero => intro q hq; exact hq
  | succ k ih =>
    intro q hq
    rw [Function.iterate_succ_apply]
    exact ih _ (by rw [tx_free_body_tx_tail]; omega)

/-- The handler keeps `tx_tail` and `rx_head` in range whenever it returns. -/
theorem host_arm_net_interrupt_index_range (fuel : Nat) (alloc : Nat → Bool)
    (priv priv1 : host_arm_net_priv) (ret : irqreturn_t)
    (hres : host_arm_net_interrupt fuel alloc priv = some (ret, priv1))
    (ht : priv.tx_tail < 64) (hr : priv.rx_head < 64) :
    priv1.tx_tail < 64 ∧ priv1.rx_head < 64 := by
  by_cases h0 : priv.mbox.is_reg % U32 = 0
  · rw [host_arm_net_interrupt_eq, if_pos h0] at hres
    simp only [Option.some.injEq, Prod.mk.injEq] at hres
    rw [← hres.2]
    exact ⟨ht, hr⟩
  · obtain ⟨-, p1, p2, hA, hB, hp, -⟩ :=
      host_arm_net_interrupt_handled priv fuel alloc (priv.mbox.is_reg % U32)
        (by rw [mbox_get_interrupt_status_eq]) h0 ret priv1 hres
    have h1 : p1.tx_tail < 64 ∧ p1.rx_head < 64 := by
      by_cases hb : priv.mbox.is_reg % U32 &&& XMB_IX_RTA ≠ 0
      · rw [if_pos hb] at hA
        obtain ⟨g1, g2⟩ := rx_drain_loop_index_range fuel alloc priv p1 hA
        exact ⟨by rw [g1]; exact ht, g2 hr⟩
      · rw [if_neg hb] at hA
        cases hA
        exact ⟨ht, hr⟩
    have h2 : p2.tx_tail < 64 ∧ p2.rx_head < 64 := by
      by_cases hb : priv.mbox.is_reg % U32 &&& XMB_IX_STA ≠ 0
      · rw [if_pos hb, irq_send_threshold_eq] at hB
        cases hl : tx_free_loop fuel
            { p1 with tx_head := host_arm_net_read_reg p1 CTRL_TX_HEAD } with
        | none => rw [hl] at hB; simp at hB
        | some p2' =>
          rw [hl] at hB
          simp only [Option.map, Option.some.injEq] at hB
          obtain ⟨g1, g2⟩ := tx_free_loop_index_range fuel _ p2' hl h1.1
          rw [← hB]
          exact ⟨g1, by show p2'.rx_head < 64; rw [g2]; exact h1.2⟩
      · rw [if_neg hb] at hB
        cases hB
        exact h1
    rw [hp]
    split
    · exact h2
    · exact h2

theorem step_index_range (priv priv1 : host_arm_net_priv) (e : Event)
    (hstep : step priv e = some priv1) (ht : priv.tx_tail < 64) (hr : priv.rx_head < 64) :
    priv1.tx_tail < 64 ∧ priv1.rx_head < 64 := by
  cases e with
  | xmit skb =>
    simp only [step, Option.some.injEq] at hstep
    obtain ⟨g1, g2⟩ := start_xmit_index_range priv skb ht
    rw [← hstep]
    exact ⟨g1, by rw [g2]; exact hr⟩
  | irq fuel alloc =>
    simp only [step] at hstep
    cases hres : host_arm_net_interrupt fuel alloc priv with
    | none => rw [hres] at hstep; simp at hstep
    | some r =>
      rw [hres] at hstep
      simp only [Option.map, Option.some.injEq] at hstep
      rw [← hstep]
      exact host_arm_net_interrupt_index_range fuel alloc priv r.2 r.1 hres ht hr
  | device shared_mem mbox =>
    simp only [step, Option.some.injEq] at hstep
    rw [← hstep]
    exact ⟨ht, hr⟩

theorem run_index_range (events : List Event) :
    ∀ (priv priv1 : host_arm_net_priv), run priv events = some priv1 →
      priv.tx_tail < 64 → priv.rx_head < 64 → priv1.tx_tail < 64 ∧ priv1.rx_head < 64 := by
  induction events with
  | nil =>
    intro priv priv1 hrun ht hr
    simp only [run, Option.some.injEq] at hrun
    rw [← hrun]
    exact ⟨ht, hr⟩
  | cons e es ih =>
    intro priv priv1 hrun ht hr
    cases hstep : step priv e with
    | none => simp only [run, hstep] at hrun; cases hrun
    | some p =>
      simp only [run, hstep] at hrun
      obtain ⟨g1, g2⟩ := step_index_range priv p e hstep ht hr
      exact ih p priv1 hrun g1 g2

/-! ## The acceptance test of the receive function -/

/-- The outcome of `host_arm_net_receive_packet` for a valid length and a 16-bit index, in
closed form: the only test that involves the index is the bound on the end offset. -/
theorem receive_packet_closed_form (priv : host_arm_net_priv) (L I : Nat) (alloc_ok : Bool)
    (h0 : L ≠ 0) (h1 : L ≤ 1518) (hI : I < 65536) :
    host_arm_net_receive_packet priv L I alloc_ok
      = if alloc_ok = true ∧ I * 1536 + L ≤ 0x20000 then
          { priv with
            shared_mem := writel priv.shared_mem (CONTROL_OFFSET + CTRL_RX_HEAD)
              ((priv.rx_head + 1) % 64),
            delivered := priv.delivered
              ++ [memcpy_fromio priv.shared_mem (0x20000 + I * 1536) L],
            stats := { priv.stats with
              rx_packets := priv.stats.rx_packets + 1,
              rx_bytes := priv.stats.rx_bytes + L },
            rx_head := (priv.rx_head + 1) % 64,
            io_log := priv.io_log
              ++ [IoWrite.control CTRL_RX_HEAD ((priv.rx_head + 1) % 64)] }
        else rx_drop priv := by
  by_cases h2 : I * 1536 + L ≤ 0x20000
  · cases alloc_ok with
    | false =>
      rw [receive_packet_of_alloc_fail priv L I, if_neg (by simp)]
    | true =>
      rw [receive_packet_accept_eq priv L I h0 h1 h2, if_pos ⟨rfl, h2⟩]
  · have hw := rx_offset_no_wrap L I (by omega) hI
    have ha : ¬ (L = 0 ∨ L > MAX_PACKET_SIZE) := by
      simp only [MAX_PACKET_SIZE]; omega
    have hb : ((I * RING_SPACING) % U32 + L) % U32 > CONTROL_OFFSET - RX_RING_OFFSET := by
      rw [hw.2]; simp only [CONTROL_OFFSET, RX_RING_OFFSET]; omega
    rw [receive_packet_of_overflow priv L I alloc_ok ha hb, if_neg (fun h => h2 h.2)]

/-- A frame is delivered exactly when the allocation succeeds and the end offset is
inside the receive area. -/
theorem receive_packet_delivers_iff (priv : host_arm_net_priv) (L I : Nat) (alloc_ok : Bool)
    (h0 : L ≠ 0) (h1 : L ≤ 1518) (hI : I < 65536) :
    (host_arm_net_receive_packet priv L I alloc_ok).delivered ≠ priv.delivered
      ↔ (alloc_ok = true ∧ I * 1536 + L ≤ 0x20000) := by
  rw [receive_packet_closed_form priv L I alloc_ok h0 h1 hI]
  by_cases hc : alloc_ok = true ∧ I * 1536 + L ≤ 0x20000
  · rw [if_pos hc]
    refine ⟨fun _ => hc, fun _ => ?_⟩
    show priv.delivered ++ [memcpy_fromio priv.shared_mem (0x20000 + I * 1536) L]
      ≠ priv.delivered
    intro h
    have hl := congrArg List.length h
    rw [List.length_append, List.length_singleton] at hl
    omega
  · rw [if_neg hc]
    refine ⟨fun h => absurd rfl h, fun h => absurd h hc⟩

/-! ## Claims -/

/-- C1, the code at the failing input: from a freshly opened transport, 63
submissions are accepted, the peer reports `tx_head = 63` and the send-threshold
interrupt runs, and one more submission is made. All 64 submissions return
`NETDEV_TX_OK` (none is refused as busy) and the pending-transmit table then holds
64 non-empty entries, one more than `capacity - 1`. -/
theorem tx_pending_reaches_capacity :
    (tx_run fresh_priv
        (fill_events ++ [TxEvent.tx_irq 63, TxEvent.xmit (zero_skb 63 100)])).map
      (fun r => (r.1, tx_pending r.2))
    = some (List.replicate 64 netdev_tx_t.NETDEV_TX_OK, 64) := by
  decide!

/-- C2: for a frame of valid size (`14 + n ≤ 1518`), `host_arm_net_start_xmit` returns
`NETDEV_TX_BUSY` exactly when `(tx_tail + 1) mod 64 == tx_head`, and a busy return
leaves `tx_head`, `tx_tail`, the pending-transmit table, every shared-memory byte
(the control area included), the mailbox and the statistics unchanged; it performs
no device write and releases no packet. -/
theorem start_xmit_busy_iff (priv : host_arm_net_priv) (skb : sk_buff)
    (hlen : 14 + skb.len ≤ 1518) :
    ((host_arm_net_start_xmit priv skb).1 = netdev_tx_t.NETDEV_TX_BUSY
        ↔ (priv.tx_tail + 1) % 64 = priv.tx_head)
    ∧ ((host_arm_net_start_xmit priv skb).1 = netdev_tx_t.NETDEV_TX_BUSY →
        (host_arm_net_start_xmit priv skb).2.tx_head = priv.tx_head
        ∧ (host_arm_net_start_xmit priv skb).2.tx_tail = priv.tx_tail
        ∧ (host_arm_net_start_xmit priv skb).2.tx_skb = priv.tx_skb
        ∧ (host_arm_net_start_xmit priv skb).2.shared_mem = priv.shared_mem
        ∧ (host_arm_net_start_xmit priv skb).2.mbox = priv.mbox
        ∧ (host_arm_net_start_xmit priv skb).2.stats = priv.stats
        ∧ (host_arm_net_start_xmit priv skb).2.io_log = priv.io_log
        ∧ (host_arm_net_start_xmit priv skb).2.freed = priv.freed) := by
  have h1 : ¬ ((MAC_HEADER_SIZE + skb.len) % U32 > MAX_PACKET_SIZE) := by
    simp only [MAC_HEADER_SIZE, ETH_ALEN, U32, MAX_PACKET_SIZE]; omega
  have h2 : ((priv.tx_tail + 1) % U32) % TX_RING_SIZE = (priv.tx_tail + 1) % 64 := by
    simp only [U32, TX_RING_SIZE]; omega
  by_cases hfull : (priv.tx_tail + 1) % 64 = priv.tx_head
  · have h3 : ((priv.tx_tail + 1) % U32) % TX_RING_SIZE = priv.tx_head := by
      rw [h2]; exact hfull
    simp [host_arm_net_start_xmit, h1, h3, hfull]
  · have h3 : ¬ (((priv.tx_tail + 1) % U32) % TX_RING_SIZE = priv.tx_head) := by
      rw [h2]; exact hfull
    simp [host_arm_net_start_xmit, h1, h3, hfull]

/-- Witness for C2: with `tx_tail = 0` and `tx_head = 1` the ring is full, a
100-byte packet is refused and the indices stay as they were. -/
theorem start_xmit_busy_iff_witness :
    14 + (zero_skb 1 100).len ≤ 1518
    ∧ (host_arm_net_start_xmit { fresh_priv with tx_head := 1 } (zero_skb 1 100)).1
        = netdev_tx_t.NETDEV_TX_BUSY
    ∧ (host_arm_net_start_xmit { fresh_priv with tx_head := 1 } (zero_skb 1 100)).2.tx_tail = 0
    ∧ (host_arm_net_start_xmit fresh_priv (zero_skb 1 100)).1 ≠ netdev_tx_t.NETDEV_TX_BUSY :=
  have h := start_xmit_busy_iff { fresh_priv with tx_head := 1 } (zero_skb 1 100) (by decide)
  have hb := h.1.2 (by decide)
  ⟨by decide, hb, (h.2 hb).2.1,
   fun hc => absurd ((start_xmit_busy_iff fresh_priv (zero_skb 1 100) (by decide)).1.1 hc)
     (by decide)⟩

/-- C3 (as amended): for every payload length `n` with `14 + n < 2 ^ 32`,
`host_arm_net_start_xmit` drops the frame as oversize (counts it in `tx_dropped`
and releases it) if and only if `14 + n > 1518`; on such a drop it returns
`NETDEV_TX_OK`, `tx_dropped` grows by exactly 1, and `tx_head`, `tx_tail`, the
pending-transmit table, shared memory (control area included) and the mailbox are
unchanged and no device write happens, whatever the fill state of the ring; a
frame with `14 + n ≤ 1518` is never counted as dropped nor released. -/
theorem start_xmit_oversize_iff (priv : host_arm_net_priv) (skb : sk_buff)
    (hn : 14 + skb.len < 2 ^ 32) :
    ((host_arm_net_start_xmit priv skb).2.stats.tx_dropped = priv.stats.tx_dropped + 1
        ↔ 14 + skb.len > 1518)
    ∧ (14 + skb.len > 1518 →
        (host_arm_net_start_xmit priv skb).1 = netdev_tx_t.NETDEV_TX_OK
        ∧ (host_arm_net_start_xmit priv skb).2.stats.tx_dropped = priv.stats.tx_dropped + 1
        ∧ (host_arm_net_start_xmit priv skb).2.freed = priv.freed ++ [skb]
        ∧ (host_arm_net_start_xmit priv skb).2.tx_head = priv.tx_head
        ∧ (host_arm_net_start_xmit priv skb).2.tx_tail = priv.tx_tail
        ∧ (host_arm_net_start_xmit priv skb).2.tx_skb = priv.tx_skb
        ∧ (host_arm_net_start_xmit priv skb).2.shared_mem = priv.shared_mem
        ∧ (host_arm_net_start_xmit priv skb).2.mbox = priv.mbox
        ∧ (host_arm_net_start_xmit priv skb).2.io_log = priv.io_log)
    ∧ (14 + skb.len ≤ 1518 →
        (host_arm_net_start_xmit priv skb).2.stats.tx_dropped = priv.stats.tx_dropped
        ∧ (host_arm_net_start_xmit priv skb).2.freed = priv.freed) := by
  have h0 : (MAC_HEADER_SIZE + skb.len) % U32 = 14 + skb.len := by
    simp only [MAC_HEADER_SIZE, ETH_ALEN, U32]; omega
  by_cases hbig : 14 + skb.len > 1518
  · have h1 : (MAC_HEADER_SIZE + skb.len) % U32 > MAX_PACKET_SIZE := by
      rw [h0]; exact hbig
    simp [host_arm_net_start_xmit, h1, hbig]
  · have h1 : ¬ ((MAC_HEADER_SIZE + skb.len) % U32 > MAX_PACKET_SIZE) := by
      rw [h0]; exact hbig
    have hle : 14 + skb.len ≤ 1518 := by omega
    by_cases hfull : ((priv.tx_tail + 1) % U32) % TX_RING_SIZE = priv.tx_head
    · simp [host_arm_net_start_xmit, h1, hfull, hle]
    · simp [host_arm_net_start_xmit, h1, hfull, hle, host_arm_net_update_tx_tail,
        host_arm_net_write_reg, mbox_is_full, mbox_read_reg, mbox_write_data, mbox_write_reg]
      split <;> simp <;> omega

/-- Witness for C3 (as amended): 1504 payload bytes are not dropped, 1505 are. -/
theorem start_xmit_oversize_iff_witness :
    (host_arm_net_start_xmit fresh_priv (zero_skb 1 1504)).2.stats.tx_dropped
        = fresh_priv.stats.tx_dropped
    ∧ (host_arm_net_start_xmit fresh_priv (zero_skb 1 1505)).2.stats.tx_dropped
        = fresh_priv.stats.tx_dropped + 1 :=
  ⟨((start_xmit_oversize_iff fresh_priv (zero_skb 1 1504)
      (by rw [zero_skb_len]; decide)).2.2 (by rw [zero_skb_len])).1,
   ((start_xmit_oversize_iff fresh_priv (zero_skb 1 1505)
      (by rw [zero_skb_len]; decide)).2.1 (by rw [zero_skb_len]; decide)).2.1⟩

/-- C3, counterexample to the claim as stated: the payload length `2 ^ 32 - 14` is a
32-bit value with `14 + n > 1518`, but `total_len` wraps to 0 and the frame is neither
counted in `tx_dropped` nor released, so the equivalence of being dropped with
`14 + n > 1518` fails. -/
theorem start_xmit_oversize_wraps :
    (zero_skb 1 4294967282).len < 2 ^ 32
    ∧ 14 + (zero_skb 1 4294967282).len > 1518
    ∧ (host_arm_net_start_xmit fresh_priv (zero_skb 1 4294967282)).2.stats.tx_dropped
        = fresh_priv.stats.tx_dropped
    ∧ (host_arm_net_start_xmit fresh_priv (zero_skb 1 4294967282)).2.freed
        = fresh_priv.freed
    ∧ ¬ ((host_arm_net_start_xmit fresh_priv (zero_skb 1 4294967282)).2.stats.tx_dropped
            = fresh_priv.stats.tx_dropped + 1
          ↔ 14 + (zero_skb 1 4294967282).len > 1518) := by
  have h1 : ¬ ((MAC_HEADER_SIZE + (zero_skb 1 4294967282).len) % U32 > MAX_PACKET_SIZE) := by
    rw [zero_skb_len]; decide
  have hnd := start_xmit_not_dropped fresh_priv (zero_skb 1 4294967282) h1
  have hbig : 14 + (zero_skb 1 4294967282).len > 1518 := by
    rw [zero_skb_len]; decide
  refine ⟨?_, hbig, hnd.1, hnd.2, ?_⟩
  · rw [zero_skb_len]; decide
  · intro hiff
    have hd := hiff.mpr hbig
    rw [hnd.1] at hd
    omega

/-- C4: in a state whose TX ring is not full (`tx_tail` a valid slot index), after
`host_arm_net_start_xmit` accepts a payload `P` with `14 + len(P) ≤ 1518`, the
`14 + len(P)` bytes of shared memory at byte offset `old_tx_tail * 1536` of the TX
ring area are `header ++ P`, the header being six `0xFF` bytes, the six bytes of the
device address and the two bytes `0x08 0x00`; the header does not depend on the
packet. -/
theorem start_xmit_slot_bytes (priv : host_arm_net_priv) (skb : sk_buff)
    (htail : priv.tx_tail < 64) (hfull : (priv.tx_tail + 1) % 64 ≠ priv.tx_head)
    (hlen : 14 + skb.len ≤ 1518) :
    (host_arm_net_start_xmit priv skb).1 = netdev_tx_t.NETDEV_TX_OK
    ∧ (host_arm_net_start_xmit priv skb).2.stats.tx_dropped = priv.stats.tx_dropped
    ∧ memcpy_fromio (host_arm_net_start_xmit priv skb).2.shared_mem
          (TX_RING_OFFSET + priv.tx_tail * 1536) (14 + skb.len)
        = List.replicate 6 (0xFF : Byte) ++ (List.range 6).map priv.dev_addr
            ++ [(0x08 : Byte), 0x00] ++ skb.data := by
  have h1 : ¬ ((MAC_HEADER_SIZE + skb.len) % U32 > MAX_PACKET_SIZE) := by
    simp only [MAC_HEADER_SIZE, ETH_ALEN, U32, MAX_PACKET_SIZE]; omega
  have h2 : ¬ (((priv.tx_tail + 1) % U32) % TX_RING_SIZE = priv.tx_head) := by
    have : ((priv.tx_tail + 1) % U32) % TX_RING_SIZE = (priv.tx_tail + 1) % 64 := by
      simp only [U32, TX_RING_SIZE]; omega
    rw [this]; exact hfull
  refine ⟨start_xmit_accept_ret priv skb h1 h2, (start_xmit_not_dropped priv skb h1).1, ?_⟩
  · have h0 : TX_RING_OFFSET + priv.tx_tail * 1536 = priv.tx_tail * 1536 := by
      simp [TX_RING_OFFSET]
    rw [h0]
    exact start_xmit_accept_slot priv skb htail hfull hlen

/-- Witness for C4: a 100-byte packet sent on a freshly opened transport lands at
offset 0 behind the header of the device address 02:00:00:00:00:01. -/
theorem start_xmit_slot_bytes_witness :
    memcpy_fromio (host_arm_net_start_xmit fresh_priv (zero_skb 1 100)).2.shared_mem
        (TX_RING_OFFSET + fresh_priv.tx_tail * 1536) (14 + (zero_skb 1 100).len)
      = List.replicate 6 (0xFF : Byte) ++ (List.range 6).map fresh_priv.dev_addr
          ++ [(0x08 : Byte), 0x00] ++ (zero_skb 1 100).data :=
  (start_xmit_slot_bytes fresh_priv (zero_skb 1 100) (by decide) (by decide) (by decide)).2.2

/-- C5: round trip across the link. A payload `P` with `14 + len(P) ≤ 1518` is accepted
by `host_arm_net_start_xmit` on a sender whose TX ring and mailbox are not full; the
sender then has written exactly one mailbox message. If the receiver's RX ring area
holds the bytes of the sender's TX ring area, decoding that message with
`MBOX_MSG_GET_LENGTH` / `MBOX_MSG_GET_INDEX` (as 16-bit values) and passing the
result to `host_arm_net_receive_packet` (allocation succeeding) delivers exactly
one frame, equal to `header ++ P` and of length `14 + len(P)`. -/
theorem xmit_receive_round_trip (sender receiver : host_arm_net_priv) (skb : sk_buff)
    (htail : sender.tx_tail < 64) (hfull : (sender.tx_tail + 1) % 64 ≠ sender.tx_head)
    (hlen : 14 + skb.len ≤ 1518) (hmbox : (mbox_is_full sender).1 = false)
    (hmem : ∀ a, a < 0x20000 →
      receiver.shared_mem (RX_RING_OFFSET + a)
        = (host_arm_net_start_xmit sender skb).2.shared_mem (TX_RING_OFFSET + a)) :
    (host_arm_net_start_xmit sender skb).1 = netdev_tx_t.NETDEV_TX_OK
    ∧ ∃ msg,
      (host_arm_net_start_xmit sender skb).2.mbox.send_fifo = sender.mbox.send_fifo ++ [msg]
      ∧ (host_arm_net_receive_packet receiver (MBOX_MSG_GET_LENGTH msg % U16)
            (MBOX_MSG_GET_INDEX msg % U16) true).delivered
          = receiver.delivered ++
              [List.replicate 6 (0xFF : Byte) ++ (List.range 6).map sender.dev_addr
                ++ [(0x08 : Byte), 0x00] ++ skb.data]
      ∧ (List.replicate 6 (0xFF : Byte) ++ (List.range 6).map sender.dev_addr
            ++ [(0x08 : Byte), 0x00] ++ skb.data).length = 14 + skb.len := by
  have h1 : ¬ ((MAC_HEADER_SIZE + skb.len) % U32 > MAX_PACKET_SIZE) := by
    simp only [MAC_HEADER_SIZE, ETH_ALEN, U32, MAX_PACKET_SIZE]; omega
  have h2 : ¬ (((sender.tx_tail + 1) % U32) % TX_RING_SIZE = sender.tx_head) := by
    have : ((sender.tx_tail + 1) % U32) % TX_RING_SIZE = (sender.tx_tail + 1) % 64 := by
      simp only [U32, TX_RING_SIZE]; omega
    rw [this]; exact hfull
  have htot : (MAC_HEADER_SIZE + skb.len) % U32 = 14 + skb.len := by
    simp only [MAC_HEADER_SIZE, ETH_ALEN, U32]; omega
  have hnf : ¬ (sender.mbox.depth ≤ sender.mbox.send_fifo.length) := by
    have := (mbox_is_full_false_iff sender).mp hmbox
    omega
  have hpk : MBOX_MSG_PACK (14 + skb.len) sender.tx_tail
      = (14 + skb.len) * 65536 + sender.tx_tail := by
    rw [pack_eq]
    have e1 : (14 + skb.len) % 65536 = 14 + skb.len := Nat.mod_eq_of_lt (by omega)
    have e2 : sender.tx_tail % 65536 = sender.tx_tail := Nat.mod_eq_of_lt (by omega)
    rw [e1, e2]
  have hL : MBOX_MSG_GET_LENGTH (MBOX_MSG_PACK (14 + skb.len) sender.tx_tail % U32) % U16
      = 14 + skb.len := by
    rw [get_length_eq, hpk]; simp only [U32, U16]; omega
  have hI : MBOX_MSG_GET_INDEX (MBOX_MSG_PACK (14 + skb.len) sender.tx_tail % U32) % U16
      = sender.tx_tail := by
    rw [get_index_eq, hpk]; simp only [U32, U16]; omega
  refine ⟨start_xmit_accept_ret sender skb h1 h2,
    MBOX_MSG_PACK (14 + skb.len) sender.tx_tail % U32, ?_, ?_, ?_⟩
  · rw [start_xmit_accept_mbox sender skb h1 h2 hmbox, htot]
    simp [Mbox.write, XMB_WRITE_REG_OFFSET, hnf]
  · rw [hL, hI, receive_packet_accept_delivered receiver (14 + skb.len) sender.tx_tail
      (by omega) hlen (by omega)]
    have hc : memcpy_fromio receiver.shared_mem (0x20000 + sender.tx_tail * 1536)
          (14 + skb.len)
        = memcpy_fromio (host_arm_net_start_xmit sender skb).2.shared_mem
            (sender.tx_tail * 1536) (14 + skb.len) := by
      unfold memcpy_fromio
      apply List.map_congr_left
      intro i hi
      have hi2 : i < 14 + skb.len := List.mem_range.mp hi
      have := hmem (sender.tx_tail * 1536 + i) (by omega)
      simp only [RX_RING_OFFSET, TX_RING_OFFSET, Nat.zero_add] at this
      rw [← this]
      congr 1
      omega
    rw [hc, start_xmit_accept_slot sender skb htail hfull hlen]
  · have : skb.data.length = skb.len := rfl
    simp [this]
    omega

/-- Witness for C5: the receiver's RX area mirrors the TX area of a fresh sender after it
sent a 100-byte packet. -/
theorem xmit_receive_round_trip_witness :
    (host_arm_net_start_xmit fresh_priv (zero_skb 1 100)).1 = netdev_tx_t.NETDEV_TX_OK
    ∧ ∃ msg,
      (host_arm_net_start_xmit fresh_priv (zero_skb 1 100)).2.mbox.send_fifo
        = fresh_priv.mbox.send_fifo ++ [msg]
      ∧ (host_arm_net_receive_packet
            { fresh_priv with
              shared_mem := fun a =>
                if 0x20000 ≤ a then
                  (host_arm_net_start_xmit fresh_priv (zero_skb 1 100)).2.shared_mem (a - 0x20000)
                else 0 }
            (MBOX_MSG_GET_LENGTH msg % U16) (MBOX_MSG_GET_INDEX msg % U16) true).delivered
          = fresh_priv.delivered ++
              [List.replicate 6 (0xFF : Byte) ++ (List.range 6).map fresh_priv.dev_addr
                ++ [(0x08 : Byte), 0x00] ++ (zero_skb 1 100).data]
      ∧ (List.replicate 6 (0xFF : Byte) ++ (List.range 6).map fresh_priv.dev_addr
            ++ [(0x08 : Byte), 0x00] ++ (zero_skb 1 100).data).length
          = 14 + (zero_skb 1 100).len :=
  xmit_receive_round_trip fresh_priv
    { fresh_priv with
      shared_mem := fun a =>
        if 0x20000 ≤ a then
          (host_arm_net_start_xmit fresh_priv (zero_skb 1 100)).2.shared_mem (a - 0x20000)
        else 0 }
    (zero_skb 1 100) (by decide) (by decide) (by decide) (by decide)
    (by intro a _; simp [RX_RING_OFFSET, TX_RING_OFFSET])

/-- C6: with 16-bit length `L` and slot index `I` and the buffer allocation
succeeding, `host_arm_net_receive_packet` drops the notification if and only if
`L == 0`, or `L > 1518`, or `I * 1536 + L > 0x20000` (inclusive bound: a sum equal
to `0x20000` is accepted). A drop adds exactly 1 to `rx_dropped`, delivers nothing,
leaves `rx_head` and the whole shared memory (so the control-area `rx_head` field)
unchanged and writes to no device; otherwise nothing is counted as dropped and
exactly one frame is delivered. -/
theorem receive_packet_drop_iff (priv : host_arm_net_priv) (L I : Nat)
    (hL : L < 65536) (hI : I < 65536) :
    ((host_arm_net_receive_packet priv L I true).stats.rx_dropped
        = priv.stats.rx_dropped + 1
      ↔ (L = 0 ∨ L > 1518 ∨ I * 1536 + L > 0x20000))
    ∧ ((L = 0 ∨ L > 1518 ∨ I * 1536 + L > 0x20000) →
        (host_arm_net_receive_packet priv L I true).stats.rx_dropped
          = priv.stats.rx_dropped + 1
        ∧ (host_arm_net_receive_packet priv L I true).delivered = priv.delivered
        ∧ (host_arm_net_receive_packet priv L I true).rx_head = priv.rx_head
        ∧ (host_arm_net_receive_packet priv L I true).shared_mem = priv.shared_mem
        ∧ host_arm_net_read_reg (host_arm_net_receive_packet priv L I true) CTRL_RX_HEAD
          = host_arm_net_read_reg priv CTRL_RX_HEAD
        ∧ (host_arm_net_receive_packet priv L I true).io_log = priv.io_log)
    ∧ (¬ (L = 0 ∨ L > 1518 ∨ I * 1536 + L > 0x20000) →
        (host_arm_net_receive_packet priv L I true).stats.rx_dropped = priv.stats.rx_dropped
        ∧ ∃ frame, (host_arm_net_receive_packet priv L I true).delivered
            = priv.delivered ++ [frame]) := by
  have hoff : (I * RING_SPACING) % U32 = I * 1536 := by
    simp only [RING_SPACING, U32]; omega
  have hsum : (I * 1536 + L) % U32 = I * 1536 + L := by
    simp only [U32]; omega
  by_cases h1 : L = 0 ∨ L > MAX_PACKET_SIZE
  · have hc : L = 0 ∨ L > 1518 ∨ I * 1536 + L > 0x20000 := by
      simp only [MAX_PACKET_SIZE] at h1; omega
    simp [host_arm_net_receive_packet, h1, hc, rx_drop, host_arm_net_read_reg]
  · by_cases h2 : I * 1536 + L > CONTROL_OFFSET - RX_RING_OFFSET
    · have hc : L = 0 ∨ L > 1518 ∨ I * 1536 + L > 0x20000 := by
        simp only [CONTROL_OFFSET, RX_RING_OFFSET] at h2; omega
      simp [host_arm_net_receive_packet, h1, hoff, hsum, h2, hc, rx_drop,
        host_arm_net_read_reg]
    · have hc : ¬ (L = 0 ∨ L > 1518 ∨ I * 1536 + L > 0x20000) := by
        simp only [MAX_PACKET_SIZE] at h1
        simp only [CONTROL_OFFSET, RX_RING_OFFSET] at h2; omega
      simp [host_arm_net_receive_packet, h1, hoff, hsum, h2, hc, host_arm_net_write_reg]

/-- Witness for C6: slot index 85 with 512 bytes ends exactly at `0x20000` and is
accepted; with 513 bytes it is dropped. -/
theorem receive_packet_drop_iff_witness :
    (85 * 1536 + 512 = 0x20000
      ∧ (host_arm_net_receive_packet fresh_priv 512 85 true).stats.rx_dropped
          = fresh_priv.stats.rx_dropped)
    ∧ (85 * 1536 + 513 = 0x20001
      ∧ (host_arm_net_receive_packet fresh_priv 513 85 true).stats.rx_dropped
          = fresh_priv.stats.rx_dropped + 1) :=
  ⟨⟨by decide,
    ((receive_packet_drop_iff fresh_priv 512 85 (by decide) (by decide)).2.2 (by decide)).1⟩,
   ⟨by decide,
    ((receive_packet_drop_iff fresh_priv 513 85 (by decide) (by decide)).2.1 (by decide)).1⟩⟩

/-- C7: whatever 32-bit mailbox message the peer sends (and whatever the outcome of the
allocation), if `host_arm_net_receive_packet` delivers a frame for the decoded
length and index then the bytes it copies are those at
`[0x20000 + index * 1536, 0x20000 + index * 1536 + length)`, that range lies inside
the RX ring area `[0x20000, 0x40000)`, and the outcome is the same for any memory
that agrees on the RX ring area (the control area and the TX ring area are not
read). The offset computation does not wrap in 32 bits for any 16-bit index and
length. -/
theorem receive_packet_reads_inside_rx_area (priv : host_arm_net_priv) (msg : Nat)
    (alloc_ok : Bool)
    (hacc : (host_arm_net_receive_packet priv (MBOX_MSG_GET_LENGTH msg % U16)
              (MBOX_MSG_GET_INDEX msg % U16) alloc_ok).delivered ≠ priv.delivered) :
    0x20000 ≤ 0x20000 + (MBOX_MSG_GET_INDEX msg % U16) * 1536
    ∧ 0x20000 + (MBOX_MSG_GET_INDEX msg % U16) * 1536 + MBOX_MSG_GET_LENGTH msg % U16
        ≤ 0x40000
    ∧ (host_arm_net_receive_packet priv (MBOX_MSG_GET_LENGTH msg % U16)
          (MBOX_MSG_GET_INDEX msg % U16) alloc_ok).delivered
        = priv.delivered ++ [memcpy_fromio priv.shared_mem
            (0x20000 + (MBOX_MSG_GET_INDEX msg % U16) * 1536)
            (MBOX_MSG_GET_LENGTH msg % U16)]
    ∧ (∀ mem2 : IoMem, (∀ a, 0x20000 ≤ a → a < 0x40000 → mem2 a = priv.shared_mem a) →
        (host_arm_net_receive_packet { priv with shared_mem := mem2 }
            (MBOX_MSG_GET_LENGTH msg % U16) (MBOX_MSG_GET_INDEX msg % U16) alloc_ok).delivered
          = (host_arm_net_receive_packet priv (MBOX_MSG_GET_LENGTH msg % U16)
              (MBOX_MSG_GET_INDEX msg % U16) alloc_ok).delivered)
    ∧ (∀ L I : Nat, L < 65536 → I < 65536 →
        (I * RING_SPACING) % U32 = I * 1536
        ∧ ((I * RING_SPACING) % U32 + L) % U32 = I * 1536 + L) := by
  generalize hLdef : MBOX_MSG_GET_LENGTH msg % U16 = L at hacc ⊢
  generalize hIdef : MBOX_MSG_GET_INDEX msg % U16 = I at hacc ⊢
  have hL : L < 65536 := by
    rw [← hLdef]; exact Nat.mod_lt _ (by decide)
  have hI : I < 65536 := by
    rw [← hIdef]; exact Nat.mod_lt _ (by decide)
  have hw := rx_offset_no_wrap L I hL hI
  have hdrop : (rx_drop priv).delivered = priv.delivered := rfl
  by_cases h1 : L = 0 ∨ L > MAX_PACKET_SIZE
  · rw [receive_packet_of_bad_len priv L I alloc_ok h1] at hacc
    exact absurd hdrop hacc
  · by_cases h2 : ((I * RING_SPACING) % U32 + L) % U32 > CONTROL_OFFSET - RX_RING_OFFSET
    · rw [receive_packet_of_overflow priv L I alloc_ok h1 h2] at hacc
      exact absurd hdrop hacc
    · cases alloc_ok with
      | false =>
        rw [receive_packet_of_alloc_fail priv L I] at hacc
        exact absurd hdrop hacc
      | true =>
        have h3 : I * 1536 + L ≤ 0x20000 := by
          rw [hw.2] at h2
          simp only [CONTROL_OFFSET, RX_RING_OFFSET] at h2; omega
        have h4 : L ≠ 0 ∧ L ≤ 1518 := by
          simp only [MAX_PACKET_SIZE] at h1; omega
        refine ⟨by omega, by omega, ?_, ?_, fun L I hL hI => rx_offset_no_wrap L I hL hI⟩
        · exact receive_packet_accept_delivered priv L I h4.1 h4.2 h3
        · intro mem2 hmem
          rw [receive_packet_accept_delivered priv L I h4.1 h4.2 h3,
            receive_packet_accept_delivered { priv with shared_mem := mem2 } L I h4.1 h4.2 h3]
          have hc : memcpy_fromio mem2 (0x20000 + I * 1536) L
              = memcpy_fromio priv.shared_mem (0x20000 + I * 1536) L :=
            memcpy_fromio_congr _ _ _ _ (fun a ha hb => hmem a (by omega) (by omega))
          simp only [hc]

/-- Witness for C7: the message for 1518 bytes in slot 63 is accepted on a fresh
transport, and the copy ends at `0x20000 + 63 * 1536 + 1518`, below `0x40000`. -/
theorem receive_packet_reads_inside_rx_area_witness :
    0x20000 + (MBOX_MSG_GET_INDEX (MBOX_MSG_PACK 1518 63) % U16) * 1536
        + MBOX_MSG_GET_LENGTH (MBOX_MSG_PACK 1518 63) % U16 ≤ 0x40000 :=
  (receive_packet_reads_inside_rx_area fresh_priv (MBOX_MSG_PACK 1518 63) true
    (by
      have hl : MBOX_MSG_GET_LENGTH (MBOX_MSG_PACK 1518 63) % U16 = 1518 := by decide
      have hi : MBOX_MSG_GET_INDEX (MBOX_MSG_PACK 1518 63) % U16 = 63 := by decide
      rw [hl, hi, receive_packet_accept_delivered fresh_priv 1518 63 (by decide) (by decide)
        (by decide)]
      have hd : fresh_priv.delivered = [] := rfl
      rw [hd]
      simp)).2.1

/-- C8: the mailbox message codec is a bijection between 32-bit words and pairs of a
16-bit length and a 16-bit index: on such a pair `MBOX_MSG_PACK` is `(L << 16) | I`,
a 32-bit word from which `MBOX_MSG_GET_LENGTH` and `MBOX_MSG_GET_INDEX` give back
`L` and `I`; and every 32-bit word `m` decodes to a 16-bit pair that packs to `m` again. -/
theorem mbox_msg_codec_bijection (L I m : Nat) (hL : L ≤ 65535) (hI : I ≤ 65535)
    (hm : m < 2 ^ 32) :
    MBOX_MSG_PACK L I = (L <<< 16) ||| I
    ∧ MBOX_MSG_PACK L I < 2 ^ 32
    ∧ MBOX_MSG_GET_LENGTH (MBOX_MSG_PACK L I) = L
    ∧ MBOX_MSG_GET_INDEX (MBOX_MSG_PACK L I) = I
    ∧ MBOX_MSG_GET_LENGTH m ≤ 65535
    ∧ MBOX_MSG_GET_INDEX m ≤ 65535
    ∧ MBOX_MSG_PACK (MBOX_MSG_GET_LENGTH m) (MBOX_MSG_GET_INDEX m) = m := by
  have hp : MBOX_MSG_PACK L I = L * 65536 + I := by
    rw [pack_eq]
    have h1 : L % 65536 = L := Nat.mod_eq_of_lt (by omega)
    have h2 : I % 65536 = I := Nat.mod_eq_of_lt (by omega)
    rw [h1, h2]
  refine ⟨?_, ?_, ?_, ?_, ?_, ?_, ?_⟩
  · rw [hp, shift_or_eq_add L I (by omega)]
  · rw [hp]; omega
  · rw [get_length_eq, hp]; omega
  · rw [get_index_eq, hp]; omega
  · rw [get_length_eq]; omega
  · rw [get_index_eq]; omega
  · rw [pack_eq, get_length_eq, get_index_eq]; omega

/-- Witness for C8 at the largest frame length, the last slot and an arbitrary word. -/
theorem mbox_msg_codec_bijection_witness :
    MBOX_MSG_PACK 1518 63 = (1518 <<< 16) ||| 63
    ∧ MBOX_MSG_PACK 1518 63 < 2 ^ 32
    ∧ MBOX_MSG_GET_LENGTH (MBOX_MSG_PACK 1518 63) = 1518
    ∧ MBOX_MSG_GET_INDEX (MBOX_MSG_PACK 1518 63) = 63
    ∧ MBOX_MSG_GET_LENGTH 0xDEADBEEF ≤ 65535
    ∧ MBOX_MSG_GET_INDEX 0xDEADBEEF ≤ 65535
    ∧ MBOX_MSG_PACK (MBOX_MSG_GET_LENGTH 0xDEADBEEF) (MBOX_MSG_GET_INDEX 0xDEADBEEF)
        = 0xDEADBEEF :=
  mbox_msg_codec_bijection 1518 63 0xDEADBEEF (by decide) (by decide) (by decide)

/-- C9, the code at the failing input `k = 63`: from a freshly opened transport, 63
submissions are accepted and the next one is refused as busy; when the peer then
reports `tx_head = 63` the send-threshold interrupt releases no handle at all and
all 63 entries stay in the pending-transmit table. -/
theorem fill_then_retire_all_releases_nothing :
    (tx_run fresh_priv
        (fill_events ++ [TxEvent.xmit (zero_skb 63 100), TxEvent.tx_irq 63])).map
      (fun r => (r.1, r.2.freed.length, tx_pending r.2))
    = some (List.replicate 63 netdev_tx_t.NETDEV_TX_OK ++ [netdev_tx_t.NETDEV_TX_BUSY],
        0, 63) := by
  decide!

/-- C10: retirement is idempotent. In a state with `tx_tail < 64` whose control-area
`tx_head` field holds `h < 64`, the send-threshold branch of `host_arm_net_interrupt`
finishes (within 64 iterations of its loop), leaves the control-area field at `h`,
and running it again on the resulting state gives that same state: the second run
releases no handle and changes no table entry, `tx_head` or `tx_tail`. -/
theorem retire_idempotent (priv : host_arm_net_priv) (h fuel : Nat)
    (htail : priv.tx_tail < 64) (hh : h < 64)
    (hreg : host_arm_net_read_reg priv CTRL_TX_HEAD = h) (hfuel : 64 ≤ fuel) :
    ∃ priv1, irq_send_threshold fuel priv = some priv1
      ∧ host_arm_net_read_reg priv1 CTRL_TX_HEAD = h
      ∧ irq_send_threshold fuel priv1 = some priv1
      ∧ ∀ priv2, irq_send_threshold fuel priv1 = some priv2 →
          priv2.freed = priv1.freed ∧ priv2.tx_skb = priv1.tx_skb
          ∧ priv2.tx_head = priv1.tx_head ∧ priv2.tx_tail = priv1.tx_tail := by
  obtain ⟨p1, hrun, h1, h2, h3, -⟩ :=
    tx_free_loop_terminates ((h + 64 - priv.tx_tail) % 64) fuel
      { priv with tx_head := host_arm_net_read_reg priv CTRL_TX_HEAD }
      htail (by simp only [hreg]; exact hh) (by simp only [hreg]) (by omega)
  simp only [hreg] at h1 h2 h3
  obtain ⟨q, hq⟩ : ∃ q : host_arm_net_priv, q = { p1 with queue_stopped := false } := ⟨_, rfl⟩
  have hq1 : q.tx_tail = h := by rw [hq]; exact h1
  have hq2 : q.tx_head = h := by rw [hq]; exact h2
  have hq3 : q.shared_mem = priv.shared_mem := by rw [hq]; exact h3
  have hq4 : q.queue_stopped = false := by rw [hq]
  have hregq : host_arm_net_read_reg q CTRL_TX_HEAD = h := by
    unfold host_arm_net_read_reg
    rw [hq3]
    exact hreg
  have hsecond : irq_send_threshold fuel q = some q :=
    irq_send_threshold_fixed fuel q (by rw [hq1, hregq]) (by rw [hq2, hregq]) hq4
  refine ⟨q, ?_, hregq, hsecond, ?_⟩
  · rw [irq_send_threshold_eq, hrun, hq]
    rfl
  · intro priv2 h2nd
    rw [hsecond] at h2nd
    cases h2nd
    exact ⟨rfl, rfl, rfl, rfl⟩

/-- Witness for C10: a fresh transport after one accepted submission, the peer
reporting `tx_head = 1`. -/
theorem retire_idempotent_witness :
    ∃ priv1,
      irq_send_threshold 64
          (peer_write_reg (host_arm_net_start_xmit fresh_priv (zero_skb 0 100)).2 CTRL_TX_HEAD 1)
        = some priv1
      ∧ host_arm_net_read_reg priv1 CTRL_TX_HEAD = 1
      ∧ irq_send_threshold 64 priv1 = some priv1
      ∧ ∀ priv2, irq_send_threshold 64 priv1 = some priv2 →
          priv2.freed = priv1.freed ∧ priv2.tx_skb = priv1.tx_skb
          ∧ priv2.tx_head = priv1.tx_head ∧ priv2.tx_tail = priv1.tx_tail :=
  retire_idempotent
    (peer_write_reg (host_arm_net_start_xmit fresh_priv (zero_skb 0 100)).2 CTRL_TX_HEAD 1)
    1 64 (by decide) (by decide) (readl_writel _ _ 1) (by decide)

/-- C11 (as amended): the retirement walk terminates for in-range heads. For every
`tx_tail` in `[0, 64)` and every value `h` in `[0, 64)` read from the control-area
`tx_head` field, the loop of the send-threshold branch stops after the cyclic
distance from `tx_tail` to `h`, which is at most 63 iterations (so within
`capacity = 64`). -/
theorem retire_walk_terminates (priv : host_arm_net_priv) (h fuel : Nat)
    (htail : priv.tx_tail < 64) (hh : h < 64)
    (hreg : host_arm_net_read_reg priv CTRL_TX_HEAD = h)
    (hfuel : (h + 64 - priv.tx_tail) % 64 ≤ fuel) :
    (h + 64 - priv.tx_tail) % 64 ≤ 63
    ∧ (∃ priv1, irq_send_threshold fuel priv = some priv1)
    ∧ (∃ priv1, irq_send_threshold 64 priv = some priv1) := by
  have hd : (h + 64 - priv.tx_tail) % 64 ≤ 63 := by omega
  refine ⟨hd, ?_, ?_⟩
  · obtain ⟨p1, hrun, -⟩ :=
      tx_free_loop_terminates ((h + 64 - priv.tx_tail) % 64) fuel
        { priv with tx_head := host_arm_net_read_reg priv CTRL_TX_HEAD }
        htail (by simp only [hreg]; exact hh) (by simp only [hreg]) hfuel
    exact ⟨_, by rw [irq_send_threshold_eq, hrun]; rfl⟩
  · obtain ⟨p1, hrun, -⟩ :=
      tx_free_loop_terminates ((h + 64 - priv.tx_tail) % 64) 64
        { priv with tx_head := host_arm_net_read_reg priv CTRL_TX_HEAD }
        htail (by simp only [hreg]; exact hh) (by simp only [hreg]) (by omega)
    exact ⟨_, by rw [irq_send_threshold_eq, hrun]; rfl⟩

/-- Witness for C11 (as amended): after one accepted submission `tx_tail = 1`; with the
peer reporting `tx_head = 0` the walk needs 63 iterations and finishes. -/
theorem retire_walk_terminates_witness :
    (0 + 64 - (host_arm_net_start_xmit fresh_priv (zero_skb 0 100)).2.tx_tail) % 64 ≤ 63
    ∧ (∃ priv1,
        irq_send_threshold 63
            (peer_write_reg (host_arm_net_start_xmit fresh_priv (zero_skb 0 100)).2
              CTRL_TX_HEAD 0)
          = some priv1)
    ∧ (∃ priv1,
        irq_send_threshold 64
            (peer_write_reg (host_arm_net_start_xmit fresh_priv (zero_skb 0 100)).2
              CTRL_TX_HEAD 0)
          = some priv1) :=
  retire_walk_terminates
    (peer_write_reg (host_arm_net_start_xmit fresh_priv (zero_skb 0 100)).2 CTRL_TX_HEAD 0)
    0 63 (by decide) (by decide) (readl_writel _ _ 0) (by decide)

/-- C11, counterexample to the claim as stated: on a freshly opened transport
(`tx_tail = 0`) the peer writes the 32-bit value 64 to the control-area `tx_head`
field; the loop of the send-threshold branch has not stopped after 64 iterations,
nor after 4096. -/
theorem retire_walk_diverges :
    fresh_priv.tx_tail < 64
    ∧ host_arm_net_read_reg (peer_write_reg fresh_priv CTRL_TX_HEAD 64) CTRL_TX_HEAD = 64
    ∧ (irq_send_threshold 64 (peer_write_reg fresh_priv CTRL_TX_HEAD 64)).isNone = true
    ∧ (irq_send_threshold 4096 (peer_write_reg fresh_priv CTRL_TX_HEAD 64)).isNone = true := by
  have hreg : host_arm_net_read_reg (peer_write_reg fresh_priv CTRL_TX_HEAD 64) CTRL_TX_HEAD
      = 64 := readl_writel _ _ 64
  have ht : (peer_write_reg fresh_priv CTRL_TX_HEAD 64).tx_tail < 64 := by decide
  refine ⟨by decide, hreg, ?_, ?_⟩
  · rw [irq_send_threshold_diverges 64 _ ht (by rw [hreg])]; rfl
  · rw [irq_send_threshold_diverges 4096 _ ht (by rw [hreg])]; rfl

/-- C12, the code at the failing input: on a freshly opened transport two packets
(handles 10 and 11) are accepted into slots 0 and 1; the peer consumes the first and
reports `tx_head = 1`; the send-threshold interrupt releases handle 10 only and
leaves `tx_tail = 1` with handle 11 still recorded in slot 1. The next submission
(handle 12) is accepted and stored in slot 1 over handle 11, which was never
released. -/
theorem xmit_overwrites_live_handle :
    (tx_run fresh_priv
        [TxEvent.xmit (zero_skb 10 100), TxEvent.xmit (zero_skb 11 100), TxEvent.tx_irq 1]).map
      (fun r => (r.1, r.2.tx_tail, (r.2.tx_skb 1).map (fun s => s.handle),
        r.2.freed.map (fun s => s.handle)))
      = some ([netdev_tx_t.NETDEV_TX_OK, netdev_tx_t.NETDEV_TX_OK], 1, some 11, [10])
    ∧ (tx_run fresh_priv
        [TxEvent.xmit (zero_skb 10 100), TxEvent.xmit (zero_skb 11 100), TxEvent.tx_irq 1,
          TxEvent.xmit (zero_skb 12 100)]).map
      (fun r => (r.1, r.2.tx_tail, (r.2.tx_skb 1).map (fun s => s.handle),
        r.2.freed.map (fun s => s.handle)))
      = some ([netdev_tx_t.NETDEV_TX_OK, netdev_tx_t.NETDEV_TX_OK, netdev_tx_t.NETDEV_TX_OK],
          2, some 12, [10]) := by
  decide!

/-- C13: the receive drain preserves order and counts. On a receive-threshold
interrupt (interrupt status `XMB_IX_RTA`), whatever finite list of messages is
queued in the receive FIFO and whatever the allocation outcomes, the handler
returns `IRQ_HANDLED` within one loop round per queued message and leaves the FIFO
empty. The frames delivered are those of the accepted messages (valid, with a
buffer available), in queue order, each the `length` bytes at `index * 1536` of the
RX ring area; `rx_head` advances by the number of accepted messages modulo 64,
`rx_packets` by that number and `rx_dropped` by the number of the other messages.
The accepted messages form a sublist of the queue, all of them valid, and are
exactly the valid ones when every allocation succeeds. -/
theorem rx_interrupt_drains_in_order (priv : host_arm_net_priv) (fuel : Nat)
    (alloc : Nat → Bool) (hrx : priv.rx_head < 64)
    (hstatus : (mbox_get_interrupt_status priv).1 = XMB_IX_RTA)
    (hfuel : priv.mbox.recv_fifo.length ≤ fuel) :
    ∃ priv1, host_arm_net_interrupt fuel alloc priv = some (irqreturn_t.IRQ_HANDLED, priv1)
      ∧ priv1.mbox.recv_fifo = []
      ∧ priv1.delivered
          = priv.delivered ++
              (spec_rx_accepted alloc priv.mbox.recv_fifo).map (spec_rx_frame priv.shared_mem)
      ∧ priv1.rx_head
          = (priv.rx_head + (spec_rx_accepted alloc priv.mbox.recv_fifo).length) % 64
      ∧ (spec_rx_accepted alloc priv.mbox.recv_fifo).length ≤ priv.mbox.recv_fifo.length
      ∧ priv1.stats.rx_dropped
          = priv.stats.rx_dropped
            + (priv.mbox.recv_fifo.length - (spec_rx_accepted alloc priv.mbox.recv_fifo).length)
      ∧ priv1.stats.rx_packets
          = priv.stats.rx_packets + (spec_rx_accepted alloc priv.mbox.recv_fifo).length
      ∧ (spec_rx_accepted alloc priv.mbox.recv_fifo).Sublist priv.mbox.recv_fifo
      ∧ (∀ m ∈ spec_rx_accepted alloc priv.mbox.recv_fifo, spec_rx_valid m = true)
      ∧ ((∀ i, alloc i = true) →
          spec_rx_accepted alloc priv.mbox.recv_fifo
            = priv.mbox.recv_fifo.filter spec_rx_valid) := by
  have hs : priv.mbox.is_reg % U32 = XMB_IX_RTA := by
    rw [mbox_get_interrupt_status_eq] at hstatus; exact hstatus
  obtain ⟨p1, hrun, hmb, hdel, hhead, hdrop, hpk, -⟩ :=
    rx_drain_loop_effect priv.mbox.recv_fifo fuel alloc priv rfl hfuel
  have hle := spec_rx_accepted_length_le priv.mbox.recv_fifo alloc
  have e0 : ¬ (XMB_IX_RTA = 0) := by decide
  have e1 : XMB_IX_RTA &&& XMB_IX_RTA ≠ 0 := by decide
  have e2 : ¬ (XMB_IX_RTA &&& XMB_IX_STA ≠ 0) := by decide
  have e3 : ¬ (XMB_IX_RTA &&& XMB_IX_ERR ≠ 0) := by decide
  refine ⟨mbox_clear_interrupt_status p1 XMB_IX_RTA, ?_, ?_, hdel, ?_, hle, ?_, hpk,
    spec_rx_accepted_sublist _ _, spec_rx_accepted_valid _ _,
    spec_rx_accepted_of_alloc _ _⟩
  · rw [host_arm_net_interrupt_eq, hs, if_neg e0, if_pos e1]
    show (rx_drain_loop fuel alloc priv).bind _ = _
    rw [hrun]
    simp only [Option.bind, if_neg e2, if_neg e3]
  · show (p1.mbox.write XMB_IS_REG_OFFSET XMB_IX_RTA).recv_fifo = []
    rw [mbox_write_is_recv_fifo, hmb]
  · show p1.rx_head = _
    rw [hhead]
    split <;> omega
  · show p1.stats.rx_dropped = _
    omega

/-- Witness for C13: two valid notifications, for slots 0 and 1, queued on a fresh
transport: two frames are delivered in that order and `rx_head` advances by 2. -/
theorem rx_interrupt_drains_in_order_witness :
    ∃ priv1,
      host_arm_net_interrupt 2 (fun _ => true)
          { fresh_priv with
            mbox := { fresh_priv.mbox with
              recv_fifo := [MBOX_MSG_PACK 100 0, MBOX_MSG_PACK 100 1],
              is_reg := XMB_IX_RTA } }
        = some (irqreturn_t.IRQ_HANDLED, priv1)
      ∧ priv1.mbox.recv_fifo = []
      ∧ priv1.delivered
          = [spec_rx_frame fresh_priv.shared_mem (MBOX_MSG_PACK 100 0),
             spec_rx_frame fresh_priv.shared_mem (MBOX_MSG_PACK 100 1)]
      ∧ priv1.rx_head = 2 :=
  match rx_interrupt_drains_in_order
      { fresh_priv with
        mbox := { fresh_priv.mbox with
          recv_fifo := [MBOX_MSG_PACK 100 0, MBOX_MSG_PACK 100 1],
          is_reg := XMB_IX_RTA } }
      2 (fun _ => true) (by decide) (by decide) (by decide) with
  | ⟨priv1, hrun, hq, hdel, hhead, _⟩ =>
    ⟨priv1, hrun, hq,
      by
        have e : spec_rx_accepted (fun _ => true) [MBOX_MSG_PACK 100 0, MBOX_MSG_PACK 100 1]
            = [MBOX_MSG_PACK 100 0, MBOX_MSG_PACK 100 1] := by decide
        rw [hdel]
        show [] ++ List.map (spec_rx_frame fresh_priv.shared_mem)
            (spec_rx_accepted (fun _ => true) [MBOX_MSG_PACK 100 0, MBOX_MSG_PACK 100 1]) = _
        rw [e]
        rfl,
      by
        have e : (spec_rx_accepted (fun _ => true)
            [MBOX_MSG_PACK 100 0, MBOX_MSG_PACK 100 1]).length = 2 := by decide
        rw [hhead]
        show (0 + (spec_rx_accepted (fun _ => true)
            [MBOX_MSG_PACK 100 0, MBOX_MSG_PACK 100 1]).length) % 64 = 2
        rw [e]⟩

/-- C14: for 16-bit `length` and `index`, whenever `host_arm_net_receive_packet` delivers
a frame: the frame has exactly `length` bytes and equals the shared-memory bytes at
`[0x20000 + index * 1536, 0x20000 + index * 1536 + length)`; `rx_head` becomes
`(rx_head + 1) mod 64`, that value is the one device write performed, to the
control-area `rx_head` field, which then reads back as it; `rx_packets` grows by 1
and `rx_bytes` by `length`; every byte of shared memory outside the control-area
`rx_head` field (both ring areas in particular) is unchanged, and so are `tx_head`,
`tx_tail`, the pending-transmit table, the released packets, the mailbox and the
control-area `tx_head` and `tx_tail` fields. -/
theorem receive_packet_accept_effect (priv : host_arm_net_priv) (L I : Nat)
    (alloc_ok : Bool) (hL : L < 65536) (hI : I < 65536)
    (hacc : (host_arm_net_receive_packet priv L I alloc_ok).delivered ≠ priv.delivered) :
    (host_arm_net_receive_packet priv L I alloc_ok).delivered
        = priv.delivered ++ [memcpy_fromio priv.shared_mem (0x20000 + I * 1536) L]
    ∧ (memcpy_fromio priv.shared_mem (0x20000 + I * 1536) L).length = L
    ∧ (host_arm_net_receive_packet priv L I alloc_ok).rx_head = (priv.rx_head + 1) % 64
    ∧ (host_arm_net_receive_packet priv L I alloc_ok).io_log
        = priv.io_log ++ [IoWrite.control CTRL_RX_HEAD ((priv.rx_head + 1) % 64)]
    ∧ host_arm_net_read_reg (host_arm_net_receive_packet priv L I alloc_ok) CTRL_RX_HEAD
        = (priv.rx_head + 1) % 64
    ∧ (host_arm_net_receive_packet priv L I alloc_ok).stats.rx_packets
        = priv.stats.rx_packets + 1
    ∧ (host_arm_net_receive_packet priv L I alloc_ok).stats.rx_bytes = priv.stats.rx_bytes + L
    ∧ (∀ a, ¬ (CONTROL_OFFSET + CTRL_RX_HEAD ≤ a ∧ a < CONTROL_OFFSET + CTRL_RX_HEAD + 4) →
        (host_arm_net_receive_packet priv L I alloc_ok).shared_mem a = priv.shared_mem a)
    ∧ (∀ a, a < 0x40000 →
        (host_arm_net_receive_packet priv L I alloc_ok).shared_mem a = priv.shared_mem a)
    ∧ (host_arm_net_receive_packet priv L I alloc_ok).tx_head = priv.tx_head
    ∧ (host_arm_net_receive_packet priv L I alloc_ok).tx_tail = priv.tx_tail
    ∧ (host_arm_net_receive_packet priv L I alloc_ok).tx_skb = priv.tx_skb
    ∧ (host_arm_net_receive_packet priv L I alloc_ok).freed = priv.freed
    ∧ (host_arm_net_receive_packet priv L I alloc_ok).mbox = priv.mbox
    ∧ host_arm_net_read_reg (host_arm_net_receive_packet priv L I alloc_ok) CTRL_TX_HEAD
        = host_arm_net_read_reg priv CTRL_TX_HEAD
    ∧ host_arm_net_read_reg (host_arm_net_receive_packet priv L I alloc_ok) CTRL_TX_TAIL
        = host_arm_net_read_reg priv CTRL_TX_TAIL := by
  obtain ⟨ha, h0, h1, h2⟩ := receive_packet_tests_of_delivered priv L I alloc_ok hL hI hacc
  subst ha
  rw [receive_packet_accept_eq priv L I h0 h1 h2]
  have hmem : ∀ a, ¬ (CONTROL_OFFSET + CTRL_RX_HEAD ≤ a ∧ a < CONTROL_OFFSET + CTRL_RX_HEAD + 4) →
      writel priv.shared_mem (CONTROL_OFFSET + CTRL_RX_HEAD) ((priv.rx_head + 1) % 64) a
        = priv.shared_mem a := by
    intro a ha
    exact writel_outside _ _ _ a (by omega)
  have hreg : ∀ off, off = 0 ∨ off = 4 →
      readl (writel priv.shared_mem (CONTROL_OFFSET + CTRL_RX_HEAD) ((priv.rx_head + 1) % 64))
          (CONTROL_OFFSET + off)
        = readl priv.shared_mem (CONTROL_OFFSET + off) := by
    intro off hoff
    apply readl_congr
    intro a ha hb
    apply hmem
    simp only [CONTROL_OFFSET, CTRL_RX_HEAD] at ha hb ⊢
    omega
  refine ⟨rfl, memcpy_fromio_length _ _ _, rfl, rfl, ?_, rfl, rfl, hmem, ?_, rfl, rfl, rfl, rfl,
    rfl, hreg 0 (by simp), hreg 4 (by simp)⟩
  · show readl (writel priv.shared_mem (CONTROL_OFFSET + CTRL_RX_HEAD) ((priv.rx_head + 1) % 64))
        (CONTROL_OFFSET + CTRL_RX_HEAD) = (priv.rx_head + 1) % 64
    rw [readl_writel]
    omega
  · intro a ha
    apply hmem
    simp only [CONTROL_OFFSET, CTRL_RX_HEAD]
    omega

/-- Witness for C14: the notification for 1518 bytes in slot 63 on a fresh transport. -/
theorem receive_packet_accept_effect_witness :
    (host_arm_net_receive_packet fresh_priv 1518 63 true).rx_head = (fresh_priv.rx_head + 1) % 64
    ∧ host_arm_net_read_reg (host_arm_net_receive_packet fresh_priv 1518 63 true) CTRL_RX_HEAD
        = (fresh_priv.rx_head + 1) % 64 :=
  have h := receive_packet_accept_effect fresh_priv 1518 63 true (by decide) (by decide)
    (by
      rw [receive_packet_accept_delivered fresh_priv 1518 63 (by decide) (by decide)
        (by decide)]
      have hd : fresh_priv.delivered = [] := rfl
      rw [hd]
      simp)
  ⟨h.2.2.1, h.2.2.2.2.1⟩

/-- C15: best-effort notification. Every submission of a valid-size frame on a ring
that is not full is accepted. If the mailbox send FIFO is not full, exactly one
mailbox register write is performed, to the data register, with the value
`MBOX_MSG_PACK(total_len, pre-advance tx_tail)`, and that message is appended to the
send FIFO. If the FIFO is full, no mailbox register is written and the mailbox is
unchanged. The slot bytes and the control area (all of shared memory), the
pending-transmit table and `tx_tail` after the call, and the returned code, do not
depend on the mailbox at all. -/
theorem start_xmit_notification_best_effort (priv : host_arm_net_priv) (skb : sk_buff)
    (hfull : (priv.tx_tail + 1) % 64 ≠ priv.tx_head) (hlen : 14 + skb.len ≤ 1518) :
    (host_arm_net_start_xmit priv skb).1 = netdev_tx_t.NETDEV_TX_OK
    ∧ ((mbox_is_full priv).1 = false →
        mailbox_writes (host_arm_net_start_xmit priv skb).2.io_log
          = mailbox_writes priv.io_log
              ++ [(XMB_WRITE_REG_OFFSET, MBOX_MSG_PACK (14 + skb.len) priv.tx_tail)]
        ∧ (host_arm_net_start_xmit priv skb).2.mbox.send_fifo
          = priv.mbox.send_fifo ++ [MBOX_MSG_PACK (14 + skb.len) priv.tx_tail])
    ∧ ((mbox_is_full priv).1 = true →
        mailbox_writes (host_arm_net_start_xmit priv skb).2.io_log = mailbox_writes priv.io_log
        ∧ (host_arm_net_start_xmit priv skb).2.mbox = priv.mbox)
    ∧ (∀ mb : Mbox,
        (host_arm_net_start_xmit { priv with mbox := mb } skb).1
          = (host_arm_net_start_xmit priv skb).1
        ∧ (host_arm_net_start_xmit { priv with mbox := mb } skb).2.shared_mem
          = (host_arm_net_start_xmit priv skb).2.shared_mem
        ∧ (host_arm_net_start_xmit { priv with mbox := mb } skb).2.tx_skb
          = (host_arm_net_start_xmit priv skb).2.tx_skb
        ∧ (host_arm_net_start_xmit { priv with mbox := mb } skb).2.tx_tail
          = (host_arm_net_start_xmit priv skb).2.tx_tail) := by
  obtain ⟨h1, h2, e1, -⟩ := start_xmit_tests priv skb hfull hlen
  refine ⟨start_xmit_accept_ret priv skb h1 h2, ?_, ?_, ?_⟩
  · intro hnf
    constructor
    · rw [start_xmit_accept_io_log priv skb h1 h2, mailbox_writes_append, if_pos hnf, e1,
        pack_mod]
      simp [mailbox_writes]
    · have hd : ¬ (priv.mbox.depth ≤ priv.mbox.send_fifo.length) := by
        have := (mbox_is_full_false_iff priv).mp hnf
        omega
      rw [start_xmit_accept_mbox priv skb h1 h2 hnf, e1]
      simp [Mbox.write, XMB_WRITE_REG_OFFSET, hd, pack_mod]
  · intro hf
    constructor
    · have hnf : ¬ ((mbox_is_full priv).1 = false) := by simp [hf]
      rw [start_xmit_accept_io_log priv skb h1 h2, mailbox_writes_append, if_neg hnf]
      simp [mailbox_writes]
    · exact start_xmit_accept_mbox_of_full priv skb h1 h2 hf
  · intro mb
    refine ⟨?_, ?_, ?_, ?_⟩
    · rw [start_xmit_accept_ret priv skb h1 h2,
        start_xmit_accept_ret { priv with mbox := mb } skb h1 h2]
    · rw [start_xmit_accept_shared_mem priv skb h1 h2,
        start_xmit_accept_shared_mem { priv with mbox := mb } skb h1 h2]
    · rw [start_xmit_accept_tx_skb priv skb h1 h2,
        start_xmit_accept_tx_skb { priv with mbox := mb } skb h1 h2]
    · rw [(start_xmit_accept_indices priv skb h1 h2).1,
        (start_xmit_accept_indices { priv with mbox := mb } skb h1 h2).1]

/-- Witness for C15: on a fresh transport (mailbox empty) one message is written; with a
full send FIFO (depth 0) none is, and the mailbox stays as it was. -/
theorem start_xmit_notification_best_effort_witness :
    mailbox_writes (host_arm_net_start_xmit fresh_priv (zero_skb 1 100)).2.io_log
        = mailbox_writes fresh_priv.io_log
            ++ [(XMB_WRITE_REG_OFFSET, MBOX_MSG_PACK (14 + (zero_skb 1 100).len)
                  fresh_priv.tx_tail)]
    ∧ (host_arm_net_start_xmit
          { fresh_priv with mbox := { fresh_priv.mbox with depth := 0 } }
          (zero_skb 1 100)).2.mbox
        = { fresh_priv.mbox with depth := 0 } :=
  ⟨((start_xmit_notification_best_effort fresh_priv (zero_skb 1 100) (by decide)
      (by decide)).2.1 (by decide)).1,
   ((start_xmit_notification_best_effort
      { fresh_priv with mbox := { fresh_priv.mbox with depth := 0 } } (zero_skb 1 100)
      (by decide) (by decide)).2.2.1 (by decide)).2⟩

/-- C16: interrupt dispatch. With `status` the interrupt-status bitmap the handler
reads: if `status` is zero the handler returns `IRQ_NONE` with the state exactly as
it was (no register written); whenever the handler returns, it returns `IRQ_NONE`
if and only if `status` is zero; for a non-zero `status` it returns `IRQ_HANDLED`,
the state it leaves is the one obtained by running the receive drain if bit 0x02 is
set, then the send-threshold branch if bit 0x01 is set, then the read of the error
register if bit 0x04 is set, and its last device write, after those actions, is
the write of `status` itself to the interrupt-status register. The handler does
return whenever its loops finish: the queue fits the iteration bound (bit 0x02),
and `tx_tail` and the reported `tx_head` are slot indices (bit 0x01). -/
theorem interrupt_dispatch (priv : host_arm_net_priv) (fuel : Nat) (alloc : Nat → Bool)
    (status : Nat) (hst : (mbox_get_interrupt_status priv).1 = status) :
    (status = 0 → host_arm_net_interrupt fuel alloc priv = some (irqreturn_t.IRQ_NONE, priv))
    ∧ (∀ ret priv1, host_arm_net_interrupt fuel alloc priv = some (ret, priv1) →
        (ret = irqreturn_t.IRQ_NONE ↔ status = 0))
    ∧ (status ≠ 0 → ∀ ret priv1, host_arm_net_interrupt fuel alloc priv = some (ret, priv1) →
        ret = irqreturn_t.IRQ_HANDLED
        ∧ ∃ after_rx after_tx,
            (if status &&& XMB_IX_RTA ≠ 0 then irq_receive_threshold fuel alloc priv
             else some priv) = some after_rx
            ∧ (if status &&& XMB_IX_STA ≠ 0 then irq_send_threshold fuel after_rx
               else some after_rx) = some after_tx
            ∧ priv1
                = mbox_clear_interrupt_status
                    (if status &&& XMB_IX_ERR ≠ 0 then
                      (mbox_read_reg after_tx XMB_ERROR_REG_OFFSET).2
                     else after_tx)
                    status
            ∧ priv1.io_log = after_tx.io_log ++ [IoWrite.mailbox XMB_IS_REG_OFFSET status])
    ∧ ((status &&& XMB_IX_RTA ≠ 0 → priv.mbox.recv_fifo.length ≤ fuel) →
        (status &&& XMB_IX_STA ≠ 0 →
          priv.tx_tail < 64 ∧ host_arm_net_read_reg priv CTRL_TX_HEAD < 64 ∧ 64 ≤ fuel) →
        ∃ r, host_arm_net_interrupt fuel alloc priv = some r) := by
  have hs : priv.mbox.is_reg % U32 = status := by
    rw [mbox_get_interrupt_status_eq] at hst; exact hst
  have hlt : status % U32 = status := by
    rw [← hs]; exact Nat.mod_mod _ _
  have hnz := host_arm_net_interrupt_handled priv fuel alloc status hst
  refine ⟨?_, ?_, hnz, ?_⟩
  · intro h0
    rw [host_arm_net_interrupt_eq, hs, if_pos h0]
  · intro ret priv1 hres
    by_cases h0 : status = 0
    · rw [host_arm_net_interrupt_eq, hs, if_pos h0] at hres
      simp only [Option.some.injEq, Prod.mk.injEq] at hres
      exact ⟨fun _ => h0, fun _ => hres.1.symm⟩
    · have hh := (hnz h0 ret priv1 hres).1
      constructor
      · intro hn; rw [hh] at hn; cases hn
      · intro hz; exact absurd hz h0
  · intro hrx htx
    exact host_arm_net_interrupt_returns fuel alloc priv (by rw [hs]; exact hrx)
      (by rw [hs]; exact htx)

/-- Witness for C16: on a fresh transport with no interrupt pending the handler returns
`IRQ_NONE` and leaves the state as it was; with the error bit raised it returns
`IRQ_HANDLED`. -/
theorem interrupt_dispatch_witness :
    host_arm_net_interrupt 64 (fun _ => true) fresh_priv
        = some (irqreturn_t.IRQ_NONE, fresh_priv)
    ∧ ∃ priv1, host_arm_net_interrupt 64 (fun _ => true) (mbox_raise fresh_priv XMB_IX_ERR)
        = some (irqreturn_t.IRQ_HANDLED, priv1) :=
  ⟨(interrupt_dispatch fresh_priv 64 (fun _ => true) 0 (by decide)).1 rfl,
   match (interrupt_dispatch (mbox_raise fresh_priv XMB_IX_ERR) 64 (fun _ => true) XMB_IX_ERR
      (by decide)).2.2.2 (fun h => absurd h (by decide)) (fun h => absurd h (by decide)) with
   | ⟨(ret, priv1), hres⟩ =>
     ⟨priv1, by
       have hret := ((interrupt_dispatch (mbox_raise fresh_priv XMB_IX_ERR) 64 (fun _ => true)
         XMB_IX_ERR (by decide)).2.2.1 (by decide) ret priv1 hres).1
       rw [hret] at hres
       exact hres⟩⟩

/-- C17: TX writes are confined to their slot. For `tx_tail` in `[0, 64)` and an
accepted frame (`total_len = 14 + n ≤ 1518`), the bulk writes of
`host_arm_net_start_xmit` are the 14 header bytes at `tx_tail * 1536` followed by
the `n` payload bytes at `tx_tail * 1536 + 14`, so they cover
`[tx_tail * 1536, tx_tail * 1536 + total_len)`, which lies inside the slot
`[tx_tail * 1536, (tx_tail + 1) * 1536)` and inside the TX ring area `[0, 0x20000)`.
Every byte of shared memory outside that range and outside the control-area
`tx_tail` field keeps its value; the only control-area write is the one of
`tx_tail`, and the fields `tx_head`, `rx_head` and `rx_tail` read as before. -/
theorem start_xmit_writes_confined (priv : host_arm_net_priv) (skb : sk_buff)
    (htail : priv.tx_tail < 64) (hfull : (priv.tx_tail + 1) % 64 ≠ priv.tx_head)
    (hlen : 14 + skb.len ≤ 1518) :
    priv.tx_tail * 1536 + (14 + skb.len) ≤ (priv.tx_tail + 1) * 1536
    ∧ (priv.tx_tail + 1) * 1536 ≤ 0x20000
    ∧ shared_writes (host_arm_net_start_xmit priv skb).2.io_log
        = shared_writes priv.io_log ++
            [(priv.tx_tail * 1536,
              List.replicate 6 (0xFF : Byte) ++ (List.range 6).map priv.dev_addr
                ++ [(0x08 : Byte), 0x00]),
             (priv.tx_tail * 1536 + 14, skb.data)]
    ∧ (List.replicate 6 (0xFF : Byte) ++ (List.range 6).map priv.dev_addr
          ++ [(0x08 : Byte), 0x00]).length = 14
    ∧ skb.data.length = skb.len
    ∧ (∀ a, ¬ (priv.tx_tail * 1536 ≤ a ∧ a < priv.tx_tail * 1536 + (14 + skb.len)) →
        ¬ (CONTROL_OFFSET + CTRL_TX_TAIL ≤ a ∧ a < CONTROL_OFFSET + CTRL_TX_TAIL + 4) →
        (host_arm_net_start_xmit priv skb).2.shared_mem a = priv.shared_mem a)
    ∧ control_writes (host_arm_net_start_xmit priv skb).2.io_log
        = control_writes priv.io_log ++ [(CTRL_TX_TAIL, (priv.tx_tail + 1) % 64)]
    ∧ host_arm_net_read_reg (host_arm_net_start_xmit priv skb).2 CTRL_TX_HEAD
        = host_arm_net_read_reg priv CTRL_TX_HEAD
    ∧ host_arm_net_read_reg (host_arm_net_start_xmit priv skb).2 CTRL_RX_HEAD
        = host_arm_net_read_reg priv CTRL_RX_HEAD
    ∧ host_arm_net_read_reg (host_arm_net_start_xmit priv skb).2 CTRL_RX_TAIL
        = host_arm_net_read_reg priv CTRL_RX_TAIL := by
  obtain ⟨h1, h2, -, e2⟩ := start_xmit_tests priv skb hfull hlen
  have hoff : (TX_RING_OFFSET + priv.tx_tail * RING_SPACING) % U32 = priv.tx_tail * 1536 := by
    simp only [TX_RING_OFFSET, RING_SPACING, U32]; omega
  have hms : priv.tx_tail * 1536 + MAC_HEADER_SIZE = priv.tx_tail * 1536 + 14 := rfl
  have hnt : (priv.tx_tail + 1) % 64 % U32 = (priv.tx_tail + 1) % 64 := by
    simp only [U32]; omega
  have hmem := start_xmit_accept_mem_outside priv skb htail hfull hlen
  have hreg : ∀ off, off = 0 ∨ off = 8 ∨ off = 12 →
      host_arm_net_read_reg (host_arm_net_start_xmit priv skb).2 off
        = host_arm_net_read_reg priv off := by
    intro off hoffs
    unfold host_arm_net_read_reg
    apply readl_congr
    intro a ha hb
    apply hmem a
    · simp only [CONTROL_OFFSET] at ha; omega
    · simp only [CONTROL_OFFSET, CTRL_TX_TAIL] at ha hb ⊢; omega
  refine ⟨by omega, by omega, ?_, by simp, rfl, hmem, ?_, hreg 0 (by simp),
    hreg 8 (by simp), hreg 12 (by simp)⟩
  · rw [start_xmit_accept_io_log priv skb h1 h2, shared_writes_append, hoff, hms]
    split <;> simp [shared_writes]
  · rw [start_xmit_accept_io_log priv skb h1 h2, control_writes_append, e2, hnt]
    split <;> simp [control_writes]

/-- Witness for C17: a 1504-byte payload in slot 0 of a fresh transport ends at byte
1518, inside the slot. -/
theorem start_xmit_writes_confined_witness :
    fresh_priv.tx_tail * 1536 + (14 + (zero_skb 1 1504).len) ≤ (fresh_priv.tx_tail + 1) * 1536
    ∧ host_arm_net_read_reg (host_arm_net_start_xmit fresh_priv (zero_skb 1 1504)).2 CTRL_RX_HEAD
        = host_arm_net_read_reg fresh_priv CTRL_RX_HEAD :=
  have h := start_xmit_writes_confined fresh_priv (zero_skb 1 1504) (by decide) (by decide)
    (by rw [zero_skb_len])
  ⟨h.1, h.2.2.2.2.2.2.2.2.1⟩

/-- C18: publication order. The device writes of one accepted
`host_arm_net_start_xmit` are, in this order: the header bytes into the slot, the
payload bytes into the slot, the new tail into the control-area `tx_tail` field, and
then the mailbox notification when one is sent (nothing more otherwise). The
control-area `tx_tail` is written once, after the slot data. -/
theorem start_xmit_publication_order (priv : host_arm_net_priv) (skb : sk_buff)
    (hfull : (priv.tx_tail + 1) % 64 ≠ priv.tx_head) (hlen : 14 + skb.len ≤ 1518) :
    ∃ notification,
      (host_arm_net_start_xmit priv skb).2.io_log
        = priv.io_log ++
            [IoWrite.shared ((TX_RING_OFFSET + priv.tx_tail * RING_SPACING) % U32)
                (List.replicate 6 (0xFF : Byte) ++ (List.range 6).map priv.dev_addr
                  ++ [(0x08 : Byte), 0x00]),
              IoWrite.shared ((TX_RING_OFFSET + priv.tx_tail * RING_SPACING) % U32 + 14)
                skb.data,
              IoWrite.control CTRL_TX_TAIL ((priv.tx_tail + 1) % 64)]
            ++ notification
      ∧ (notification = []
          ∨ notification
              = [IoWrite.mailbox XMB_WRITE_REG_OFFSET
                  (MBOX_MSG_PACK (14 + skb.len) priv.tx_tail)]) := by
  obtain ⟨h1, h2, e1, e2⟩ := start_xmit_tests priv skb hfull hlen
  have hnt : (priv.tx_tail + 1) % 64 % U32 = (priv.tx_tail + 1) % 64 := by
    simp only [U32]; omega
  have hms : ∀ x : Nat, x + MAC_HEADER_SIZE = x + 14 := fun _ => rfl
  rw [start_xmit_accept_io_log priv skb h1 h2, e1, e2, hnt, pack_mod, hms]
  by_cases hnf : (mbox_is_full priv).1 = false
  · exact ⟨_, by rw [if_pos hnf]; simp only [List.append_assoc], Or.inr rfl⟩
  · exact ⟨_, by rw [if_neg hnf]; simp only [List.append_assoc], Or.inl rfl⟩

/-- Witness for C18: a 100-byte packet on a fresh transport. -/
theorem start_xmit_publication_order_witness :
    ∃ notification,
      (host_arm_net_start_xmit fresh_priv (zero_skb 1 100)).2.io_log
        = fresh_priv.io_log ++
            [IoWrite.shared ((TX_RING_OFFSET + fresh_priv.tx_tail * RING_SPACING) % U32)
                (List.replicate 6 (0xFF : Byte) ++ (List.range 6).map fresh_priv.dev_addr
                  ++ [(0x08 : Byte), 0x00]),
              IoWrite.shared ((TX_RING_OFFSET + fresh_priv.tx_tail * RING_SPACING) % U32 + 14)
                (zero_skb 1 100).data,
              IoWrite.control CTRL_TX_TAIL ((fresh_priv.tx_tail + 1) % 64)]
            ++ notification
      ∧ (notification = []
          ∨ notification
              = [IoWrite.mailbox XMB_WRITE_REG_OFFSET
                  (MBOX_MSG_PACK (14 + (zero_skb 1 100).len) fresh_priv.tx_tail)]) :=
  start_xmit_publication_order fresh_priv (zero_skb 1 100) (by decide) (by decide)

/-- C19: effect of the send-threshold branch. In a state with `tx_tail = t < 64` whose
control-area `tx_head` field holds `h < 64`, the branch finishes and afterwards
`tx_head == tx_tail == h`; with `d` the cyclic distance `(h - t) mod 64`, the
pending-transmit entries at the indices `t, t + 1, ..., t + d - 1` (mod 64) are
empty, every other entry is unchanged, and the packets released are exactly those
found at these indices, in that order (none when `h == t`); no device write is
performed and shared memory, so the control-area `tx_tail` field, is unchanged. -/
theorem irq_send_threshold_effect (priv : host_arm_net_priv) (h fuel : Nat)
    (htail : priv.tx_tail < 64) (hh : h < 64)
    (hreg : host_arm_net_read_reg priv CTRL_TX_HEAD = h) (hfuel : 64 ≤ fuel) :
    ∃ priv1, irq_send_threshold fuel priv = some priv1
      ∧ priv1.tx_head = h ∧ priv1.tx_tail = h
      ∧ (∀ k, k < (h + 64 - priv.tx_tail) % 64 →
          priv1.tx_skb ((priv.tx_tail + k) % 64) = none)
      ∧ (∀ i, (∀ k, k < (h + 64 - priv.tx_tail) % 64 → i ≠ (priv.tx_tail + k) % 64) →
          priv1.tx_skb i = priv.tx_skb i)
      ∧ priv1.freed
          = priv.freed ++ (List.range ((h + 64 - priv.tx_tail) % 64)).filterMap
              (fun k => priv.tx_skb ((priv.tx_tail + k) % 64))
      ∧ (h = priv.tx_tail → priv1.tx_skb = priv.tx_skb ∧ priv1.freed = priv.freed)
      ∧ priv1.io_log = priv.io_log
      ∧ priv1.shared_mem = priv.shared_mem
      ∧ host_arm_net_read_reg priv1 CTRL_TX_TAIL = host_arm_net_read_reg priv CTRL_TX_TAIL := by
  obtain ⟨p1, hrun, h1, h2, h3, -, -, -, -, -, -, -, h11⟩ :=
    tx_free_loop_terminates ((h + 64 - priv.tx_tail) % 64) fuel
      { priv with tx_head := host_arm_net_read_reg priv CTRL_TX_HEAD }
      htail (by simp only [hreg]; exact hh) (by simp only [hreg]) (by omega)
  obtain ⟨p1', hrun', hskb, hfreed⟩ :=
    tx_free_loop_effect ((h + 64 - priv.tx_tail) % 64) fuel
      { priv with tx_head := host_arm_net_read_reg priv CTRL_TX_HEAD }
      htail (by simp only [hreg]; exact hh) (by simp only [hreg]) (by omega)
  rw [hrun] at hrun'
  cases hrun'
  simp only [hreg] at h1 h2 h3 h11 hskb hfreed
  have hskb_in : ∀ k, k < (h + 64 - priv.tx_tail) % 64 →
      p1.tx_skb ((priv.tx_tail + k) % 64) = none := by
    intro k hk
    rw [hskb]
    have hc : (priv.tx_tail + k) % 64 < 64
        ∧ ((priv.tx_tail + k) % 64 + 64 - priv.tx_tail) % 64 < (h + 64 - priv.tx_tail) % 64 := by
      omega
    rw [if_pos hc]
  have hskb_out : ∀ i, (∀ k, k < (h + 64 - priv.tx_tail) % 64 → i ≠ (priv.tx_tail + k) % 64) →
      p1.tx_skb i = priv.tx_skb i := by
    intro i hi
    rw [hskb]
    by_cases hc : i < 64 ∧ (i + 64 - priv.tx_tail) % 64 < (h + 64 - priv.tx_tail) % 64
    · exact absurd (by omega) (hi ((i + 64 - priv.tx_tail) % 64) hc.2)
    · rw [if_neg hc]
  refine ⟨{ p1 with queue_stopped := false }, ?_, h2, h1, hskb_in, hskb_out, hfreed, ?_, h11,
    h3, ?_⟩
  · rw [irq_send_threshold_eq, hrun]
    rfl
  · intro heq
    have hd0 : (h + 64 - priv.tx_tail) % 64 = 0 := by omega
    constructor
    · funext i
      exact hskb_out i (fun k hk => by omega)
    · show p1.freed = priv.freed
      rw [hfreed, hd0]
      simp
  · show readl p1.shared_mem _ = readl priv.shared_mem _
    rw [h3]

/-- Witness for C19: a fresh transport after one accepted submission, the peer
reporting `tx_head = 1`: the indices meet at 1 and nothing is released. -/
theorem irq_send_threshold_effect_witness :
    ∃ priv1,
      irq_send_threshold 64
          (peer_write_reg (host_arm_net_start_xmit fresh_priv (zero_skb 0 100)).2 CTRL_TX_HEAD 1)
        = some priv1
      ∧ priv1.tx_head = 1 ∧ priv1.tx_tail = 1 :=
  match irq_send_threshold_effect
      (peer_write_reg (host_arm_net_start_xmit fresh_priv (zero_skb 0 100)).2 CTRL_TX_HEAD 1)
      1 64 (by decide) (by decide) (readl_writel _ _ 1) (by decide) with
  | ⟨priv1, hrun, hh, ht, _⟩ => ⟨priv1, hrun, hh, ht⟩

/-- C20: index range invariant. In every state reached from `host_arm_net_open` (on any
prior state) by any sequence of submissions, interrupts that return, and arbitrary
changes of shared memory (control area included) and of the mailbox by the peer and
the hardware, the local `tx_tail` and `rx_head` are in `[0, 64)`. Hence the access
`tx_skb[tx_tail]` of `host_arm_net_start_xmit` is inside the 64-entry table, and so
is every access `tx_skb[tx_tail]` of the loop of the interrupt handler, whose
iterations all keep `tx_tail` below 64. -/
theorem index_range_invariant (priv0 : host_arm_net_priv) (events : List Event)
    (priv : host_arm_net_priv) (hrun : run (host_arm_net_open priv0) events = some priv) :
    priv.tx_tail < 64 ∧ priv.rx_head < 64
    ∧ priv.tx_tail < TX_RING_SIZE
    ∧ (∀ q : host_arm_net_priv, q.tx_tail = priv.tx_tail →
        ∀ k, (tx_free_body^[k] q).tx_tail < TX_RING_SIZE) := by
  have h0 : (host_arm_net_open priv0).tx_tail = 0 := rfl
  have h1 : (host_arm_net_open priv0).rx_head = 0 := rfl
  obtain ⟨ht, hr⟩ := run_index_range events _ priv hrun (by rw [h0]; decide) (by rw [h1]; decide)
  exact ⟨ht, hr, ht, fun q hq k => tx_free_body_iterate_index_range k q (by rw [hq]; exact ht)⟩

/-- Witness for C20: a submission on a fresh transport, then the peer reporting
`tx_head = 1` while the mailbox shows a send-threshold interrupt, then the interrupt,
which returns. -/
theorem index_range_invariant_witness :
    ∃ priv,
      run fresh_priv
          [Event.xmit (zero_skb 0 100),
           Event.device
             (writel (host_arm_net_start_xmit fresh_priv (zero_skb 0 100)).2.shared_mem
               (CONTROL_OFFSET + CTRL_TX_HEAD) 1)
             { Mbox.idle with is_reg := XMB_IX_STA },
           Event.irq 64 (fun _ => true)]
        = some priv
      ∧ priv.tx_tail < 64 ∧ priv.rx_head < 64 :=
  match host_arm_net_interrupt_returns 64 (fun _ => true)
      { (host_arm_net_start_xmit fresh_priv (zero_skb 0 100)).2 with
        shared_mem :=
          writel (host_arm_net_start_xmit fresh_priv (zero_skb 0 100)).2.shared_mem
            (CONTROL_OFFSET + CTRL_TX_HEAD) 1,
        mbox := { Mbox.idle with is_reg := XMB_IX_STA } }
      (fun _ => by decide)
      (fun _ => ⟨by decide, by
        show readl (writel _ (CONTROL_OFFSET + CTRL_TX_HEAD) 1) (CONTROL_OFFSET + CTRL_TX_HEAD) < 64
        rw [readl_writel]; decide, by decide⟩) with
  | ⟨r, hres⟩ =>
    have hrun : run fresh_priv
        [Event.xmit (zero_skb 0 100),
         Event.device
           (writel (host_arm_net_start_xmit fresh_priv (zero_skb 0 100)).2.shared_mem
             (CONTROL_OFFSET + CTRL_TX_HEAD) 1)
           { Mbox.idle with is_reg := XMB_IX_STA },
         Event.irq 64 (fun _ => true)] = some r.2 := by
      simp only [run, step, hres, Option.map]
    have h := index_range_invariant
      (probed_priv (fun _ => 0) Mbox.idle (fun i => if i = 0 then 2 else if i = 5 then 1 else 0))
      _ r.2 hrun
    ⟨r.2, hrun, h.1, h.2.1⟩

/-- C21: the slot index of a notification is not checked against the ring capacity.
For every transport state, every valid length `L` (1 .. 1518) and every 16-bit slot
index `I`, `host_arm_net_receive_packet` delivers a frame if and only if the buffer
allocation succeeds and `I * 1536 + L <= 0x20000`; the condition mentions neither
`RX_RING_SIZE` nor `rx_head`, so the outcome is the same in every other state. An
accepted index at or above `RX_RING_SIZE = 64` delivers the `L` bytes found at
receive-area offset `I * 1536`, which starts at or beyond the end of the last slot
(`64 * 1536`), counts no drop and moves `rx_head` to `(rx_head + 1) mod 64`. Such
indices exist for every valid length: 64 .. 84 are accepted for every valid length,
85 exactly for the lengths up to 512, and every index above 85 is dropped. -/
theorem receive_packet_index_not_checked (priv : host_arm_net_priv) (L I : Nat)
    (h0 : L ≠ 0) (h1 : L ≤ 1518) (hI : I < 65536) :
    (∀ alloc_ok : Bool,
      ((host_arm_net_receive_packet priv L I alloc_ok).delivered ≠ priv.delivered
        ↔ (alloc_ok = true ∧ I * 1536 + L ≤ 0x20000)))
    ∧ (∀ (priv2 : host_arm_net_priv) (alloc_ok : Bool),
        ((host_arm_net_receive_packet priv2 L I alloc_ok).delivered ≠ priv2.delivered
          ↔ (host_arm_net_receive_packet priv L I alloc_ok).delivered ≠ priv.delivered))
    ∧ (RX_RING_SIZE ≤ I → I * 1536 + L ≤ 0x20000 →
        (host_arm_net_receive_packet priv L I true).delivered
          = priv.delivered
            ++ [memcpy_fromio priv.shared_mem (RX_RING_OFFSET + I * RING_SPACING) L]
        ∧ RX_RING_OFFSET + RX_RING_SIZE * RING_SPACING ≤ RX_RING_OFFSET + I * RING_SPACING
        ∧ (host_arm_net_receive_packet priv L I true).rx_head
            = (priv.rx_head + 1) % RX_RING_SIZE
        ∧ (host_arm_net_receive_packet priv L I true).stats.rx_dropped
            = priv.stats.rx_dropped)
    ∧ (RX_RING_SIZE ≤ I → I ≤ 84 →
        (host_arm_net_receive_packet priv L I true).delivered ≠ priv.delivered)
    ∧ (I = 85 →
        ((host_arm_net_receive_packet priv L I true).delivered ≠ priv.delivered
          ↔ L ≤ 512))
    ∧ (86 ≤ I → ∀ alloc_ok : Bool,
        host_arm_net_receive_packet priv L I alloc_ok = rx_drop priv) := by
  have hiff := fun (p : host_arm_net_priv) (b : Bool) =>
    receive_packet_delivers_iff p L I b h0 h1 hI
  refine ⟨hiff priv, ?_, ?_, ?_, ?_, ?_⟩
  · intro priv2 alloc_ok
    rw [hiff priv2 alloc_ok, hiff priv alloc_ok]
  · intro _ h2
    rw [receive_packet_accept_eq priv L I h0 h1 h2]
    refine ⟨rfl, ?_, rfl, rfl⟩
    simp only [RX_RING_OFFSET, RX_RING_SIZE, RING_SPACING] at *
    omega
  · intro hlo hhi
    simp only [RX_RING_SIZE] at hlo
    exact (hiff priv true).2 ⟨rfl, by omega⟩
  · intro h85
    rw [hiff priv true]
    constructor
    · intro h; omega
    · intro h; exact ⟨rfl, by omega⟩
  · intro h86 alloc_ok
    rw [receive_packet_closed_form priv L I alloc_ok h0 h1 hI, if_neg (by omega)]

/-- Witness for C21: on a fresh transport the notifications for 512 bytes at index 85
and for 1518 bytes at index 64, both outside the 64-slot ring, are delivered from
beyond the last slot and each moves `rx_head` from 0 to 1. -/
theorem receive_packet_index_not_checked_witness :
    ((host_arm_net_receive_packet fresh_priv 512 85 true).delivered
        = fresh_priv.delivered
          ++ [memcpy_fromio fresh_priv.shared_mem (RX_RING_OFFSET + 85 * RING_SPACING) 512]
      ∧ (host_arm_net_receive_packet fresh_priv 512 85 true).rx_head = 1)
    ∧ ((host_arm_net_receive_packet fresh_priv 1518 64 true).delivered
        = fresh_priv.delivered
          ++ [memcpy_fromio fresh_priv.shared_mem (RX_RING_OFFSET + 64 * RING_SPACING) 1518]
      ∧ (host_arm_net_receive_packet fresh_priv 1518 64 true).rx_head = 1) :=
  have ha := (receive_packet_index_not_checked fresh_priv 512 85
    (by decide) (by decide) (by decide)).2.2.1 (by decide) (by decide)
  have hb := (receive_packet_index_not_checked fresh_priv 1518 64
    (by decide) (by decide) (by decide)).2.2.1 (by decide) (by decide)
  ⟨⟨ha.1, ha.2.2.1⟩, ⟨hb.1, hb.2.2.1⟩⟩

end HostArmNet
